import Mathlib

/-!
# AzureHound: resilient delivery client and signing transport

A shallow embedding of `client/bloodhound/client.go`, `client/bloodhound/transport.go`,
`client/bloodhound/reader.go`, the helpers of `client/rest/utils.go` they call, and the
startup chain and poll task of `cmd/start.go`.

The network and the standard library are external collaborators.  They enter the
model through `Env` (the outcome of every `httpClient.Do` call, of every
`rest.NewHTTPClient` call, of the JSON/gzip encoder and of URL parsing) and through
`Crypto` (HMAC-SHA256 and base64) for the signing transport.  The state threads the
mutable fields of `*BHEClient` together with a trace of the calls made to the
collaborators: the number of requests sent, the number of clients built and the
backoff calls.

Left out, as they do not change the control flow or the values modelled: logging,
`CloseIdleConnections`, the closing of response bodies, and the mutex (the calls of
one client are taken one after the other).  A stream of batches is the list of the
batches the channel delivers before it is closed or the context is done.
-/

namespace AzureHound

/-! ## Errors and their classification (`client/rest/utils.go`) -/

/-- A Go `error` as the client observes it: the text of `err.Error()` and whether
`errors.As` finds a `*http2.GoAwayError` in its chain. -/
structure GoError where
  message : String
  goAway : Bool
deriving DecidableEq

/-- The text `fmt.Errorf` produces; such an error wraps no `*http2.GoAwayError`. -/
def fmtErrorf (message : String) : GoError := ⟨message, false⟩

/-- The message Windows reports for a connection reset by the peer. -/
def closedConnectionMsg : String :=
  "An existing connection was forcibly closed by the remote host."

/-- Go `strings.Contains`, on the characters of the two strings. -/
def stringsContains : List Char → List Char → Bool
  | [], substr => substr.isEmpty
  | c :: cs, substr => substr.isPrefixOf (c :: cs) || stringsContains cs substr

/-- Go `strings.HasSuffix`, on the characters of the two strings. -/
def stringsHasSuffix (s suffix : List Char) : Bool := suffix.isSuffixOf s

/-- Embeds `IsClosedConnectionErr` (utils.go:130). -/
def IsClosedConnectionErr (err : GoError) : Bool :=
  let closedFromClient := stringsContains err.message.toList closedConnectionMsg.toList
  let closedFromTestCase := stringsHasSuffix err.message.toList ": EOF".toList
  closedFromClient || closedFromTestCase

/-- Embeds `IsGoAwayErr` (utils.go:139). -/
def IsGoAwayErr (err : GoError) : Bool := err.goAway

/-! ## Requests, bodies and responses -/

/-- Byte strings (`[]byte`). -/
abbrev Bytes := List UInt8

/-- The bytes of a Go string. -/
def bytesOf (s : String) : Bytes := s.toUTF8.toList

/-- Embeds `rewindableByteReader` (reader.go:8): a `bytes.Reader` over `data` whose
read cursor stands at `offset`. -/
structure rewindableByteReader where
  data : Bytes
  offset : Nat
deriving DecidableEq

/-- Embeds `rewindableByteReader.Rewind` (reader.go:20): `Seek(0, io.SeekStart)` on a
`bytes.Reader` returns the new offset 0 and no error, and moves the cursor there. -/
def rewindableByteReader.Rewind (r : rewindableByteReader) :
    (Int × Option GoError) × rewindableByteReader :=
  ((0, none), { r with offset := 0 })

/-- A request body (`io.ReadCloser`).  `rewindable r` is a `*rewindableByteReader`;
`reader data err` is any other reader: it still yields `data` and then ends with
`io.EOF` (`none`) or with the read error `err`. -/
inductive Body where
  | rewindable (r : rewindableByteReader)
  | reader (data : Bytes) (err : Option GoError)
deriving DecidableEq

/-- The bytes a body still yields. -/
def Body.remaining : Body → Bytes
  | .rewindable r => r.data.drop r.offset
  | .reader data _ => data

/-- The error that ends the reads of a body, `none` for `io.EOF`. -/
def Body.terminal : Body → Option GoError
  | .rewindable _ => none
  | .reader _ err => err

/-- The fields of `*http.Request` the client touches.  `URL` is `req.URL.String()`,
`Path` is `req.URL.Path`; `Header k` is the list of values stored under key `k`. -/
structure Request where
  Method : String
  URL : String
  Path : String
  Header : String → List String
  Body : Option Body

/-- Go `http.Header.Get`: the first value stored under the key, or the empty string.
Keys are compared as written; the code spells each header one way only, so the
canonical form `http.Header` gives a key plays no part. -/
def Request.HeaderGet (req : Request) (key : String) : String :=
  (req.Header key).headD ""

/-- Go `http.Header.Set`: the key now holds exactly the one value. -/
def Request.HeaderSet (req : Request) (key value : String) : Request :=
  { req with Header := fun k => if k = key then [value] else req.Header k }

/-- The fields of `*http.Response` the client reads.  `Body` is the JSON raw message
the response body decodes to, or `none` when decoding fails. -/
structure Response where
  StatusCode : Int
  Status : String
  Body : Option String
deriving DecidableEq

deriving instance DecidableEq for Except

/-- Go `io.ReadAll` on a body: the bytes read and the error other than `io.EOF`. -/
def ioReadAll (b : Body) : Bytes × Option GoError := (b.remaining, b.terminal)

/-- Embeds `CopyBody` (utils.go:154): the copied bytes (`none` for a nil slice), the
error, and the request with its body replaced by a fresh buffer over the copy. -/
def CopyBody (req : Request) : (Option Bytes × Option GoError) × Request :=
  match req.Body with
  | none => ((none, none), req)
  | some b =>
    let (body, err) := ioReadAll b
    ((some body, err), { req with Body := some (.reader body none) })

/-! ## The client and its collaborators (`client/bloodhound/client.go`) -/

/-- The fields of `BHEClient`.  `httpClient` names the underlying `*http.Client` by
the `rest.NewHTTPClient` call that built it (0 for the one the client was created
with). -/
structure BHEClient where
  httpClient : Nat
  bheUrl : String
  requestLimit : Int
  currentRequestCount : Int
  maxRetries : Int
  retryDelay : Int
  proxy : String
  token : String
  tokenId : String

/-- An opaque collected record (`any`): a value the JSON encoder accepts, or one it
rejects (a channel, a function). -/
inductive Record where
  | value (json : String)
  | unsupported
deriving DecidableEq

/-- The external collaborators.
* `Do n req`: what the `n`-th call of `httpClient.Do` returns (counting from 0).
* `NewHTTPClient n proxy`: the error of the `n`-th call of `rest.NewHTTPClient`,
  `none` when it builds a client.
* `Encode data`: the bytes `json.NewEncoder(gw).Encode` and `gw.Close` leave in the
  buffer, and the encoder's error.
* `ParseURL url`: the path of the parsed URL, or the parse error
  (`http.NewRequestWithContext`).
* `UserAgent`: `constants.UserAgent()`. -/
structure Env where
  Do : Nat → Request → Except GoError Response
  NewHTTPClient : Nat → String → Option GoError
  Encode : List Record → Bytes × Option GoError
  ParseURL : String → Except GoError String
  UserAgent : String

/-- The client together with the trace of its calls: `requests` counts the
`httpClient.Do` calls made so far, `clientsBuilt` the `rest.NewHTTPClient` calls, and
`sleeps` lists the arguments `(base, retry)` of every `VariableExponentialBackoff`
call, oldest first. -/
structure State where
  s : BHEClient
  requests : Nat
  clientsBuilt : Nat
  sleeps : List (Int × Int)

/-- One call `s.httpClient.Do(req)`. -/
def httpClientDo (env : Env) (req : Request) (st : State) :
    Except GoError Response × State :=
  (env.Do st.requests req, { st with requests := st.requests + 1 })

/-- One call `rest.VariableExponentialBackoff(base, retry)` (utils.go:149): the
call is recorded; it has no other effect on the client. -/
def VariableExponentialBackoff (base retry : Int) (st : State) : State :=
  { st with sleeps := st.sleeps ++ [(base, retry)] }

/-- Embeds `BHEClient.resetConnection` (client.go:393). -/
def resetConnection (env : Env) (st : State) : Option GoError × State :=
  let st1 := { st with clientsBuilt := st.clientsBuilt + 1 }
  match env.NewHTTPClient st.clientsBuilt st.s.proxy with
  | some err => (some err, st1)
  | none =>
    (none, { st1 with s := { st1.s with currentRequestCount := 0,
                                        httpClient := st1.clientsBuilt } })

/-- Embeds `BHEClient.incrementRequest` (client.go:419). -/
def incrementRequest (env : Env) (st : State) : Option GoError × State :=
  let st1 := { st with s := { st.s with currentRequestCount := st.s.currentRequestCount + 1 } }
  let needsReset := decide (st1.s.currentRequestCount ≥ st1.s.requestLimit)
  if needsReset then resetConnection env st1 else (none, st1)

/-- The retry loop of `BHEClient.SendRequest` (client.go:97-147) and the statement
after it (client.go:150).  The loop `for currentAttempt := 0; currentAttempt <=
s.maxRetries; currentAttempt++` runs its body for `currentAttempt = 0, ..,
maxRetries` unless it returns earlier; the first argument is the number of
iterations still to run. -/
def sendRequestLoop (env : Env) (body : Option Bytes) :
    Nat → Int → Request → State → Except GoError Response × State
  | 0, _, req, st =>
    (.error (fmtErrorf ("unable to complete request to url=" ++ req.URL ++ "; attempts="
      ++ toString st.s.maxRetries ++ ";")), st)
  | n + 1, currentAttempt, req, st =>
    let req1 : Request :=
      match body with
      | some b => if currentAttempt > 0 then { req with Body := some (.reader b none) } else req
      | none => req
    match httpClientDo env req1 st with
    | (.error err, st1) =>
      if IsClosedConnectionErr err then
        sendRequestLoop env body n (currentAttempt + 1) req1
          (VariableExponentialBackoff st1.s.retryDelay currentAttempt st1)
      else if IsGoAwayErr err then
        sendRequestLoop env body n (currentAttempt + 1) req1
          (VariableExponentialBackoff st1.s.retryDelay currentAttempt st1)
      else (.error err, st1)
    | (.ok res, st1) =>
      match incrementRequest env st1 with
      | (some err, st2) => (.error err, st2)
      | (none, st2) =>
        if res.StatusCode < 200 || res.StatusCode ≥ 400 then
          if res.StatusCode ≥ 500 then
            sendRequestLoop env body n (currentAttempt + 1) req1
              (VariableExponentialBackoff st2.s.retryDelay currentAttempt st2)
          else
            match res.Body with
            | none =>
              (.error (fmtErrorf ("received unexpected response code from " ++ req1.URL ++ ": "
                ++ res.Status ++ "; failure reading response body")), st2)
            | some raw =>
              (.error (fmtErrorf ("received unexpected response code from " ++ req1.URL ++ ": "
                ++ res.Status ++ " " ++ raw)), st2)
        else (.ok res, st2)

/-- Embeds `BHEClient.SendRequest` (client.go:88). -/
def SendRequest (env : Env) (req : Request) (st : State) :
    Except GoError Response × State :=
  match CopyBody req with
  | ((_, some err), _) => (.error err, st)
  | ((body, none), req1) => sendRequestLoop env body (st.s.maxRetries + 1).toNat 0 req1 st

/-- Go `http.NewRequestWithContext` with a non-nil context and a valid method: it
fails when the URL does not parse. -/
def NewRequestWithContext (env : Env) (method url : String) (body : Bytes) :
    Except GoError Request :=
  match env.ParseURL url with
  | .error err => .error err
  | .ok path =>
    .ok { Method := method, URL := url, Path := path, Header := fun _ => [],
          Body := some (.reader body none) }

/-- The ingest endpoint: `s.bheUrl.ResolveReference(&url.URL{Path: "/api/v2/ingest"})`,
for a base URL given as scheme and host. -/
def ingestEndpoint (s : BHEClient) : String := s.bheUrl ++ "/api/v2/ingest"

/-- How the retry loop of one batch ends: `aborted` when a `return true` inside the
loop was reached, `finished hasErrors` when the loop ran to its end with the flag at
that value. -/
inductive BatchResult where
  | aborted
  | finished (hasErrors : Bool)
deriving DecidableEq

/-- The retry loop `BHEClient.Ingest` runs for one batch (client.go:189-261).  As in
`sendRequestLoop`, the first argument is the number of iterations still to run, for
the loop `for currentAttempt := 0; currentAttempt <= s.maxRetries; currentAttempt++`.
After a 202 response the body of the loop ends without leaving the loop. -/
def ingestRetryLoop (env : Env) (req : Request) :
    Nat → Int → Bool → State → BatchResult × State
  | 0, _, hasErrors, st => (.finished hasErrors, st)
  | n + 1, currentAttempt, hasErrors, st =>
    match httpClientDo env req st with
    | (.error err, st1) =>
      if IsClosedConnectionErr err then
        if currentAttempt = st1.s.maxRetries then
          ingestRetryLoop env req n (currentAttempt + 1) true st1
        else
          ingestRetryLoop env req n (currentAttempt + 1) hasErrors
            (VariableExponentialBackoff st1.s.retryDelay currentAttempt st1)
      else if IsGoAwayErr err then
        if currentAttempt = st1.s.maxRetries then
          ingestRetryLoop env req n (currentAttempt + 1) true st1
        else
          ingestRetryLoop env req n (currentAttempt + 1) hasErrors
            (VariableExponentialBackoff st1.s.retryDelay currentAttempt st1)
      else (.aborted, st1)
    | (.ok response, st1) =>
      match incrementRequest env st1 with
      | (some _, st2) => (.aborted, st2)
      | (none, st2) =>
        if response.StatusCode = 504 || response.StatusCode = 503
            || response.StatusCode = 502 then
          if currentAttempt = st2.s.maxRetries then
            ingestRetryLoop env req n (currentAttempt + 1) true st2
          else
            ingestRetryLoop env req n (currentAttempt + 1) hasErrors
              (VariableExponentialBackoff st2.s.retryDelay currentAttempt st2)
        else if response.StatusCode ≠ 202 then (.aborted, st2)
        else ingestRetryLoop env req n (currentAttempt + 1) hasErrors st2

/-- The request `BHEClient.Ingest` builds for one batch (client.go:163-187): the
encoded batch is posted to the ingest endpoint with the three headers set.  An encoder
error is logged only; the request is built all the same. -/
def newIngestRequest (env : Env) (s : BHEClient) (data : List Record) :
    Except GoError Request :=
  match NewRequestWithContext env "POST" (ingestEndpoint s) (env.Encode data).1 with
  | .error err => .error err
  | .ok req =>
    .ok (((req.HeaderSet "User-Agent" env.UserAgent).HeaderSet "Accept"
      "application/json").HeaderSet "Content-Encoding" "gzip")

/-- The loop over the batches of `BHEClient.Ingest` (client.go:162-263) and the
final `return hasErrors`.  The list holds the batches the channel delivers before it
is closed or the context is done. -/
def ingestBatches (env : Env) : List (List Record) → Bool → State → Bool × State
  | [], hasErrors, st => (hasErrors, st)
  | data :: rest, hasErrors, st =>
    match newIngestRequest env st.s data with
    | .error _ => (true, st)
    | .ok req =>
      match ingestRetryLoop env req (st.s.maxRetries + 1).toNat 0 hasErrors st with
      | (.aborted, st1) => (true, st1)
      | (.finished hasErrors1, st1) => ingestBatches env rest hasErrors1 st1

/-- Embeds `BHEClient.Ingest` (client.go:154): the returned flag and the state
after the call. -/
def Ingest (env : Env) (batches : List (List Record)) (st : State) : Bool × State :=
  ingestBatches env batches false st

/-- A client as `NewBHEClient` (client.go:60) returns it, with no call made yet. -/
def NewBHEClient (bheUrl tokenId token proxy : String) (maxReqPerConn maxRetries : Int) :
    State :=
  { s := { httpClient := 0, bheUrl := bheUrl, requestLimit := maxReqPerConn,
           currentRequestCount := 0, maxRetries := maxRetries, retryDelay := 5,
           proxy := proxy, token := token, tokenId := tokenId },
    requests := 0, clientsBuilt := 0, sleeps := [] }

/-- An endpoint that answers every request with the given status; every other
collaborator succeeds. -/
def alwaysStatus (status : Int) : Env :=
  { Do := fun _ _ => .ok { StatusCode := status, Status := toString status, Body := none },
    NewHTTPClient := fun _ _ => none,
    Encode := fun _ => ([], none),
    ParseURL := fun _ => .ok "/api/v2/ingest",
    UserAgent := "azurehound" }

/-- An endpoint whose `n`-th answer has the `n`-th status of the script, and 202
once the script is over; every other collaborator succeeds. -/
def scripted (script : List Int) : Env :=
  { alwaysStatus 202 with
    Do := fun n _ =>
      .ok { StatusCode := script.getD n 202, Status := toString (script.getD n 202),
            Body := none } }

/-- The error `http.Client.Do` returns when the server sent GOAWAY. -/
def goAwayError : GoError :=
  ⟨"http2: server sent GOAWAY and closed the connection", true⟩

/-- A transport that fails every request with the given error; every other
collaborator succeeds. -/
def alwaysError (err : GoError) : Env :=
  { alwaysStatus 202 with Do := fun _ _ => .error err }

/-- A transport whose `rest.NewHTTPClient` always fails, with an endpoint that
answers every request with the given status. -/
def failingResets (status : Int) : Env :=
  { alwaysStatus status with
    NewHTTPClient := fun _ _ => some (fmtErrorf "unable to build the HTTP client") }

/-- The request of the `SendRequest` tests: `http.NewRequest("GET", "http://bhe.com", nil)`. -/
def getRequest : Request :=
  { Method := "GET", URL := "http://bhe.com", Path := "", Header := fun _ => [], Body := none }

/-- The stream of the `Ingest` tests: one batch holding one record. -/
def testBatch : List Record := [.value "test"]

/-- A client as the tests build it, for the given request limit and retry count. -/
def testClient (maxReqPerConn maxRetries : Int) : State :=
  NewBHEClient "http://bhe.com" "tokenId" "token" "" maxReqPerConn maxRetries

/-- Every URL handed to `http.NewRequestWithContext` parses. -/
def urlsParse (env : Env) : Prop := ∀ url, ∃ path, env.ParseURL url = .ok path

/-! ## The signing transport (`client/bloodhound/transport.go`) -/

/-- The standard-library primitives the signing transport uses: HMAC-SHA256 of a
message under a key, and standard base64 encoding. -/
structure Crypto where
  hmacSHA256 : Bytes → Bytes → Bytes
  base64 : Bytes → String

/-- The state of `hmac.New(sha256.New, key)`: the key and the bytes written so far. -/
structure Digester where
  key : Bytes
  written : Bytes

/-- Go `hmac.New(sha256.New, key)`. -/
def hmacNew (key : Bytes) : Digester := ⟨key, []⟩

/-- Go `digester.Write(p)`: the bytes are appended to the message. -/
def Digester.Write (d : Digester) (p : Bytes) : Digester :=
  { d with written := d.written ++ p }

/-- Go `digester.Sum(nil)`: the MAC of everything written. -/
def Digester.Sum (c : Crypto) (d : Digester) : Bytes := c.hmacSHA256 d.key d.written

/-- The results of the successive `Read` calls, with a buffer of `size` bytes, that
return data: each takes up to `size` of the bytes left.  The first argument bounds the
number of reads; `data.length` reads are enough for every `size > 0`
(`readChunks_flatten`). -/
def readChunks (size : Nat) : Nat → Bytes → List Bytes
  | 0, _ => []
  | fuel + 1, data =>
    if data = [] then [] else data.take size :: readChunks size fuel (data.drop size)

/-- The loop of `RoundTrip` over the reads of `tee` (transport.go:66-81): every chunk
read is written to the digester, and the tee reader has copied it into `body`. -/
def hashLoop : List Bytes → Digester → Bytes → Digester × Bytes
  | [], digester, body => (digester, body)
  | chunk :: rest, digester, body =>
    hashLoop rest (if chunk.length > 0 then digester.Write chunk else digester) (body ++ chunk)

/-- The fields of `signingTransport` other than the base transport it delegates to. -/
structure signingTransport where
  tokenId : String
  token : String
  signature : String

/-- Embeds `signingTransport.RoundTrip` (transport.go:27) up to the final
`s.base.RoundTrip(req)`: the result is the error returned before delegating, or the
request handed to the base transport.  `datetime` is
`time.Now().Format(time.RFC3339)`, at least 20 bytes long, so that `datetime[:13]`
is its first 13 bytes. -/
def signingTransport.RoundTrip (c : Crypto) (s : signingTransport) (datetime : String)
    (req : Request) : Except GoError Request :=
  let rewound : Except GoError Request :=
    match req.Body with
    | some (.rewindable rbr) =>
      match rbr.Rewind with
      | ((_, some err), _) => .error err
      | ((_, none), rbr1) => .ok { req with Body := some (.rewindable rbr1) }
    | _ => .ok req
  match rewound with
  | .error err => .error err
  | .ok req1 =>
    if req1.HeaderGet "Signature" = "" then
      let digester := (hmacNew (bytesOf s.token)).Write (bytesOf (req1.Method ++ req1.Path))
      let digester := (hmacNew (digester.Sum c)).Write ((bytesOf datetime).take 13)
      let digester := hmacNew (digester.Sum c)
      let hashed : Except GoError (Digester × Request) :=
        match req1.Body with
        | some b =>
          let (digester1, body) :=
            hashLoop (readChunks (64 * 1024) b.remaining.length b.remaining) digester []
          match b.terminal with
          | some err => .error err
          | none => .ok (digester1, { req1 with Body := some (.rewindable ⟨body, 0⟩) })
        | none => .ok (digester, req1)
      match hashed with
      | .error err => .error err
      | .ok (digester1, req2) =>
        let signature := digester1.Sum c
        .ok (((req2.HeaderSet "Authorization" (s.signature ++ " " ++ s.tokenId)).HeaderSet
          "RequestDate" datetime).HeaderSet "Signature" (c.base64 signature))
    else .ok req1

/-- The signature the spec gives for a request:
base64(HMAC(HMAC(HMAC(token, method ++ path), truncated datetime), body)). -/
def RequestSignature (c : Crypto) (token method path : String) (datetime : String)
    (body : Bytes) : String :=
  c.base64 (c.hmacSHA256 (c.hmacSHA256 (c.hmacSHA256 (bytesOf token) (bytesOf (method ++ path)))
    ((bytesOf datetime).take 13)) body)

/-- The constant `BHEAuthSignature` (client.go:26). -/
def BHEAuthSignature : String := "bhesignature"

/-! ## Predicates on attempt outcomes used in the statements -/

/-- An attempt outcome `SendRequest` answers with backoff and another iteration: a
transport error classified as closed-connection or GOAWAY, or a response with status
500 or more. -/
def sendRetryable (outcome : Except GoError Response) : Bool :=
  match outcome with
  | .error err => IsClosedConnectionErr err || IsGoAwayErr err
  | .ok res => decide (res.StatusCode ≥ 500)

/-- A transport error classified as closed-connection or GOAWAY. -/
def retryableTransportError (outcome : Except GoError Response) : Bool :=
  match outcome with
  | .error err => IsClosedConnectionErr err || IsGoAwayErr err
  | .ok _ => false

/-- A response with status 502, 503 or 504. -/
def gatewayFailure (outcome : Except GoError Response) : Bool :=
  match outcome with
  | .error _ => false
  | .ok res => res.StatusCode = 504 || res.StatusCode = 503 || res.StatusCode = 502

/-- Every call of `rest.NewHTTPClient` builds a client. -/
def resetsSucceed (env : Env) : Prop := ∀ n proxy, env.NewHTTPClient n proxy = none

/-- The body as the first step of `RoundTrip` leaves it: a rewindable reader has
its cursor back at 0, every other body is untouched. -/
def rewoundBody : Option Body → Option Body
  | some (.rewindable r) => some (.rewindable { r with offset := 0 })
  | b => b

/-- The body bytes of a request, as the signing transport reads them: all the data
of a rewindable reader, the bytes any other reader yields, none for a nil body. -/
def Request.bodyBytes (req : Request) : Bytes :=
  match rewoundBody req.Body with
  | some b => b.remaining
  | none => []

/-- The error, other than `io.EOF`, that reading the body of the request ends with. -/
def Request.readError (req : Request) : Option GoError :=
  match req.Body with
  | some b => b.terminal
  | none => none

/-- A request of the tests with a body that has been read to its end once. -/
def postRequest : Request :=
  { Method := "POST", URL := "http://bhe.com/api/v2/ingest", Path := "/api/v2/ingest",
    Header := fun _ => [], Body := some (.rewindable ⟨[1, 2, 3], 3⟩) }

/-- The signing transport `NewBHEClient` installs for the credentials of the tests. -/
def testTransport : signingTransport :=
  { tokenId := "tokenId", token := "token", signature := BHEAuthSignature }

/-- The request `postRequest` once it has been signed by an earlier attempt. -/
def signedRequest : Request := postRequest.HeaderSet "Signature" "c2lnbmF0dXJl"

/-- A stand-in for the cryptographic primitives, used only to instantiate the
statements at a concrete input: the MAC is the key followed by the message and the
encoding lists the byte values. -/
def standInCrypto : Crypto :=
  { hmacSHA256 := fun key message => key ++ message,
    base64 := fun b => toString (b.map UInt8.toNat) }

/-! ## Replays of a signed request, and repeated count steps -/

/-- A body once its reader has been read to the end, as the base transport leaves
it after sending the request. -/
def Body.readToEnd : Body → Body
  | .rewindable r => .rewindable { r with offset := max r.offset r.data.length }
  | .reader _ err => .reader [] err

/-- The request after the base transport has read its body to the end. -/
def Request.afterBaseRead (req : Request) : Request :=
  { req with Body := req.Body.map Body.readToEnd }

/-- The bytes the base transport reads from the body of a request handed to it. -/
def Request.bodyRemaining (req : Request) : Bytes :=
  match req.Body with
  | some b => b.remaining
  | none => []

/-- A fact about the primitives: the base64 text of a MAC is never the empty string
(for HMAC-SHA256 the MAC has 32 bytes and its encoding 44 characters). -/
def Crypto.signaturesNonEmpty (c : Crypto) : Prop :=
  ∀ key message, c.base64 (c.hmacSHA256 key message) ≠ ""

/-- The signing block of `RoundTrip` (transport.go:35-91), with the request as the
block leaves it: Go changes `*req` in place, so when the read of the body fails the
caller still holds the request, its body read up to the error. -/
def signingTransport.signInPlace (c : Crypto) (s : signingTransport) (datetime : String)
    (req1 : Request) : Option GoError × Request :=
  if req1.HeaderGet "Signature" = "" then
    let digester := (hmacNew (bytesOf s.token)).Write (bytesOf (req1.Method ++ req1.Path))
    let digester := (hmacNew (digester.Sum c)).Write ((bytesOf datetime).take 13)
    let digester := hmacNew (digester.Sum c)
    let hashed : Except GoError Digester × Request :=
      match req1.Body with
      | some b =>
        let (digester1, body) :=
          hashLoop (readChunks (64 * 1024) b.remaining.length b.remaining) digester []
        match b.terminal with
        | some err => (.error err, { req1 with Body := some b.readToEnd })
        | none => (.ok digester1, { req1 with Body := some (.rewindable ⟨body, 0⟩) })
      | none => (.ok digester, req1)
    match hashed with
    | (.error err, req2) => (some err, req2)
    | (.ok digester1, req2) =>
      let signature := digester1.Sum c
      (none, ((req2.HeaderSet "Authorization" (s.signature ++ " " ++ s.tokenId)).HeaderSet
        "RequestDate" datetime).HeaderSet "Signature" (c.base64 signature))
  else (none, req1)

/-- Embeds `signingTransport.RoundTrip` (transport.go:27) up to the final
`s.base.RoundTrip(req)`, as the caller sees it: the error returned before delegating
(`none` when the request is handed to the base transport) and the request as the call
has left it at that point.  `signingTransport.RoundTrip` is its view from the base
transport (`roundTrip_eq_inPlace`). -/
def signingTransport.RoundTripInPlace (c : Crypto) (s : signingTransport)
    (datetime : String) (req : Request) : Option GoError × Request :=
  match req.Body with
  | some (.rewindable rbr) =>
    match rbr.Rewind with
    | ((_, some err), rbr1) => (some err, { req with Body := some (.rewindable rbr1) })
    | ((_, none), rbr1) => s.signInPlace c datetime { req with Body := some (.rewindable rbr1) }
  | _ => s.signInPlace c datetime req

/-- A reader of the tests that fails after two bytes. -/
def brokenRequest : Request :=
  { Method := "POST", URL := "http://bhe.com/api/v2/ingest", Path := "/api/v2/ingest",
    Header := fun _ => [],
    Body := some (.reader [1, 2] (some (fmtErrorf "unexpected EOF"))) }

/-- The primitives of the tests: a stand-in whose encoding is never empty. -/
def markedCrypto : Crypto :=
  { hmacSHA256 := fun key message => key ++ message,
    base64 := fun b => String.mk ('=' :: b.map fun x => Char.ofNat x.toNat) }

/-- The call `incrementRequest` made `n` times in a row, stopping at the first error. -/
def incrementRequestTimes (env : Env) : Nat → State → Option GoError × State
  | 0, st => (none, st)
  | n + 1, st =>
    match incrementRequestTimes env n st with
    | (some err, st1) => (some err, st1)
    | (none, st1) => incrementRequest env st1

/-! ## The job orchestrator (`cmd/start.go`) and `EndOrphanedJob`

The orchestrator uses the client through the methods of `BloodHoundClient`.  Each call
of such a method is recorded in a trace, and what it returns is given by `Control`,
as a mock of the interface would. -/

/-- Modelled from the spec: the type `models.JobStatus` is not among the sources at
hand; the spec gives the status of a job as one of Ready, Running, Complete and
Failed. -/
inductive JobStatus where
  | Ready
  | Running
  | Complete
  | Failed
deriving DecidableEq

/-- The fields of `models.ClientJob` the orchestrator reads.  `ExecutionTime` is the
instant of the `time.Time`, in nanoseconds. -/
structure ClientJob where
  ID : Int
  Status : JobStatus
  ExecutionTime : Int
deriving DecidableEq

/-- The fields of `models.UpdateClientResponse` that `EndOrphanedJob` reads. -/
structure UpdateClientResponse where
  CurrentJobID : Int
  CurrentJob : ClientJob
deriving DecidableEq

/-- A call made to the client or to the collector: `listAll` stands for the
collection `listAll(ctx, azClient)` piped through `pipeline.Batch`. -/
inductive Call where
  | UpdateClient
  | EndJob (status : JobStatus) (message : String)
  | GetAvailableJobs
  | Checkin
  | StartJob (jobId : Int)
  | listAll
  | Ingest
deriving DecidableEq

/-- What the collaborators of the orchestrator return.  The first argument of a
method is the number of calls recorded before it.  `Now n` is `time.Now()` at that
point, `sortSlice` is `sort.Slice` with the comparison of `start` (by
`ExecutionTime.Before`). -/
structure Control where
  connectAndCreateClient : Bool
  ParseBHEUrl : Option GoError
  NewBHEClient : Option GoError
  UpdateClient : Nat → Except GoError UpdateClientResponse
  EndJob : Nat → JobStatus → String → Option GoError
  GetAvailableJobs : Nat → Except GoError (List ClientJob)
  Checkin : Nat → Option GoError
  StartJob : Nat → Int → Option GoError
  Ingest : Nat → Bool
  Now : Nat → Int
  sortSlice : List ClientJob → List ClientJob

/-- The contract of `sort.Slice`: the result is a permutation of the slice in which
no element stands before one that is less than it.  Elements that compare equal come
out in an order the library does not fix. -/
def sortSliceContract (sort : List ClientJob → List ClientJob) : Prop :=
  ∀ l, (sort l).Perm l ∧ (sort l).Pairwise fun a b => ¬ b.ExecutionTime < a.ExecutionTime

/-- The state of the orchestrator: the calls made so far, oldest first, the atomic
`currentJobID` and whether the mutex `jobQueued` is held. -/
structure Orchestrator where
  calls : List Call
  currentJobID : Int
  jobQueued : Bool
deriving DecidableEq

/-- Go `fmt.Errorf(text + "%w", err)`: the text is put before the message, and the
chain of `err` is kept. -/
def wrapErrorf (text : String) (err : GoError) : GoError := ⟨text ++ err.message, err.goAway⟩

/-- One call `bheClient.UpdateClient(ctx)`. -/
def UpdateClient (ctl : Control) (o : Orchestrator) :
    Except GoError UpdateClientResponse × Orchestrator :=
  (ctl.UpdateClient o.calls.length, { o with calls := o.calls ++ [.UpdateClient] })

/-- One call `EndJob(ctx, status, message)`. -/
def EndJob (ctl : Control) (status : JobStatus) (message : String) (o : Orchestrator) :
    Option GoError × Orchestrator :=
  (ctl.EndJob o.calls.length status message,
    { o with calls := o.calls ++ [.EndJob status message] })

/-- One call `bheClient.GetAvailableJobs(ctx)`. -/
def GetAvailableJobs (ctl : Control) (o : Orchestrator) :
    Except GoError (List ClientJob) × Orchestrator :=
  (ctl.GetAvailableJobs o.calls.length, { o with calls := o.calls ++ [.GetAvailableJobs] })

/-- One call `bheClient.StartJob(ctx, jobId)`. -/
def StartJob (ctl : Control) (jobId : Int) (o : Orchestrator) :
    Option GoError × Orchestrator :=
  (ctl.StartJob o.calls.length jobId, { o with calls := o.calls ++ [.StartJob jobId] })

/-- The collection and its ingestion (start.go:143-145): `listAll`, `pipeline.Batch`
and `bheClient.Ingest`, which returns `hasIngestErr`. -/
def collectAndIngest (ctl : Control) (o : Orchestrator) : Bool × Orchestrator :=
  let o1 : Orchestrator := { o with calls := o.calls ++ [Call.listAll] }
  (ctl.Ingest o1.calls.length, { o1 with calls := o1.calls ++ [Call.Ingest] })

/-- The message `EndOrphanedJob` sends. -/
def orphanedJobMessage : String :=
  "This job has been orphaned. Re-run collection for complete data."

/-- Embeds `BHEClient.EndOrphanedJob` (client.go:378). -/
def EndOrphanedJob (ctl : Control) (updatedClient : UpdateClientResponse)
    (o : Orchestrator) : Option GoError × Orchestrator :=
  if updatedClient.CurrentJob.Status = .Running then
    EndJob ctl .Failed orphanedJobMessage o
  else (none, o)

/-- How `start` leaves its startup chain (start.go:72-82): the process has been
stopped by `exit(err)`, or the ticker loop begins. -/
inductive StartResult where
  | exited (err : GoError)
  | ticking
deriving DecidableEq

/-- Embeds the startup chain of `start` (start.go:72-90), up to the first iteration
of the ticker loop.  `exit` ends the process (`os.Exit(1)`).  The loop begins with
`currentJobID` at 0 and `jobQueued` free. -/
def start (ctl : Control) : StartResult × Orchestrator :=
  let o0 : Orchestrator := { calls := [], currentJobID := 0, jobQueued := false }
  if ctl.connectAndCreateClient = false then
    (.exited (fmtErrorf "azClient is unexpectedly nil"), o0)
  else
    match ctl.ParseBHEUrl with
    | some err => (.exited (wrapErrorf "unable to parse BHE url: " err), o0)
    | none =>
      match ctl.NewBHEClient with
      | some err => (.exited (wrapErrorf "failed to create new signing HTTP client: " err), o0)
      | none =>
        match UpdateClient ctl o0 with
        | (.error err, o1) => (.exited (wrapErrorf "failed to update client: " err), o1)
        | (.ok updatedClient, o1) =>
          match EndOrphanedJob ctl updatedClient o1 with
          | (some err, o2) => (.exited (wrapErrorf "failed to end orphaned job: " err), o2)
          | (none, o2) => (.ticking, o2)

/-- The filter of the poll task (start.go:115-121).  In Go `&&` binds tighter than
`||`: the condition reads `(Status == Ready && Before(now)) || Equal(now)`. -/
def executableJobs (jobs : List ClientJob) (now : Int) : List ClientJob :=
  jobs.filter fun job =>
    (decide (job.Status = .Ready) && decide (job.ExecutionTime < now))
      || decide (job.ExecutionTime = now)

/-- The sorted executable jobs (start.go:115-126). -/
def sortedExecutableJobs (ctl : Control) (jobs : List ClientJob) (now : Int) :
    List ClientJob :=
  ctl.sortSlice (executableJobs jobs now)

/-- The message of the final `EndJob` (start.go:150-153). -/
def completionMessage (hasIngestErr : Bool) : String :=
  if hasIngestErr then "Collection completed with errors during ingest"
  else "Collection completed successfully"

/-- Embeds the poll task, the function `start` runs in a goroutine once it holds
`jobQueued` (start.go:101-161), run from its first statement to its last.  The
deferred `currentJobID.Store(0)` is registered once a job has been selected; the
deferred `jobQueued.Unlock()` ends every path. -/
def pollTask (ctl : Control) (o : Orchestrator) : Orchestrator :=
  match GetAvailableJobs ctl o with
  | (.error _, o1) => { o1 with jobQueued := false }
  | (.ok jobs, o1) =>
    let now := ctl.Now o1.calls.length
    match sortedExecutableJobs ctl jobs now with
    | [] => { o1 with jobQueued := false }
    | job :: _ =>
      let queuedJobID := job.ID
      let o2 := { o1 with currentJobID := queuedJobID }
      match StartJob ctl queuedJobID o2 with
      | (some _, o3) => { o3 with currentJobID := 0, jobQueued := false }
      | (none, o3) =>
        let (hasIngestErr, o4) := collectAndIngest ctl o3
        let message := completionMessage hasIngestErr
        let (_, o5) := EndJob ctl .Complete message o4
        { o5 with currentJobID := 0, jobQueued := false }

/-- The orchestrator at a tick that spawns the poll task: no job is current and the
task holds `jobQueued`. -/
def pollingOrchestrator (calls : List Call) : Orchestrator :=
  { calls := calls, currentJobID := 0, jobQueued := true }

/-- A sort that meets the contract of `sort.Slice`, for the concrete inputs. -/
def insertionSortJobs (l : List ClientJob) : List ClientJob :=
  l.insertionSort fun a b => a.ExecutionTime ≤ b.ExecutionTime

/-- Collaborators that answer the poll task with the given jobs at the given time,
the given result of `StartJob` and of `Ingest`; every other call succeeds, and the
registration reports a current job of the given status. -/
def testControl (jobs : List ClientJob) (now : Int) (startErr : Option GoError)
    (hasIngestErr : Bool) (current : JobStatus) (endErr : Option GoError) : Control :=
  { connectAndCreateClient := true,
    ParseBHEUrl := none,
    NewBHEClient := none,
    UpdateClient := fun _ => .ok ⟨41, ⟨41, current, 0⟩⟩,
    EndJob := fun _ _ _ => endErr,
    GetAvailableJobs := fun _ => .ok jobs,
    Checkin := fun _ => none,
    StartJob := fun _ _ => startErr,
    Ingest := fun _ => hasIngestErr,
    Now := fun _ => now,
    sortSlice := insertionSortJobs }

/-! ## The ticker loop and the poll task, step by step (`cmd/start.go:92-166`) -/

/-- One call `bheClient.Checkin(ctx)`. -/
def Checkin (ctl : Control) (o : Orchestrator) : Option GoError × Orchestrator :=
  (ctl.Checkin o.calls.length, { o with calls := o.calls ++ [Call.Checkin] })

/-- Where a poll task stands: about to fetch the available jobs; about to call
`StartJob` for the job it has recorded as current; about to run the collection and
`Ingest`; about to call `EndJob`; or past its last call, about to run the deferred
`jobQueued.Unlock()`. -/
inductive TaskPhase where
  | fetching
  | starting (job : ClientJob)
  | collecting (job : ClientJob)
  | ending (job : ClientJob) (hasIngestErr : Bool)
  | releasing
deriving DecidableEq

/-- The job a poll task has recorded as current, if it stands between
`currentJobID.Store(int64(queuedJobID))` and the deferred `currentJobID.Store(0)`. -/
def TaskPhase.job : TaskPhase → Option ClientJob
  | .starting job => some job
  | .collecting job => some job
  | .ending job _ => some job
  | _ => none

/-- The orchestrator with the goroutines `start` has spawned and that have not
returned yet. -/
structure System where
  o : Orchestrator
  tasks : List TaskPhase
deriving DecidableEq

/-- One step of a poll task (start.go:101-161): a call to the client together with
the statements up to the next call.  The result is the orchestrator after the step
and the phase the task is in, `none` once the goroutine has returned. -/
def taskStep (ctl : Control) (o : Orchestrator) : TaskPhase → Orchestrator × Option TaskPhase
  | .fetching =>
    match GetAvailableJobs ctl o with
    | (.error _, o1) => (o1, some .releasing)
    | (.ok jobs, o1) =>
      match sortedExecutableJobs ctl jobs (ctl.Now o1.calls.length) with
      | [] => (o1, some .releasing)
      | job :: _ => ({ o1 with currentJobID := job.ID }, some (.starting job))
  | .starting job =>
    match StartJob ctl job.ID o with
    | (some _, o1) => ({ o1 with currentJobID := 0 }, some .releasing)
    | (none, o1) => (o1, some (.collecting job))
  | .collecting job =>
    let (hasIngestErr, o1) := collectAndIngest ctl o
    (o1, some (.ending job hasIngestErr))
  | .ending _ hasIngestErr =>
    let (_, o1) := EndJob ctl .Complete (completionMessage hasIngestErr) o
    ({ o1 with currentJobID := 0 }, some .releasing)
  | .releasing => ({ o with jobQueued := false }, none)

/-- One `case <-ticker.C` of the loop of `start` (start.go:94-162): a checkin while a
job is current; otherwise, when `jobQueued.TryLock()` succeeds, a new poll task. -/
def tick (ctl : Control) (sys : System) : System :=
  if sys.o.currentJobID ≠ 0 then { sys with o := (Checkin ctl sys.o).2 }
  else if sys.o.jobQueued = false then
    { o := { sys.o with jobQueued := true }, tasks := sys.tasks ++ [TaskPhase.fetching] }
  else sys

/-- The `i`-th goroutine takes its next step; nothing happens when there is none. -/
def advance (ctl : Control) (i : Nat) (sys : System) : System :=
  match sys.tasks.get? i with
  | none => sys
  | some t =>
    match taskStep ctl sys.o t with
    | (o1, some t1) => { o := o1, tasks := sys.tasks.set i t1 }
    | (o1, none) => { o := o1, tasks := sys.tasks.eraseIdx i }

/-- What happens next in the process: the ticker fires, or a goroutine moves on. -/
inductive Event where
  | tick
  | advance (i : Nat)
deriving DecidableEq

/-- One step of the orchestrator. -/
def step (ctl : Control) (sys : System) : Event → System
  | .tick => tick ctl sys
  | .advance i => advance ctl i sys

/-- The orchestrator after a sequence of events. -/
def run (ctl : Control) (events : List Event) (sys : System) : System :=
  events.foldl (step ctl) sys

/-- The orchestrator as the ticker loop begins: no job is current, `jobQueued` is
free, no poll task exists. -/
def idleSystem (calls : List Call) : System :=
  { o := { calls := calls, currentJobID := 0, jobQueued := false }, tasks := [] }

/-- The invariant of the ticker loop: either no poll task exists, `jobQueued` is free
and no job is current, or exactly one poll task exists, it holds `jobQueued`, and the
current job id is the id of the job the task has recorded, 0 when it has none. -/
def System.consistent (sys : System) : Prop :=
  (sys.tasks = [] ∧ sys.o.jobQueued = false ∧ sys.o.currentJobID = 0) ∨
  ∃ t, sys.tasks = [t] ∧ sys.o.jobQueued = true ∧
    sys.o.currentJobID = match t.job with
      | some job => job.ID
      | none => 0

/-! ## Backoff durations (`client/rest/utils.go:144-152`) -/

/-- The contract of `math.Pow` that the backoff relies on.  `pow base exp` is the
number the float64 result of `math.Pow(float64(base), float64(exp))` stands for; when
the power of two non-negative ints is an integer below 2^53, and so a float64 value,
the result is that power. -/
def powExact (pow : Int → Int → ℚ) : Prop :=
  ∀ base exp : Int, 0 ≤ base → 0 ≤ exp → base ^ exp.toNat < 2 ^ 53 →
    pow base exp = ((base ^ exp.toNat : Int) : ℚ)

/-- The power computed on the integers, which meets the contract of `math.Pow`. -/
def integerPow (base exp : Int) : ℚ := ((base ^ exp.toNat : Int) : ℚ)

/-- A value brought into the range of `int64`, as Go integer arithmetic does. -/
def wrapInt64 (x : Int) : Int := (x + 2 ^ 63) % 2 ^ 64 - 2 ^ 63

/-- Go conversion `time.Duration(x)` of a float64: the fraction is dropped. -/
def durationOfFloat (x : ℚ) : Int := wrapInt64 (if 0 ≤ x then ⌊x⌋ else ⌈x⌉)

/-- The constant `time.Second`, in nanoseconds. -/
def timeSecond : Int := 1000000000

/-- Embeds `VariableExponentialBackoff` (utils.go:149): the duration, in nanoseconds,
handed to `time.Sleep`. -/
def variableBackoffDuration (pow : Int → Int → ℚ) (base retry : Int) : Int :=
  let backoff := pow base (retry + 1)
  wrapInt64 (timeSecond * durationOfFloat backoff)

/-- Embeds `ExponentialBackoff` (utils.go:144): the duration, in nanoseconds, handed
to `time.Sleep`. -/
def exponentialBackoffDuration (pow : Int → Int → ℚ) (retry : Int) : Int :=
  let backoff := pow 5 (retry + 1)
  wrapInt64 (timeSecond * durationOfFloat backoff)

/-- Collaborators whose encoder rejects every batch that holds an unsupported record;
the endpoint answers every request with the given status. -/
def rejectingEncoder (status : Int) : Env :=
  { alwaysStatus status with
    Encode := fun data =>
      if Record.unsupported ∈ data then
        ([], some (fmtErrorf "json: unsupported type: chan int"))
      else ([], none) }

/-! ## `IntOrStringInt` (`client/rest/utils.go`) -/

/-- What a JSON text holds, as `encoding/json` classifies it before storing it: a
number is kept by its literal, a string by its decoded content, and `invalid` is a
text the scanner rejects. -/
inductive JSONValue where
  | null
  | bool (b : Bool)
  | number (literal : String)
  | string (s : String)
  | array
  | object
  | invalid
deriving DecidableEq

/-- The argument `data []byte` of `UnmarshalJSON`: the text and what it holds. -/
structure JSONData where
  raw : String
  holds : JSONValue
deriving DecidableEq

/-- The sign handling of Go `strconv.ParseInt`: one leading `+` or `-` is taken
off. -/
def splitSign (cs : List Char) : Bool × List Char :=
  match cs with
  | [] => (false, [])
  | c :: r => if c = '+' then (false, r) else if c = '-' then (true, r) else (false, c :: r)

/-- The digit loop of Go `strconv.ParseUint` for base 10: any character other than
`0` to `9` is an error. -/
def parseUintDigits : List Char → Nat → Option Nat
  | [], acc => some acc
  | c :: cs, acc => if c.isDigit then parseUintDigits cs (acc * 10 + (c.toNat - 48)) else none

/-- The `*strconv.NumError` of a failed conversion; the text is the one Go prints for
a string that `strconv.Quote` leaves as it is. -/
def numError (fn s reason : String) : GoError :=
  fmtErrorf ("strconv." ++ fn ++ ": parsing \"" ++ s ++ "\": " ++ reason)

/-- Go `strconv.ParseInt(s, 10, 64)`, which `strconv.Atoi` comes to where `int` has
64 bits: an optional sign, then one or more decimal digits, and the value has to fit
the type. -/
def strconvParseInt (fn s : String) : Except GoError Int :=
  let (neg, digits) := splitSign s.data
  if digits = [] then .error (numError fn s "invalid syntax")
  else
    match parseUintDigits digits 0 with
    | none => .error (numError fn s "invalid syntax")
    | some un =>
      if !neg && un ≥ 2 ^ 63 then .error (numError fn s "value out of range")
      else if neg && un > 2 ^ 63 then .error (numError fn s "value out of range")
      else .ok (if neg then -(un : Int) else (un : Int))

/-- Go `strconv.Atoi`. -/
def strconvAtoi (s : String) : Except GoError Int := strconvParseInt "Atoi" s

/-- Go `json.Unmarshal(data, &i)` for `i int`: the new value of `i`, or `none` when
an error is returned (the caller only compares the error with nil).  JSON null has
no effect on the value and is no error. -/
def jsonUnmarshalInt (data : JSONData) (i : Int) : Option Int :=
  match data.holds with
  | .null => some i
  | .number literal =>
    match strconvParseInt "ParseInt" literal with
    | .ok n => some n
    | .error _ => none
  | _ => none

/-- Go `json.Unmarshal(data, &s)` for `s string`, in the same way. -/
def jsonUnmarshalString (data : JSONData) (s : String) : Option String :=
  match data.holds with
  | .null => some s
  | .string content => some content
  | _ => none

/-- Embeds `IntOrStringInt.UnmarshalJSON` (utils.go:171): the returned error and the
value of `*ios` after the call. -/
def UnmarshalJSON (data : JSONData) (ios : Int) : Option GoError × Int :=
  match jsonUnmarshalInt data 0 with
  | some i => (none, i)
  | none =>
    match jsonUnmarshalString data "" with
    | some s =>
      match strconvAtoi s with
      | .error convErr => (some convErr, ios)
      | .ok val => (none, val)
    | none =>
      (some (fmtErrorf ("unable to unmarshal IntOrStringInt field: " ++ data.raw)), ios)

/-- The spec's "decimal digits": an optional sign followed by one or more of the
characters `0` to `9`. -/
def decimalInteger (s : String) : Bool :=
  decide ((splitSign s.data).2 ≠ []) && (splitSign s.data).2.all Char.isDigit

/-- The spec's "neither an integer number nor a string of decimal digits": a
boolean, an array, an object, an invalid text, a number or a string that is not a
decimal integer. -/
def JSONData.notAnInteger (data : JSONData) : Bool :=
  match data.holds with
  | .null => false
  | .bool _ => true
  | .number literal => !decimalInteger literal
  | .string s => !decimalInteger s
  | .array => true
  | .object => true
  | .invalid => true

/-! ## Role management policy assignments (`cmd/list-role-assignment-policies.go`) -/

/-- The constant `enums.PolicyRuleApproval`. -/
def PolicyRuleApproval : String := "#microsoft.graph.unifiedRoleManagementPolicyApprovalRule"

/-- The constant `enums.PolicyRuleExpiration`. -/
def PolicyRuleExpiration : String := "#microsoft.graph.unifiedRoleManagementPolicyExpirationRule"

/-- The constant `enums.PolicyRuleEnablement`. -/
def PolicyRuleEnablement : String := "#microsoft.graph.unifiedRoleManagementPolicyEnablementRule"

/-- The constant `enums.PolicyRuleNotification`. -/
def PolicyRuleNotification : String :=
  "#microsoft.graph.unifiedRoleManagementPolicyNotificationRule"

/-- The constant `enums.PolicyRuleAuthenticationContext`. -/
def PolicyRuleAuthenticationContext : String :=
  "#microsoft.graph.unifiedRoleManagementPolicyAuthenticationContextRule"

/-- The constant `enums.ApprovalStageSingleUser`. -/
def ApprovalStageSingleUser : String := "#microsoft.graph.singleUser"

/-- The constant `enums.ApprovalStageGroupMembers`. -/
def ApprovalStageGroupMembers : String := "#microsoft.graph.groupMembers"

/-- The struct `azure.PrimaryApprovers`; `Type_` is its field `Type`. -/
structure PrimaryApprovers where
  Type_ : String
  UserId : String
  GroupId : String
deriving DecidableEq

/-- The struct `azure.UnifiedApprovalStages`, by its primary approvers. -/
structure UnifiedApprovalStages where
  PrimaryApprovers : List PrimaryApprovers
deriving DecidableEq

/-- The struct `azure.ApprovalSettings`, by the two fields the formatter reads. -/
structure ApprovalSettings where
  ApprovalStages : List UnifiedApprovalStages
  IsApprovalRequired : Bool
deriving DecidableEq

/-- The struct `azure.UnifiedRoleManagementPolicyApprovalRule`, by its setting. -/
structure UnifiedRoleManagementPolicyApprovalRule where
  Setting : ApprovalSettings
deriving DecidableEq

/-- The struct `azure.UnifiedRoleManagementPolicyEnablementRule`, by its enabled
rules. -/
structure UnifiedRoleManagementPolicyEnablementRule where
  EnabledRules : List String
deriving DecidableEq

/-- The struct `azure.UnifiedRoleManagementPolicyAuthenticationContextRule`, by its
flag. -/
structure UnifiedRoleManagementPolicyAuthenticationContextRule where
  IsEnabled : Bool
deriving DecidableEq

/-- One `json.RawMessage` of `Policy.Rules`, by what each `json.Unmarshal` call of the
formatter makes of it: into `tempRuleType`, and into the three rule structs. -/
structure RawRule where
  ruleType : Except GoError String
  approval : Except GoError UnifiedRoleManagementPolicyApprovalRule
  enablement : Except GoError UnifiedRoleManagementPolicyEnablementRule
  authenticationContext : Except GoError UnifiedRoleManagementPolicyAuthenticationContextRule
deriving DecidableEq

/-- The struct `azure.UnifiedRoleManagementPolicyAssignment`, by the fields the
formatter reads; `Rules` is `Policy.Rules`. -/
structure UnifiedRoleManagementPolicyAssignment where
  Id : String
  RoleDefinitionId : String
  Rules : List RawRule
deriving DecidableEq

/-- The struct `models.RoleManagementPolicyAssignment`. -/
structure RoleManagementPolicyAssignment where
  UnifiedRoleManagementPolicyAssignment : UnifiedRoleManagementPolicyAssignment
  Id : String
  RoleDefinitionId : String
  EndUserAssignmentRequiresApproval : Bool
  EndUserAssignmentRequiresCAPAuthenticationContext : Bool
  EndUserAssignmentUserApprovers : List String
  EndUserAssignmentGroupApprovers : List String
  EndUserAssignmentRequiresMFA : Bool
  EndUserAssignmentRequiresJustification : Bool
  EndUserAssignmentRequiresTicketInformation : Bool
  TenantId : String
deriving DecidableEq

/-- The inner loop of `unmarshallPolicyRuleApproval` over the primary approvers of
one stage: the two slices `userApprovers` and `groupApprovers` as they grow. -/
def approverLoop (approvers : List PrimaryApprovers) (acc : List String × List String) :
    List String × List String :=
  approvers.foldl
    (fun acc approver =>
      if approver.Type_ = ApprovalStageSingleUser then (acc.1 ++ [approver.UserId], acc.2)
      else if approver.Type_ = ApprovalStageGroupMembers then
        (acc.1, acc.2 ++ [approver.GroupId])
      else acc)
    acc

/-- The outer loop of `unmarshallPolicyRuleApproval` over the approval stages. -/
def stageLoop (stages : List UnifiedApprovalStages) (acc : List String × List String) :
    List String × List String :=
  stages.foldl (fun acc approvalStage => approverLoop approvalStage.PrimaryApprovers acc) acc

/-- Embeds `unmarshallPolicyRuleApproval` (list-role-assignment-policies.go:137). -/
def unmarshallPolicyRuleApproval (data : RawRule) (rm : RoleManagementPolicyAssignment) :
    Option GoError × RoleManagementPolicyAssignment :=
  match data.approval with
  | .error err => (some (wrapErrorf "error unmarshalling PolicyRuleApproval: " err), rm)
  | .ok rule =>
    let approvers := stageLoop rule.Setting.ApprovalStages ([], [])
    (none, { rm with EndUserAssignmentUserApprovers := approvers.1,
                     EndUserAssignmentGroupApprovers := approvers.2,
                     EndUserAssignmentRequiresApproval := rule.Setting.IsApprovalRequired })

/-- Embeds `unmarshallPolicyRuleEnablement` (list-role-assignment-policies.go:168). -/
def unmarshallPolicyRuleEnablement (data : RawRule) (rm : RoleManagementPolicyAssignment) :
    Option GoError × RoleManagementPolicyAssignment :=
  match data.enablement with
  | .error err => (some (wrapErrorf "error unmarshalling PolicyRuleEnablement: " err), rm)
  | .ok rule =>
    (none, { rm with
      EndUserAssignmentRequiresMFA := rule.EnabledRules.contains "MultiFactorAuthentication",
      EndUserAssignmentRequiresJustification := rule.EnabledRules.contains "Justification",
      EndUserAssignmentRequiresTicketInformation := rule.EnabledRules.contains "Ticketing" })

/-- Embeds `unmarshallPolicyRuleAuthenticationContext`
(list-role-assignment-policies.go:183). -/
def unmarshallPolicyRuleAuthenticationContext (data : RawRule)
    (rm : RoleManagementPolicyAssignment) : Option GoError × RoleManagementPolicyAssignment :=
  match data.authenticationContext with
  | .error err =>
    (some (wrapErrorf "error unmarshalling PolicyRuleAuthenticationContext: " err), rm)
  | .ok rule =>
    (none, { rm with EndUserAssignmentRequiresCAPAuthenticationContext := rule.IsEnabled })

/-- The loop `for _, rule := range rules` of `formatRoleManagementPolicyAssignment`,
and the return after it. -/
def formatRules :
    List RawRule → RoleManagementPolicyAssignment →
      RoleManagementPolicyAssignment × Option GoError
  | [], rm => (rm, none)
  | rule :: rest, rm =>
    match rule.ruleType with
    | .error err => (rm, some err)
    | .ok ruleType =>
      if ruleType = PolicyRuleApproval then
        match unmarshallPolicyRuleApproval rule rm with
        | (some err, rm1) => (rm1, some err)
        | (none, rm1) => formatRules rest rm1
      else if ruleType = PolicyRuleEnablement then
        match unmarshallPolicyRuleEnablement rule rm with
        | (some err, rm1) => (rm1, some err)
        | (none, rm1) => formatRules rest rm1
      else if ruleType = PolicyRuleAuthenticationContext then
        match unmarshallPolicyRuleAuthenticationContext rule rm with
        | (some err, rm1) => (rm1, some err)
        | (none, rm1) => formatRules rest rm1
      else formatRules rest rm

/-- The value `formatRoleManagementPolicyAssignment` starts from
(list-role-assignment-policies.go:100-105): the assignment is embedded, Id and
RoleDefinitionId are copied, every other field has its zero value. -/
def initialPolicyAssignment (assignment : UnifiedRoleManagementPolicyAssignment) :
    RoleManagementPolicyAssignment :=
  { UnifiedRoleManagementPolicyAssignment := assignment,
    Id := assignment.Id,
    RoleDefinitionId := assignment.RoleDefinitionId,
    EndUserAssignmentRequiresApproval := false,
    EndUserAssignmentRequiresCAPAuthenticationContext := false,
    EndUserAssignmentUserApprovers := [],
    EndUserAssignmentGroupApprovers := [],
    EndUserAssignmentRequiresMFA := false,
    EndUserAssignmentRequiresJustification := false,
    EndUserAssignmentRequiresTicketInformation := false,
    TenantId := "" }

/-- Embeds `formatRoleManagementPolicyAssignment` (list-role-assignment-policies.go:99):
the value and the error it returns. -/
def formatRoleManagementPolicyAssignment (assignment : UnifiedRoleManagementPolicyAssignment) :
    RoleManagementPolicyAssignment × Option GoError :=
  formatRules assignment.Rules (initialPolicyAssignment assignment)

/-- A rule is of the given type: the type read from it is that one. -/
def RawRule.hasType (rule : RawRule) (ruleType : String) : Bool :=
  decide (rule.ruleType = .ok ruleType)

/-- Every `json.Unmarshal` call the formatter makes on the rule succeeds. -/
def RawRule.decodes (rule : RawRule) : Bool :=
  match rule.ruleType with
  | .error _ => false
  | .ok ruleType =>
    if ruleType = PolicyRuleApproval then rule.approval.isOk
    else if ruleType = PolicyRuleEnablement then rule.enablement.isOk
    else if ruleType = PolicyRuleAuthenticationContext then rule.authenticationContext.isOk
    else true

/-- The assignment after the loop body has run for a rule that decodes. -/
def decodedStep (rule : RawRule) (rm : RoleManagementPolicyAssignment) :
    RoleManagementPolicyAssignment :=
  if rule.hasType PolicyRuleApproval then (unmarshallPolicyRuleApproval rule rm).2
  else if rule.hasType PolicyRuleEnablement then (unmarshallPolicyRuleEnablement rule rm).2
  else if rule.hasType PolicyRuleAuthenticationContext then
    (unmarshallPolicyRuleAuthenticationContext rule rm).2
  else rm

/-- The three fields `unmarshallPolicyRuleApproval` sets. -/
def approvalView (rm : RoleManagementPolicyAssignment) : List String × List String × Bool :=
  (rm.EndUserAssignmentUserApprovers, rm.EndUserAssignmentGroupApprovers,
    rm.EndUserAssignmentRequiresApproval)

/-- The three fields `unmarshallPolicyRuleEnablement` sets. -/
def enablementView (rm : RoleManagementPolicyAssignment) : Bool × Bool × Bool :=
  (rm.EndUserAssignmentRequiresMFA, rm.EndUserAssignmentRequiresJustification,
    rm.EndUserAssignmentRequiresTicketInformation)

/-- The fields no rule changes. -/
def identityView (rm : RoleManagementPolicyAssignment) :
    UnifiedRoleManagementPolicyAssignment × String × String × String :=
  (rm.UnifiedRoleManagementPolicyAssignment, rm.Id, rm.RoleDefinitionId, rm.TenantId)

/-- The spec's user approvers of an approval rule: the `UserId`s of the primary
approvers of type `#microsoft.graph.singleUser`, in order across the stages. -/
def userApproversOf (rule : UnifiedRoleManagementPolicyApprovalRule) : List String :=
  (((rule.Setting.ApprovalStages.map (fun stage => stage.PrimaryApprovers)).flatten).filter
    (fun approver => decide (approver.Type_ = ApprovalStageSingleUser))).map
    (fun approver => approver.UserId)

/-- The spec's group approvers of an approval rule: the `GroupId`s of the primary
approvers of type `#microsoft.graph.groupMembers`, in order across the stages. -/
def groupApproversOf (rule : UnifiedRoleManagementPolicyApprovalRule) : List String :=
  (((rule.Setting.ApprovalStages.map (fun stage => stage.PrimaryApprovers)).flatten).filter
    (fun approver => decide (approver.Type_ = ApprovalStageGroupMembers))).map
    (fun approver => approver.GroupId)

/-- A rule of the given type that decodes into the given structs. -/
def decodedRule (ruleType : String) (approval : UnifiedRoleManagementPolicyApprovalRule)
    (enablement : UnifiedRoleManagementPolicyEnablementRule)
    (authenticationContext : UnifiedRoleManagementPolicyAuthenticationContextRule) : RawRule :=
  { ruleType := .ok ruleType, approval := .ok approval, enablement := .ok enablement,
    authenticationContext := .ok authenticationContext }

/-- An approval rule with two stages: a user and a group in the first, a user in the
second. -/
def testApprovalRule : UnifiedRoleManagementPolicyApprovalRule :=
  { Setting :=
      { ApprovalStages :=
          [ { PrimaryApprovers :=
                [ { Type_ := ApprovalStageSingleUser, UserId := "u1", GroupId := "" },
                  { Type_ := ApprovalStageGroupMembers, UserId := "", GroupId := "g1" } ] },
            { PrimaryApprovers :=
                [ { Type_ := ApprovalStageSingleUser, UserId := "u2", GroupId := "" } ] } ],
        IsApprovalRequired := true } }

/-- The rules of the examples: an approval rule, an enablement rule asking for MFA
and a ticket, an authentication-context rule that is enabled, an expiration rule. -/
def testRules : List RawRule :=
  [ decodedRule PolicyRuleApproval testApprovalRule ⟨[]⟩ ⟨false⟩,
    decodedRule PolicyRuleEnablement ⟨⟨[], false⟩⟩ ⟨["MultiFactorAuthentication", "Ticketing"]⟩
      ⟨false⟩,
    decodedRule PolicyRuleAuthenticationContext ⟨⟨[], false⟩⟩ ⟨[]⟩ ⟨true⟩,
    decodedRule PolicyRuleExpiration ⟨⟨[], false⟩⟩ ⟨[]⟩ ⟨false⟩ ]

/-! ## The REST client (`client/rest/client.go`) -/

/-- The constant `http.MethodDelete`. -/
def MethodDelete : String := "DELETE"

/-- The constant `http.MethodGet`. -/
def MethodGet : String := "GET"

/-- The constant `http.MethodPatch`. -/
def MethodPatch : String := "PATCH"

/-- The constant `http.MethodPost`. -/
def MethodPost : String := "POST"

/-- The constant `http.MethodPut`. -/
def MethodPut : String := "PUT"

/-- A `query.Params` value, by the two methods the client calls on it. -/
structure QueryParams where
  AsMap : List (String × String)
  NeedsEventualConsistencyHeaderFlag : Bool

/-- Go `m[key] = value` on a `map[string]string` kept as a list of pairs. -/
def mapSet (m : List (String × String)) (key value : String) : List (String × String) :=
  (key, value) :: m.filter (fun entry => entry.1 ≠ key)

/-- What the five verbs of `restClient` call: `s.api.ResolveReference` for the path,
`rest.NewRequest(ctx, method, endpoint, body, params, headers)`, which is defined in
another file of the package, and `s.Send`. -/
structure RestCollaborators where
  ResolveReference : String → String
  NewRequest : String → String → Option String → List (String × String) →
    List (String × String) → Except GoError Request
  Send : Request → Except GoError Response

/-- The request `rest.NewRequest` returns carries the method it was given. -/
def newRequestKeepsMethod (env : RestCollaborators) : Prop :=
  ∀ method endpoint body params headers req,
    env.NewRequest method endpoint body params headers = .ok req → req.Method = method

/-- The `paramsMap` each verb builds: `params.AsMap()`, empty for nil params. -/
def paramsMapOf (params : Option QueryParams) : List (String × String) :=
  match params with
  | some p => p.AsMap
  | none => []

/-- Embeds `restClient.Delete` (rest/client.go:85): the request handed to `s.Send`, if one
was built, and the returned response or error. -/
def restClient.Delete (env : RestCollaborators) (path : String) (body : Option String)
    (params : Option QueryParams) (headers : List (String × String)) :
    Option Request × Except GoError Response :=
  match env.NewRequest MethodDelete (env.ResolveReference path) body (paramsMapOf params)
      headers with
  | .error err => (none, .error err)
  | .ok req => (some req, env.Send req)

/-- Embeds `restClient.Get` (rest/client.go:98). -/
def restClient.Get (env : RestCollaborators) (path : String)
    (params : Option QueryParams) (headers : List (String × String)) :
    Option Request × Except GoError Response :=
  let headers1 :=
    match params with
    | some p =>
      if p.NeedsEventualConsistencyHeaderFlag then mapSet headers "ConsistencyLevel" "eventual"
      else headers
    | none => headers
  match env.NewRequest MethodGet (env.ResolveReference path) none (paramsMapOf params)
      headers1 with
  | .error err => (none, .error err)
  | .ok req => (some req, env.Send req)

/-- Embeds `restClient.Patch` (rest/client.go:119). -/
def restClient.Patch (env : RestCollaborators) (path : String) (body : Option String)
    (params : Option QueryParams) (headers : List (String × String)) :
    Option Request × Except GoError Response :=
  match env.NewRequest MethodPatch (env.ResolveReference path) body (paramsMapOf params)
      headers with
  | .error err => (none, .error err)
  | .ok req => (some req, env.Send req)

/-- Embeds `restClient.Post` (rest/client.go:132). -/
def restClient.Post (env : RestCollaborators) (path : String) (body : Option String)
    (params : Option QueryParams) (headers : List (String × String)) :
    Option Request × Except GoError Response :=
  match env.NewRequest MethodPost (env.ResolveReference path) body (paramsMapOf params)
      headers with
  | .error err => (none, .error err)
  | .ok req => (some req, env.Send req)

/-- Embeds `restClient.Put` (rest/client.go:145); the method handed to `NewRequest` is
`http.MethodPost` (rest/client.go:151). -/
def restClient.Put (env : RestCollaborators) (path : String) (body : Option String)
    (params : Option QueryParams) (headers : List (String × String)) :
    Option Request × Except GoError Response :=
  match env.NewRequest MethodPost (env.ResolveReference path) body (paramsMapOf params)
      headers with
  | .error err => (none, .error err)
  | .ok req => (some req, env.Send req)

/-- Collaborators for the examples: the request is built from what `NewRequest` is
given, and every request is answered 200. -/
def testRest : RestCollaborators :=
  { ResolveReference := fun path => "https://graph.microsoft.com" ++ path,
    NewRequest := fun method endpoint _ _ _ =>
      .ok { Method := method, URL := endpoint, Path := "", Header := fun _ => [], Body := none },
    Send := fun _ => .ok { StatusCode := 200, Status := "200 OK", Body := none } }

/-! ## The proxy dialer (`client/rest/dialer.go`) -/

/-- What `proxyDialer.Dial` does to the outside, in order. -/
inductive DialEvent where
  | forwardDial (network host : String)
  | write (basicAuth : Option (String × String))
  | readResponse
  | bodyClose
  | connClose
deriving DecidableEq

/-- The `*http.Response` of the proxy, by what `Dial` reads of it. -/
structure ProxyResponse where
  StatusCode : Int
  hasBody : Bool
deriving DecidableEq

/-- How a call of `Dial` ends: with the connection, with an error, or in a panic. -/
inductive DialResult where
  | conn
  | error (err : GoError)
  | panic (message : String)
deriving DecidableEq

/-- What `Dial` calls: `s.forward.Dial` (an error, or a connection), Go
`http.NewRequest` for the CONNECT request, `req.Write(conn)` and Go
`http.ReadResponse`, which returns a nil response together with every error. -/
structure ProxyCollaborators where
  forwardDial : String → String → Option GoError
  NewRequest : String → String → Option GoError
  Write : Option GoError
  ReadResponse : Except GoError ProxyResponse

/-- The struct `proxyDialer`; `forward` tells whether the forward dialer is set. -/
structure proxyDialer where
  host : String
  user : String
  pass : String
  forward : Bool

/-- The message of the Go runtime error for a nil pointer dereference. -/
def nilDereference : String := "runtime error: invalid memory address or nil pointer dereference"

/-- The function deferred in `Dial` (dialer.go:65-69), run when `Dial` returns:
`res.Body` is read from `res`, which is nil when `http.ReadResponse` failed. -/
def deferredBodyClose (res : Option ProxyResponse) (result : DialResult)
    (events : List DialEvent) : DialResult × List DialEvent :=
  match res with
  | none => (.panic nilDereference, events)
  | some r => if r.hasBody then (result, events ++ [.bodyClose]) else (result, events)

/-- Embeds `proxyDialer.Dial` (dialer.go:44): how the call ends and what it did. -/
def proxyDialer.Dial (env : ProxyCollaborators) (s : proxyDialer) (network addr : String) :
    DialResult × List DialEvent :=
  if s.forward = false then
    (.error (fmtErrorf ("unable to connect to " ++ s.host ++ ": forward dialer not set")), [])
  else
    match env.forwardDial network s.host with
    | some err =>
      (.error (wrapErrorf ("unable to connect to " ++ s.host ++ ": ") err),
        [.forwardDial network s.host])
    | none =>
      match env.NewRequest "CONNECT" ("//" ++ addr) with
      | some err =>
        (.error (wrapErrorf ("unable to connect to " ++ addr ++ ": ") err),
          [.forwardDial network s.host, .connClose])
      | none =>
        let basicAuth := if s.user ≠ "" then some (s.user, s.pass) else none
        match env.Write with
        | some err =>
          (.error (wrapErrorf ("unable to connect to " ++ addr ++ ": ") err),
            [.forwardDial network s.host, .write basicAuth, .connClose])
        | none =>
          let events := [DialEvent.forwardDial network s.host, .write basicAuth, .readResponse]
          match env.ReadResponse with
          | .error err =>
            deferredBodyClose none
              (.error (wrapErrorf ("unable to connect to " ++ addr ++ ": ") err))
              (events ++ [.connClose])
          | .ok res =>
            if res.StatusCode ≠ 200 then
              deferredBodyClose (some res)
                (.error (fmtErrorf ("unable to connect to " ++ addr ++ " via proxy (" ++ s.host
                  ++ "): statusCode " ++ toString res.StatusCode)))
                (events ++ (if res.hasBody then [.bodyClose] else []) ++ [.connClose])
            else deferredBodyClose (some res) .conn events

/-- Collaborators for the examples: the proxy is reached and the CONNECT request is
written, then reading the response ends as given. -/
def testProxy (read : Except GoError ProxyResponse) : ProxyCollaborators :=
  { forwardDial := fun _ _ => none, NewRequest := fun _ _ => none, Write := none,
    ReadResponse := read }

/-! ## Connection lifecycle: basic facts -/

theorem incrementRequest_requests (env : Env) (st : State) :
    (incrementRequest env st).2.requests = st.requests := by
  unfold incrementRequest resetConnection
  dsimp only
  split
  · split <;> rfl
  · rfl

theorem incrementRequest_maxRetries (env : Env) (st : State) :
    (incrementRequest env st).2.s.maxRetries = st.s.maxRetries := by
  unfold incrementRequest resetConnection
  dsimp only
  split
  · split <;> rfl
  · rfl

theorem incrementRequest_sleeps (env : Env) (st : State) :
    (incrementRequest env st).2.sleeps = st.sleeps := by
  unfold incrementRequest resetConnection
  dsimp only
  split
  · split <;> rfl
  · rfl

theorem incrementRequest_ok (env : Env) (st : State) (hreset : resetsSucceed env) :
    (incrementRequest env st).1 = none := by
  unfold incrementRequest resetConnection
  dsimp only
  split
  · rw [hreset]
  · rfl

/-! ## `SendRequest` -/

theorem SendRequest_eq_loop (env : Env) (req req1 : Request) (st : State)
    (body : Option Bytes) (hcopy : CopyBody req = ((body, none), req1)) :
    SendRequest env req st
      = sendRequestLoop env body (st.s.maxRetries + 1).toNat 0 req1 st := by
  simp only [SendRequest, hcopy]

theorem sendRequestLoop_all_retryable (env : Env) (body : Option Bytes)
    (hreset : resetsSucceed env) :
    ∀ (n : Nat) (a : Int) (req : Request) (st : State),
      (∀ i r, st.requests ≤ i → i < st.requests + n → sendRetryable (env.Do i r) = true) →
      (sendRequestLoop env body n a req st).2.requests = st.requests + n ∧
      ∃ err, (sendRequestLoop env body n a req st).1 = .error err := by
  intro n
  induction n with
  | zero =>
    intro a req st _
    exact ⟨rfl, _, rfl⟩
  | succ n ih =>
    intro a req st hfail
    simp only [sendRequestLoop, httpClientDo]
    generalize hreq : (match body with
      | some b => if a > 0 then { req with Body := some (Body.reader b none) } else req
      | none => req) = req1
    have h0 := hfail st.requests req1 (Nat.le_refl _) (by omega)
    cases hdo : env.Do st.requests req1 with
    | error err =>
      rw [hdo] at h0
      simp only [sendRetryable, Bool.or_eq_true] at h0
      dsimp only
      have key := ih (a + 1) req1
        (VariableExponentialBackoff st.s.retryDelay a { st with requests := st.requests + 1 })
        (by
          intro i r h1 h2
          simp only [VariableExponentialBackoff] at h1 h2
          exact hfail i r (by omega) (by omega))
      simp only [VariableExponentialBackoff] at key
      rcases h0 with h0 | h0
      · simp only [h0, if_true, VariableExponentialBackoff]
        refine ⟨by rw [key.1]; omega, key.2⟩
      · by_cases hc : IsClosedConnectionErr err = true
        · simp only [hc, if_true, VariableExponentialBackoff]
          refine ⟨by rw [key.1]; omega, key.2⟩
        · simp only [hc, h0, if_true, if_false, Bool.false_eq_true, VariableExponentialBackoff]
          refine ⟨by rw [key.1]; omega, key.2⟩
    | ok res =>
      rw [hdo] at h0
      simp only [sendRetryable, decide_eq_true_eq] at h0
      dsimp only
      have hinc := incrementRequest_ok env { st with requests := st.requests + 1 } hreset
      have hreqs := incrementRequest_requests env { st with requests := st.requests + 1 }
      rcases hres : incrementRequest env { st with requests := st.requests + 1 } with ⟨e, st2⟩
      rw [hres] at hinc hreqs
      dsimp only at hinc hreqs
      subst hinc
      dsimp only
      have h1 : (res.StatusCode < 200 || res.StatusCode ≥ 400) = true := by
        simp only [Bool.or_eq_true, decide_eq_true_eq]; omega
      have h2 : res.StatusCode ≥ 500 := h0
      simp only [h1, h2, if_true]
      have key := ih (a + 1) req1 (VariableExponentialBackoff st2.s.retryDelay a st2)
        (by
          intro i r h3 h4
          simp only [VariableExponentialBackoff] at h3 h4
          exact hfail i r (by omega) (by omega))
      simp only [VariableExponentialBackoff] at key
      simp only [VariableExponentialBackoff]
      refine ⟨by rw [key.1]; omega, key.2⟩

/-! ## `Ingest`: the retry loop of one batch -/

theorem ingestRetryLoop_retryable (env : Env) (req : Request) (R : Int) :
    ∀ (n : Nat) (a : Int) (h : Bool) (st : State),
      st.s.maxRetries = R → a + n = R + 1 →
      (∀ i r, st.requests ≤ i → i < st.requests + n →
        retryableTransportError (env.Do i r) = true ∨
        (resetsSucceed env ∧ gatewayFailure (env.Do i r) = true)) →
      (ingestRetryLoop env req n a h st).1 = .finished (h || decide (0 < n)) ∧
      (ingestRetryLoop env req n a h st).2.requests = st.requests + n ∧
      (ingestRetryLoop env req n a h st).2.s.maxRetries = R := by
  intro n
  induction n with
  | zero =>
    intro a h st hmax _ _
    simp [ingestRetryLoop, hmax]
  | succ n ih =>
    intro a h st hmax han hfail
    simp only [ingestRetryLoop, httpClientDo]
    have h0 := hfail st.requests req (Nat.le_refl _) (by omega)
    have hstep : ∀ (h1 : Bool) (st1 : State), st1.s.maxRetries = R →
        st1.requests = st.requests + 1 →
        (h1 = true ∨ (h1 = h ∧ 0 < n)) →
        (ingestRetryLoop env req n (a + 1) h1 st1).1 = .finished (h || decide (0 < n + 1)) ∧
        (ingestRetryLoop env req n (a + 1) h1 st1).2.requests = st.requests + (n + 1) ∧
        (ingestRetryLoop env req n (a + 1) h1 st1).2.s.maxRetries = R := by
      intro h1 st1 hm hr hflag
      have key := ih (a + 1) h1 st1 hm (by push_cast at han; omega)
        (by intro i r h3 h4; exact hfail i r (by omega) (by omega))
      refine ⟨?_, by rw [key.2.1]; omega, key.2.2⟩
      rw [key.1]
      rcases hflag with hf | ⟨hf, hn⟩
      · simp [hf]
      · simp [hf, hn]
    have hlast : a ≠ R → 0 < n := by
      intro hne
      rcases Nat.eq_zero_or_pos n with hz | hp
      · subst hz; exfalso; apply hne; push_cast at han; omega
      · exact hp
    cases hdo : env.Do st.requests req with
    | error err =>
      rw [hdo] at h0
      simp only [retryableTransportError, gatewayFailure, Bool.or_eq_true, and_false,
        or_false, Bool.false_eq_true] at h0
      dsimp only
      have hbranch : ∀ (X : BatchResult × State),
          (if IsClosedConnectionErr err = true then
            if a = R then ingestRetryLoop env req n (a + 1) true
              { st with requests := st.requests + 1 }
            else ingestRetryLoop env req n (a + 1) h
              (VariableExponentialBackoff st.s.retryDelay a { st with requests := st.requests + 1 })
          else if IsGoAwayErr err = true then
            if a = R then ingestRetryLoop env req n (a + 1) true
              { st with requests := st.requests + 1 }
            else ingestRetryLoop env req n (a + 1) h
              (VariableExponentialBackoff st.s.retryDelay a { st with requests := st.requests + 1 })
          else X) =
          (if a = R then ingestRetryLoop env req n (a + 1) true
              { st with requests := st.requests + 1 }
            else ingestRetryLoop env req n (a + 1) h
              (VariableExponentialBackoff st.s.retryDelay a
                { st with requests := st.requests + 1 })) := by
        intro X
        rcases h0 with h0 | h0
        · simp only [h0, if_true]
        · by_cases hc : IsClosedConnectionErr err = true
          · simp only [hc, if_true]
          · simp only [hc, h0, if_true, if_false, Bool.false_eq_true]
      simp only [hmax]
      rw [hbranch]
      by_cases haR : a = R
      · rw [if_pos haR]
        exact hstep true { st with requests := st.requests + 1 } hmax rfl (Or.inl rfl)
      · rw [if_neg haR]
        exact hstep h (VariableExponentialBackoff st.s.retryDelay a
          { st with requests := st.requests + 1 }) hmax rfl (Or.inr ⟨rfl, hlast haR⟩)
    | ok res =>
      rw [hdo] at h0
      simp only [retryableTransportError, gatewayFailure, Bool.false_eq_true, false_or] at h0
      obtain ⟨hreset, hgw⟩ := h0
      dsimp only
      have hinc := incrementRequest_ok env { st with requests := st.requests + 1 } hreset
      have hreqs := incrementRequest_requests env { st with requests := st.requests + 1 }
      have hmr := incrementRequest_maxRetries env { st with requests := st.requests + 1 }
      rcases hres : incrementRequest env { st with requests := st.requests + 1 } with ⟨e, st2⟩
      rw [hres] at hinc hreqs hmr
      dsimp only at hinc hreqs hmr
      subst hinc
      dsimp only
      rw [hmax] at hmr
      simp only [hgw, if_true, hmr]
      by_cases haR : a = R
      · rw [if_pos haR]
        exact hstep true st2 hmr hreqs (Or.inl rfl)
      · rw [if_neg haR]
        exact hstep h (VariableExponentialBackoff st2.s.retryDelay a st2) hmr hreqs
          (Or.inr ⟨rfl, hlast haR⟩)

theorem ingestRetryLoop_keeps_flag (env : Env) (req : Request) :
    ∀ (n : Nat) (a : Int) (st : State),
      (ingestRetryLoop env req n a true st).1 = .aborted ∨
      (ingestRetryLoop env req n a true st).1 = .finished true := by
  intro n
  induction n with
  | zero => intro a st; exact Or.inr rfl
  | succ n ih =>
    intro a st
    simp only [ingestRetryLoop, httpClientDo]
    cases hdo : env.Do st.requests req with
    | error err =>
      dsimp only
      split_ifs <;> first | exact ih _ _ | exact Or.inl rfl
    | ok res =>
      dsimp only
      rcases hres : incrementRequest env { st with requests := st.requests + 1 } with ⟨e, st2⟩
      cases e with
      | some err => exact Or.inl rfl
      | none =>
        dsimp only
        split_ifs <;> first | exact ih _ _ | exact Or.inl rfl

theorem ingestRetryLoop_requests_mono (env : Env) (req : Request) :
    ∀ (n : Nat) (a : Int) (h : Bool) (st : State),
      st.requests + min n 1 ≤ (ingestRetryLoop env req n a h st).2.requests := by
  intro n
  induction n with
  | zero => intro a h st; exact Nat.le_refl _
  | succ n ih =>
    intro a h st
    have hmin : min (n + 1) 1 = 1 := by omega
    rw [hmin]
    have hrec : ∀ (h1 : Bool) (st1 : State), st.requests + 1 ≤ st1.requests →
        st.requests + 1 ≤ (ingestRetryLoop env req n (a + 1) h1 st1).2.requests := by
      intro h1 st1 hle
      have := ih (a + 1) h1 st1
      omega
    simp only [ingestRetryLoop, httpClientDo]
    cases hdo : env.Do st.requests req with
    | error err =>
      dsimp only
      split_ifs <;> first | exact hrec _ _ (Nat.le_refl _) | exact Nat.le_refl _
    | ok res =>
      dsimp only
      have hreqs := incrementRequest_requests env { st with requests := st.requests + 1 }
      rcases hres : incrementRequest env { st with requests := st.requests + 1 } with ⟨e, st2⟩
      rw [hres] at hreqs
      dsimp only at hreqs
      cases e with
      | some err => exact Nat.le_of_eq hreqs.symm
      | none =>
        dsimp only
        split_ifs <;>
          first
          | exact hrec _ _ (Nat.le_of_eq hreqs.symm)
          | exact Nat.le_of_eq hreqs.symm

/-! ## `Ingest`: the loop over the batches -/

theorem ingestBatches_keeps_flag (env : Env) :
    ∀ (batches : List (List Record)) (st : State),
      (ingestBatches env batches true st).1 = true := by
  intro batches
  induction batches with
  | nil => intro st; rfl
  | cons data rest ih =>
    intro st
    simp only [ingestBatches]
    split
    · rfl
    · next req1 hreq =>
      have hk := ingestRetryLoop_keeps_flag env req1 (st.s.maxRetries + 1).toNat 0 st
      rcases hloop : ingestRetryLoop env req1 (st.s.maxRetries + 1).toNat 0 true st with ⟨r, st1⟩
      rw [hloop] at hk
      dsimp only at hk
      rcases hk with hk | hk
      · subst hk; rfl
      · subst hk; exact ih st1

theorem ingestBatches_requests_mono (env : Env) :
    ∀ (batches : List (List Record)) (h : Bool) (st : State),
      st.requests ≤ (ingestBatches env batches h st).2.requests := by
  intro batches
  induction batches with
  | nil => intro h st; exact Nat.le_refl _
  | cons data rest ih =>
    intro h st
    simp only [ingestBatches]
    split
    · exact Nat.le_refl _
    · next req1 hreq =>
      have hk := ingestRetryLoop_requests_mono env req1 (st.s.maxRetries + 1).toNat 0 h st
      rcases hloop : ingestRetryLoop env req1 (st.s.maxRetries + 1).toNat 0 h st with ⟨r, st1⟩
      rw [hloop] at hk
      dsimp only at hk
      cases r with
      | aborted => dsimp only; omega
      | finished h1 =>
        dsimp only
        have := ih h1 st1
        omega

theorem newIngestRequest_ok (env : Env) (hurl : urlsParse env) (s : BHEClient)
    (data : List Record) : ∃ req, newIngestRequest env s data = .ok req := by
  obtain ⟨path, hpath⟩ := hurl (ingestEndpoint s)
  simp only [newIngestRequest, NewRequestWithContext, hpath]
  exact ⟨_, rfl⟩

theorem ingestBatches_gateway_failures (env : Env) (R : Int) (hR : 0 ≤ R)
    (hurl : urlsParse env) (hfail : ∀ i r, gatewayFailure (env.Do i r) = true)
    (hreset : resetsSucceed env) :
    ∀ (batches : List (List Record)) (h : Bool) (st : State), st.s.maxRetries = R →
      (ingestBatches env batches h st).1 = (h || decide (batches ≠ [])) ∧
      (ingestBatches env batches h st).2.requests
        = st.requests + (R + 1).toNat * batches.length := by
  intro batches
  induction batches with
  | nil => intro h st _; simp [ingestBatches]
  | cons data rest ih =>
    intro h st hmax
    obtain ⟨req, hreq⟩ := newIngestRequest_ok env hurl st.s data
    simp only [ingestBatches, hreq]
    have hloop := ingestRetryLoop_retryable env req R (R + 1).toNat 0 h st hmax
      (by rw [Int.toNat_of_nonneg (by omega)]; omega)
      (fun i r _ _ => Or.inr ⟨hreset, hfail i r⟩)
    rw [hmax]
    rcases hl : ingestRetryLoop env req (R + 1).toNat 0 h st with ⟨r, st1⟩
    rw [hl] at hloop
    dsimp only at hloop
    obtain ⟨h1, h2, h3⟩ := hloop
    have hpos : 0 < (R + 1).toNat := by omega
    subst h1
    dsimp only
    have key := ih (h || decide (0 < (R + 1).toNat)) st1 h3
    refine ⟨?_, ?_⟩
    · rw [key.1]; simp [hpos]
    · rw [key.2, h2, List.length_cons]; ring

/-- C1: for every maxRetries = R >= 0, when the request body can be copied, every
attempt of `SendRequest` fails retryably (a response with status 500 or more, or a
transport error classified as closed-connection or GOAWAY) and connection resets
succeed, `SendRequest` performs exactly R+1 attempts and returns an error, hence no
response. -/
theorem sendRequest_retryable_failures_exhaust_attempts (env : Env) (req : Request)
    (st : State) (R : Int) (hR : 0 ≤ R) (hmax : st.s.maxRetries = R)
    (hcopy : (CopyBody req).1.2 = none)
    (hfail : ∀ i r, st.requests ≤ i → (i : Int) ≤ st.requests + R →
      sendRetryable (env.Do i r) = true)
    (hreset : resetsSucceed env) :
    ((SendRequest env req st).2.requests : Int) = st.requests + (R + 1) ∧
    ∃ err, (SendRequest env req st).1 = .error err := by
  unfold SendRequest
  rcases hc : CopyBody req with ⟨⟨body, e⟩, req1⟩
  rw [hc] at hcopy
  dsimp only at hcopy
  subst hcopy
  dsimp only
  have key := sendRequestLoop_all_retryable env body hreset (st.s.maxRetries + 1).toNat 0 req1 st
    (by
      intro i r h1 h2
      refine hfail i r h1 ?_
      have : ((st.s.maxRetries + 1).toNat : Int) = R + 1 := by
        rw [hmax, Int.toNat_of_nonneg (by omega)]
      omega)
  refine ⟨?_, key.2⟩
  rw [key.1, hmax]
  push_cast
  rw [Int.toNat_of_nonneg (by omega)]

/-- Witness for C1: the repository test, an endpoint that always answers 500 and
maxRetries = 5. -/
theorem sendRequest_retryable_failures_exhaust_attempts_witness :
    ((SendRequest (alwaysStatus 500) getRequest (testClient 10 5)).2.requests : Int)
      = (testClient 10 5).requests + (5 + 1) ∧
    ∃ err, (SendRequest (alwaysStatus 500) getRequest (testClient 10 5)).1 = .error err :=
  sendRequest_retryable_failures_exhaust_attempts (alwaysStatus 500) getRequest
    (testClient 10 5) 5 (by decide) rfl rfl (fun _ _ _ _ => rfl) (fun _ _ => rfl)

/-- C2 (code bug): with maxRetries = 1, as in the repository test, an endpoint that
answers every request with 202 receives two requests for the one batch, because the
retry loop of `Ingest` is not left after an accepted attempt; and when the repeated
request is answered 400, `Ingest` returns true although the first attempt was
accepted. -/
theorem ingest_resends_accepted_batch :
    (Ingest (alwaysStatus 202) [testBatch] (testClient 1 1)).1 = false ∧
    (Ingest (alwaysStatus 202) [testBatch] (testClient 1 1)).2.requests = 2 ∧
    (Ingest (scripted [202, 400]) [testBatch] (testClient 1 1)).1 = true := by
  decide

/-- C3 (counterexample): an endpoint that always answers 504, maxRetries = 1 and
requestLimit = 1.  Building the replacement client fails after the first answer, and
`Ingest` returns true at once: the one batch gets a single attempt, not two. -/
theorem ingest_gateway_failures_counterexample :
    (∀ i r, gatewayFailure ((failingResets 504).Do i r) = true) ∧
    (Ingest (failingResets 504) [testBatch] (testClient 1 1)).1 = true ∧
    (Ingest (failingResets 504) [testBatch] (testClient 1 1)).2.requests = 1 ∧
    (Ingest (failingResets 504) [testBatch] (testClient 1 1)).2.requests ≠ 1 + 1 := by
  refine ⟨fun _ _ => rfl, by decide, by decide, by decide⟩

/-- C3 (amended): for every maxRetries = R >= 0, if the endpoint answers every
attempt with a status in {502, 503, 504} and connection resets succeed, the retry loop
of every batch makes exactly R+1 attempts and records the error, `Ingest` sends
exactly (R+1) requests per batch of the stream, and it returns true when the stream
holds at least one batch. -/
theorem ingest_gateway_failures_exhaust_every_batch (env : Env)
    (batches : List (List Record)) (st : State) (R : Int) (hR : 0 ≤ R)
    (hmax : st.s.maxRetries = R) (hurl : urlsParse env)
    (hfail : ∀ i r, gatewayFailure (env.Do i r) = true)
    (hreset : resetsSucceed env) :
    (∀ req h st1, st1.s.maxRetries = R →
      (ingestRetryLoop env req (R + 1).toNat 0 h st1).1 = .finished true ∧
      ((ingestRetryLoop env req (R + 1).toNat 0 h st1).2.requests : Int)
        = st1.requests + (R + 1)) ∧
    ((Ingest env batches st).2.requests : Int) = st.requests + (R + 1) * batches.length ∧
    (batches ≠ [] → (Ingest env batches st).1 = true) := by
  have hn : ((R + 1).toNat : Int) = R + 1 := Int.toNat_of_nonneg (by omega)
  refine ⟨?_, ?_, ?_⟩
  · intro req h st1 hm
    have hloop := ingestRetryLoop_retryable env req R (R + 1).toNat 0 h st1 hm
      (by omega) (fun i r _ _ => Or.inr ⟨hreset, hfail i r⟩)
    have hpos : 0 < (R + 1).toNat := by omega
    refine ⟨?_, ?_⟩
    · rw [hloop.1]; simp [hpos]
    · rw [hloop.2.1]; push_cast; rw [hn]
  · have key := ingestBatches_gateway_failures env R hR hurl hfail hreset batches false st hmax
    unfold Ingest
    rw [key.2]
    push_cast
    rw [hn]
  · intro hne
    have key := ingestBatches_gateway_failures env R hR hurl hfail hreset batches false st hmax
    unfold Ingest
    rw [key.1]
    simp [hne]

/-- Witness for C3 (amended): the repository test, an endpoint that always answers
504 and maxRetries = 1. -/
theorem ingest_gateway_failures_exhaust_every_batch_witness :
    (∀ req h st1, st1.s.maxRetries = 1 →
      (ingestRetryLoop (alwaysStatus 504) req (1 + 1 : Int).toNat 0 h st1).1 = .finished true ∧
      ((ingestRetryLoop (alwaysStatus 504) req (1 + 1 : Int).toNat 0 h st1).2.requests : Int)
        = st1.requests + (1 + 1)) ∧
    ((Ingest (alwaysStatus 504) [testBatch] (testClient 0 1)).2.requests : Int)
      = (testClient 0 1).requests + (1 + 1) * [testBatch].length ∧
    ([testBatch] ≠ [] → (Ingest (alwaysStatus 504) [testBatch] (testClient 0 1)).1 = true) :=
  ingest_gateway_failures_exhaust_every_batch (alwaysStatus 504) [testBatch]
    (testClient 0 1) 1 (by decide) rfl (fun _ => ⟨_, rfl⟩) (fun _ _ => rfl) (fun _ _ => rfl)

/-- C4: for every maxRetries = R >= 0, if every attempt of a batch fails with a
transport error classified as GOAWAY or closed-connection, the retry loop of that
batch makes exactly R+1 attempts and ends with the error recorded (no response is
read on this path), and `Ingest` returns true whatever the flag was before the batch
and whatever happens to the batches after it. -/
theorem ingest_transport_failures_exhaust_batch (env : Env) (data : List Record)
    (rest : List (List Record)) (h : Bool) (st : State) (R : Int) (hR : 0 ≤ R)
    (hmax : st.s.maxRetries = R) (hurl : urlsParse env)
    (hfail : ∀ i r, st.requests ≤ i → (i : Int) ≤ st.requests + R →
      retryableTransportError (env.Do i r) = true) :
    (∀ req, (ingestRetryLoop env req (R + 1).toNat 0 h st).1 = .finished true ∧
      ((ingestRetryLoop env req (R + 1).toNat 0 h st).2.requests : Int)
        = st.requests + (R + 1)) ∧
    (ingestBatches env (data :: rest) h st).1 = true ∧
    (Ingest env (data :: rest) st).1 = true := by
  have hn : ((R + 1).toNat : Int) = R + 1 := Int.toNat_of_nonneg (by omega)
  have hpos : 0 < (R + 1).toNat := by omega
  have hloop : ∀ req h1, (ingestRetryLoop env req (R + 1).toNat 0 h1 st).1 = .finished true ∧
      (ingestRetryLoop env req (R + 1).toNat 0 h1 st).2.requests
        = st.requests + (R + 1).toNat := by
    intro req h1
    have key := ingestRetryLoop_retryable env req R (R + 1).toNat 0 h1 st hmax (by omega)
      (fun i r h1 h2 => Or.inl (hfail i r h1 (by omega)))
    refine ⟨?_, key.2.1⟩
    rw [key.1]; simp [hpos]
  have hbatches : ∀ h1, (ingestBatches env (data :: rest) h1 st).1 = true := by
    intro h1
    obtain ⟨req, hreq⟩ := newIngestRequest_ok env hurl st.s data
    simp only [ingestBatches, hreq]
    have hl := (hloop req h1).1
    rw [hmax]
    rcases hres : ingestRetryLoop env req (R + 1).toNat 0 h1 st with ⟨r, st1⟩
    rw [hres] at hl
    dsimp only at hl
    subst hl
    exact ingestBatches_keeps_flag env rest st1
  refine ⟨?_, hbatches h, hbatches false⟩
  intro req
  refine ⟨(hloop req h).1, ?_⟩
  rw [(hloop req h).2]
  push_cast
  rw [hn]

/-- Witness for C4: the repository test, a transport that fails every request with
GOAWAY and maxRetries = 0. -/
theorem ingest_transport_failures_exhaust_batch_witness :
    (∀ req, (ingestRetryLoop (alwaysError goAwayError) req (0 + 1 : Int).toNat 0 false
        (testClient 0 0)).1 = .finished true ∧
      ((ingestRetryLoop (alwaysError goAwayError) req (0 + 1 : Int).toNat 0 false
        (testClient 0 0)).2.requests : Int) = (testClient 0 0).requests + (0 + 1)) ∧
    (ingestBatches (alwaysError goAwayError) (testBatch :: []) false (testClient 0 0)).1 = true ∧
    (Ingest (alwaysError goAwayError) (testBatch :: []) (testClient 0 0)).1 = true :=
  ingest_transport_failures_exhaust_batch (alwaysError goAwayError) testBatch [] false
    (testClient 0 0) 0 (by decide) rfl (fun _ => ⟨_, rfl⟩) (fun _ _ _ _ => rfl)

/-- C5 (counterexample): an endpoint that answers 304.  `SendRequest` returns the
response as success after one attempt, although 304 lies outside [200,300). -/
theorem sendRequest_not_modified_counterexample :
    (SendRequest (alwaysStatus 304) getRequest (testClient 10 3)).1
      = .ok { StatusCode := 304, Status := "304", Body := none } ∧
    (SendRequest (alwaysStatus 304) getRequest (testClient 10 3)).2.requests = 1 := by
  decide

/-- C5 (amended): for an attempt of `SendRequest` answered with a status below 500,
no further attempt is made; the response is returned as success exactly when its
status is in [200,400) and the connection count step succeeds, and for every status
below 200 or in [400,500) the result is an error, hence no response. -/
theorem sendRequest_non_retryable_status (env : Env) (body : Option Bytes) (n : Nat)
    (a : Int) (req : Request) (st : State) (res : Response)
    (hdo : ∀ r, env.Do st.requests r = .ok res) (hlt : res.StatusCode < 500) :
    (sendRequestLoop env body (n + 1) a req st).2.requests = st.requests + 1 ∧
    ((res.StatusCode < 200 ∨ 400 ≤ res.StatusCode) →
      ∃ err, (sendRequestLoop env body (n + 1) a req st).1 = .error err) ∧
    (resetsSucceed env → 200 ≤ res.StatusCode → res.StatusCode < 400 →
      (sendRequestLoop env body (n + 1) a req st).1 = .ok res) ∧
    (∀ res1, (sendRequestLoop env body (n + 1) a req st).1 = .ok res1 →
      res1 = res ∧ 200 ≤ res.StatusCode ∧ res.StatusCode < 400) := by
  simp only [sendRequestLoop, httpClientDo, hdo]
  have hreqs := incrementRequest_requests env { st with requests := st.requests + 1 }
  have hinc := fun hr => incrementRequest_ok env { st with requests := st.requests + 1 } hr
  rcases hres : incrementRequest env { st with requests := st.requests + 1 } with ⟨e, st2⟩
  rw [hres] at hreqs hinc
  dsimp only at hreqs hinc
  have hnot : ¬ res.StatusCode ≥ 500 := by omega
  cases e with
  | some err =>
    dsimp only
    refine ⟨hreqs, fun _ => ⟨_, rfl⟩, fun hr => ?_, fun res1 hcontra => ?_⟩
    · exact absurd (hinc hr) (by simp)
    · exact absurd hcontra (by simp)
  | none =>
    dsimp only
    by_cases hbad : res.StatusCode < 200 ∨ 400 ≤ res.StatusCode
    · have h1 : (decide (res.StatusCode < 200) || decide (res.StatusCode ≥ 400)) = true := by
        simp only [Bool.or_eq_true, decide_eq_true_eq]; exact hbad
      simp only [h1, if_true, hnot, if_false]
      cases hb : res.Body with
      | none =>
        dsimp only
        refine ⟨hreqs, fun _ => ⟨_, rfl⟩, fun _ h2 h3 => ?_, fun res1 hcontra => ?_⟩
        · omega
        · exact absurd hcontra (by simp)
      | some raw =>
        dsimp only
        refine ⟨hreqs, fun _ => ⟨_, rfl⟩, fun _ h2 h3 => ?_, fun res1 hcontra => ?_⟩
        · omega
        · exact absurd hcontra (by simp)
    · have h1 : (decide (res.StatusCode < 200) || decide (res.StatusCode ≥ 400)) = false := by
        rw [Bool.eq_false_iff]
        simp only [ne_eq, Bool.or_eq_true, decide_eq_true_eq]
        exact hbad
      simp only [h1, Bool.false_eq_true, if_false]
      refine ⟨hreqs, fun hb => absurd hb hbad, fun _ _ _ => trivial, fun res1 heq => ?_⟩
      have : res = res1 := by simpa using heq
      exact ⟨this.symm, by omega, by omega⟩

/-- Witness for C5 (amended): an endpoint that answers 404. -/
theorem sendRequest_non_retryable_status_witness :
    (sendRequestLoop (alwaysStatus 404) none (3 + 1) 0 getRequest (testClient 10 3)).2.requests
      = (testClient 10 3).requests + 1 ∧
    ∃ err, (sendRequestLoop (alwaysStatus 404) none (3 + 1) 0 getRequest
      (testClient 10 3)).1 = .error err :=
  have t := sendRequest_non_retryable_status (alwaysStatus 404) none 3 0 getRequest
    (testClient 10 3) ⟨404, "404", none⟩ (fun _ => rfl) (by decide)
  ⟨t.1, t.2.1 (Or.inr (by decide))⟩

/-- C6: when an attempt of `Ingest` is answered with a status that is not 202 and not
502, 503 or 504, the retry loop of the batch is left at once with `return true`: that
attempt is the last request of the batch, and a batch whose loop is left this way ends
`Ingest` with the result true in the state of that moment, so that no later batch of
the stream is sent. -/
theorem ingest_fatal_status_aborts (env : Env) (req : Request) (n : Nat) (a : Int)
    (h : Bool) (st : State) (res : Response)
    (hdo : env.Do st.requests req = .ok res)
    (h202 : res.StatusCode ≠ 202) (h502 : res.StatusCode ≠ 502)
    (h503 : res.StatusCode ≠ 503) (h504 : res.StatusCode ≠ 504) :
    (ingestRetryLoop env req (n + 1) a h st).1 = .aborted ∧
    (ingestRetryLoop env req (n + 1) a h st).2.requests = st.requests + 1 ∧
    (∀ data rest h0 st0, newIngestRequest env st0.s data = .ok req →
      (ingestRetryLoop env req (st0.s.maxRetries + 1).toNat 0 h0 st0).1 = .aborted →
      ingestBatches env (data :: rest) h0 st0
        = (true, (ingestRetryLoop env req (st0.s.maxRetries + 1).toNat 0 h0 st0).2)) := by
  have hloop : ∀ (a1 : Int) (h1 : Bool) (st1 : State), env.Do st1.requests req = .ok res →
      (ingestRetryLoop env req (n + 1) a1 h1 st1).1 = .aborted ∧
      (ingestRetryLoop env req (n + 1) a1 h1 st1).2.requests = st1.requests + 1 := by
    intro a1 h1 st1 hd
    simp only [ingestRetryLoop, httpClientDo, hd]
    have hreqs := incrementRequest_requests env { st1 with requests := st1.requests + 1 }
    rcases hres : incrementRequest env { st1 with requests := st1.requests + 1 } with ⟨e, st2⟩
    rw [hres] at hreqs
    dsimp only at hreqs
    cases e with
    | some err => exact ⟨rfl, hreqs⟩
    | none =>
      dsimp only
      have hg : (decide (res.StatusCode = 504) || decide (res.StatusCode = 503)
          || decide (res.StatusCode = 502)) = false := by
        simp [h502, h503, h504]
      simp only [hg, Bool.false_eq_true, if_false, ne_eq, h202, not_false_eq_true, if_true]
      exact ⟨trivial, hreqs⟩
  refine ⟨(hloop a h st hdo).1, (hloop a h st hdo).2, ?_⟩
  intro data rest h0 st0 hreq habort
  simp only [ingestBatches, hreq]
  rcases hres : ingestRetryLoop env req (st0.s.maxRetries + 1).toNat 0 h0 st0 with ⟨r, st1⟩
  rw [hres] at habort
  dsimp only at habort
  subst habort
  rfl

/-- Witness for C6: an endpoint that answers 400, three batches, maxRetries = 3. -/
theorem ingest_fatal_status_aborts_witness :
    (ingestRetryLoop (alwaysStatus 400) getRequest (3 + 1) 0 false (testClient 10 3)).1
      = .aborted ∧
    (ingestRetryLoop (alwaysStatus 400) getRequest (3 + 1) 0 false
      (testClient 10 3)).2.requests = (testClient 10 3).requests + 1 :=
  have t := ingest_fatal_status_aborts (alwaysStatus 400) getRequest 3 0 false
    (testClient 10 3) ⟨400, "400", none⟩ rfl (by decide) (by decide) (by decide) (by decide)
  ⟨t.1, t.2.1⟩

/-- C7 (counterexample): maxRetries = 0 and three batches; the first is answered 504
and so exhausts its budget, the second is answered 400.  Only two requests are sent:
the third batch is never sent. -/
theorem ingest_later_batch_not_sent_counterexample :
    gatewayFailure ((scripted [504, 400]).Do 0 getRequest) = true ∧
    (Ingest (scripted [504, 400]) [testBatch, testBatch, testBatch]
      (testClient 10 0)).2.requests = 2 ∧
    (Ingest (scripted [504, 400]) [testBatch, testBatch, testBatch]
      (testClient 10 0)).1 = true := by
  decide

/-- C7 (amended): if a batch exhausts its retry budget on retryable failures (502,
503, 504 with connection resets succeeding, or GOAWAY or closed-connection errors, on
all maxRetries+1 attempts), `Ingest` goes on with the rest of the stream as it would
after any batch, with the error flag set: the next batch, if there is one, is sent,
and the final result is true whatever the outcomes of the later batches. -/
theorem ingest_exhausted_batch_continues (env : Env) (data : List Record)
    (rest : List (List Record)) (h : Bool) (st : State) (R : Int) (hR : 0 ≤ R)
    (hmax : st.s.maxRetries = R) (hurl : urlsParse env)
    (hfail : ∀ i r, st.requests ≤ i → (i : Int) ≤ st.requests + R →
      retryableTransportError (env.Do i r) = true ∨
      (resetsSucceed env ∧ gatewayFailure (env.Do i r) = true)) :
    (∃ st1, (st1.requests : Int) = st.requests + (R + 1) ∧
      ingestBatches env (data :: rest) h st = ingestBatches env rest true st1) ∧
    (ingestBatches env (data :: rest) h st).1 = true ∧
    (rest ≠ [] →
      (st.requests : Int) + (R + 1) + 1 ≤ (ingestBatches env (data :: rest) h st).2.requests) := by
  have hn : ((R + 1).toNat : Int) = R + 1 := Int.toNat_of_nonneg (by omega)
  have hpos : 0 < (R + 1).toNat := by omega
  obtain ⟨req, hreq⟩ := newIngestRequest_ok env hurl st.s data
  have key := ingestRetryLoop_retryable env req R (R + 1).toNat 0 h st hmax (by omega)
    (fun i r h1 h2 => hfail i r h1 (by omega))
  rcases hres : ingestRetryLoop env req (R + 1).toNat 0 h st with ⟨r, st1⟩
  rw [hres] at key
  dsimp only at key
  obtain ⟨k1, k2, k3⟩ := key
  have hr : r = .finished true := by rw [k1]; simp [hpos]
  subst hr
  have hstep : ingestBatches env (data :: rest) h st = ingestBatches env rest true st1 := by
    simp only [ingestBatches, hreq, hmax, hres]
  refine ⟨⟨st1, by rw [k2]; push_cast; rw [hn], hstep⟩, ?_, ?_⟩
  · rw [hstep]; exact ingestBatches_keeps_flag env rest st1
  · intro hne
    rw [hstep]
    cases rest with
    | nil => exact absurd rfl hne
    | cons next rest2 =>
      obtain ⟨req2, hreq2⟩ := newIngestRequest_ok env hurl st1.s next
      simp only [ingestBatches, hreq2, k3]
      have hm := ingestRetryLoop_requests_mono env req2 (R + 1).toNat 0 true st1
      have hmin : min (R + 1).toNat 1 = 1 := by omega
      rw [hmin] at hm
      rcases hres2 : ingestRetryLoop env req2 (R + 1).toNat 0 true st1 with ⟨r2, st2⟩
      rw [hres2] at hm
      dsimp only at hm
      cases r2 with
      | aborted => dsimp only; omega
      | finished h2 =>
        dsimp only
        have := ingestBatches_requests_mono env rest2 h2 st2
        omega

/-- Witness for C7 (amended): maxRetries = 1, the first batch answered 504 twice, the
second batch accepted. -/
theorem ingest_exhausted_batch_continues_witness :
    (∃ st1, (st1.requests : Int) = (testClient 10 1).requests + (1 + 1) ∧
      ingestBatches (scripted [504, 504]) (testBatch :: [testBatch]) false (testClient 10 1)
        = ingestBatches (scripted [504, 504]) [testBatch] true st1) ∧
    (ingestBatches (scripted [504, 504]) (testBatch :: [testBatch]) false
      (testClient 10 1)).1 = true ∧
    ([testBatch] ≠ [] →
      ((testClient 10 1).requests : Int) + (1 + 1) + 1
        ≤ (ingestBatches (scripted [504, 504]) (testBatch :: [testBatch]) false
            (testClient 10 1)).2.requests) :=
  ingest_exhausted_batch_continues (scripted [504, 504]) testBatch [testBatch] false
    (testClient 10 1) 1 (by decide) rfl (fun _ => ⟨_, rfl⟩)
    (fun i r h1 h2 => Or.inr ⟨fun _ _ => rfl, by
      have hi : i = 0 ∨ i = 1 := by
        have : (i : Int) ≤ 0 + 1 := h2
        omega
      rcases hi with hi | hi <;> subst hi <;> rfl⟩)

/-- C8: in an attempt of `SendRequest` whose transport fails with the error `err`,
the loop goes on to the next iteration, after one backoff, when `err` is classified
as closed-connection or as GOAWAY; for every other error the call returns exactly
`err` after that attempt, with no further request and no backoff. -/
theorem sendRequest_transport_error_classification (env : Env) (body : Option Bytes)
    (n : Nat) (a : Int) (req : Request) (st : State) (err : GoError)
    (hdo : ∀ r, env.Do st.requests r = .error err) :
    ((IsClosedConnectionErr err = true ∨ IsGoAwayErr err = true) →
      ∃ req1, sendRequestLoop env body (n + 1) a req st
        = sendRequestLoop env body n (a + 1) req1
            (VariableExponentialBackoff st.s.retryDelay a
              { st with requests := st.requests + 1 })) ∧
    ((IsClosedConnectionErr err = false ∧ IsGoAwayErr err = false) →
      sendRequestLoop env body (n + 1) a req st
        = (.error err, { st with requests := st.requests + 1 })) := by
  simp only [sendRequestLoop, httpClientDo, hdo]
  refine ⟨?_, ?_⟩
  · intro hcls
    refine ⟨(match body with
      | some b => if a > 0 then { req with Body := some (Body.reader b none) } else req
      | none => req), ?_⟩
    by_cases hc : IsClosedConnectionErr err = true
    · simp only [hc, if_true]
    · rcases hcls with h1 | h1
      · exact absurd h1 hc
      · simp only [hc, h1, if_true, if_false, Bool.false_eq_true]
  · rintro ⟨h1, h2⟩
    simp only [h1, h2, Bool.false_eq_true, if_false]

/-- Witness for C8: a transport that fails with GOAWAY, and one that fails with an
error of neither class. -/
theorem sendRequest_transport_error_classification_witness :
    (∃ req1, sendRequestLoop (alwaysError goAwayError) none (3 + 1) 0 getRequest
        (testClient 10 3)
      = sendRequestLoop (alwaysError goAwayError) none 3 (0 + 1) req1
          (VariableExponentialBackoff (testClient 10 3).s.retryDelay 0
            { testClient 10 3 with requests := (testClient 10 3).requests + 1 })) ∧
    sendRequestLoop (alwaysError (fmtErrorf "dial tcp: connection refused")) none (3 + 1) 0
        getRequest (testClient 10 3)
      = (.error (fmtErrorf "dial tcp: connection refused"),
          { testClient 10 3 with requests := (testClient 10 3).requests + 1 }) :=
  ⟨(sendRequest_transport_error_classification (alwaysError goAwayError) none 3 0
      getRequest (testClient 10 3) goAwayError (fun _ => rfl)).1 (Or.inr rfl),
   (sendRequest_transport_error_classification
      (alwaysError (fmtErrorf "dial tcp: connection refused")) none 3 0 getRequest
      (testClient 10 3) (fmtErrorf "dial tcp: connection refused") (fun _ => rfl)).2
      ⟨by decide, rfl⟩⟩

/-! ## The signing transport -/

theorem readChunks_flatten (size : Nat) (hsize : 0 < size) :
    ∀ (fuel : Nat) (data : Bytes), data.length ≤ fuel →
      (readChunks size fuel data).flatten = data := by
  intro fuel
  induction fuel with
  | zero =>
    intro data hlen
    have : data = [] := List.length_eq_zero.mp (Nat.le_zero.mp hlen)
    subst this
    rfl
  | succ fuel ih =>
    intro data hlen
    simp only [readChunks]
    by_cases hd : data = []
    · subst hd; rfl
    · rw [if_neg hd, List.flatten_cons, ih (data.drop size), List.take_append_drop]
      have hpos : 0 < data.length := List.length_pos.mpr hd
      rw [List.length_drop]
      omega

theorem hashLoop_eq : ∀ (chunks : List Bytes) (digester : Digester) (body : Bytes),
    hashLoop chunks digester body
      = ({ digester with written := digester.written ++ chunks.flatten }, body ++ chunks.flatten) := by
  intro chunks
  induction chunks with
  | nil => intro digester body; simp [hashLoop]
  | cons chunk rest ih =>
    intro digester body
    rw [hashLoop, ih]
    by_cases hc : chunk.length > 0
    · simp [hc, Digester.Write, List.append_assoc]
    · have : chunk = [] := List.length_eq_zero.mp (by omega)
      subst this
      simp

theorem roundTrip_unsigned (c : Crypto) (s : signingTransport) (datetime : String)
    (req : Request) (hsig : req.HeaderGet "Signature" = "") (hread : req.readError = none) :
    s.RoundTrip c datetime req
      = .ok ((({ req with Body := req.Body.map fun _ => .rewindable ⟨req.bodyBytes, 0⟩ }.HeaderSet
          "Authorization" (s.signature ++ " " ++ s.tokenId)).HeaderSet
          "RequestDate" datetime).HeaderSet "Signature"
          (RequestSignature c s.token req.Method req.Path datetime req.bodyBytes)) := by
  rcases req with ⟨m, u, p, hd, b⟩
  have hsig1 : ∀ b1, Request.HeaderGet ⟨m, u, p, hd, b1⟩ "Signature" = "" := fun _ => hsig
  cases b with
  | none =>
    simp [signingTransport.RoundTrip, hsig1, RequestSignature, Request.bodyBytes, rewoundBody,
      hmacNew, Digester.Write, Digester.Sum]
  | some body =>
    cases body with
    | rewindable r =>
      simp [signingTransport.RoundTrip, rewindableByteReader.Rewind, hsig1, RequestSignature,
        Request.bodyBytes, rewoundBody, hmacNew, Digester.Write, Digester.Sum, hashLoop_eq,
        readChunks_flatten, Body.remaining, Body.terminal]
    | reader data err =>
      have herr : err = none := hread
      subst herr
      simp [signingTransport.RoundTrip, hsig1, RequestSignature,
        Request.bodyBytes, rewoundBody, hmacNew, Digester.Write, Digester.Sum, hashLoop_eq,
        readChunks_flatten, Body.remaining, Body.terminal]

/-- C9: for every request whose Signature header is absent (or empty) and whose body
can be read to its end, with method m, path p and body bytes b (none for a nil
body), `RoundTrip` hands the base transport the request with Signature =
base64(HMAC(HMAC(HMAC(token, m ++ p), first 13 bytes of the RFC3339 text of now), b)),
RequestDate = that RFC3339 text and Authorization = scheme ++ " " ++ tokenId; a second
time whose RFC3339 text has the same first 13 bytes (the date and the hour) gives the
same signature. -/
theorem roundTrip_signs_unsigned_request (c : Crypto) (s : signingTransport)
    (datetime : String) (req : Request) (hsig : req.HeaderGet "Signature" = "")
    (hread : req.readError = none) :
    ∃ req1, s.RoundTrip c datetime req = .ok req1 ∧
      req1.HeaderGet "Signature"
        = RequestSignature c s.token req.Method req.Path datetime req.bodyBytes ∧
      req1.HeaderGet "RequestDate" = datetime ∧
      req1.HeaderGet "Authorization" = s.signature ++ " " ++ s.tokenId ∧
      ∀ datetime2, (bytesOf datetime2).take 13 = (bytesOf datetime).take 13 →
        ∃ req2, s.RoundTrip c datetime2 req = .ok req2 ∧
          req2.HeaderGet "Signature" = req1.HeaderGet "Signature" := by
  refine ⟨_, roundTrip_unsigned c s datetime req hsig hread, ?_, ?_, ?_, ?_⟩
  · simp [Request.HeaderGet, Request.HeaderSet]
  · simp [Request.HeaderGet, Request.HeaderSet]
  · simp [Request.HeaderGet, Request.HeaderSet]
  · intro datetime2 h13
    refine ⟨_, roundTrip_unsigned c s datetime2 req hsig hread, ?_⟩
    simp [Request.HeaderGet, Request.HeaderSet, RequestSignature, h13]

/-- Witness for C9: the unsigned POST request of the tests, signed by the transport
of the tests. -/
theorem roundTrip_signs_unsigned_request_witness :
    ∃ req1, testTransport.RoundTrip standInCrypto "2024-05-17T10:42:07Z" postRequest = .ok req1 ∧
      req1.HeaderGet "Signature"
        = RequestSignature standInCrypto testTransport.token postRequest.Method
            postRequest.Path "2024-05-17T10:42:07Z" postRequest.bodyBytes ∧
      req1.HeaderGet "RequestDate" = "2024-05-17T10:42:07Z" ∧
      req1.HeaderGet "Authorization" = testTransport.signature ++ " " ++ testTransport.tokenId ∧
      ∀ datetime2, (bytesOf datetime2).take 13 = (bytesOf "2024-05-17T10:42:07Z").take 13 →
        ∃ req2, testTransport.RoundTrip standInCrypto datetime2 postRequest = .ok req2 ∧
          req2.HeaderGet "Signature" = req1.HeaderGet "Signature" :=
  roundTrip_signs_unsigned_request standInCrypto testTransport "2024-05-17T10:42:07Z"
    postRequest rfl rfl

/-- C10: for every request that already carries a non-empty Signature header,
whatever the time and the credentials, `RoundTrip` hands the base transport the same
request with every header unchanged (Signature, RequestDate and Authorization among
them); the only change is that a rewindable body has its cursor back at offset 0. -/
theorem roundTrip_signed_request_only_rewound (c : Crypto) (s : signingTransport)
    (datetime : String) (req : Request) (hsig : req.HeaderGet "Signature" ≠ "") :
    s.RoundTrip c datetime req = .ok { req with Body := rewoundBody req.Body } ∧
    ∀ req1, s.RoundTrip c datetime req = .ok req1 →
      req1.Header = req.Header ∧ req1.Method = req.Method ∧ req1.URL = req.URL ∧
      req1.Path = req.Path ∧ req1.Body = rewoundBody req.Body := by
  have hmain : s.RoundTrip c datetime req = .ok { req with Body := rewoundBody req.Body } := by
    rcases req with ⟨m, u, p, hd, b⟩
    have hsig1 : ∀ b1, ¬ Request.HeaderGet ⟨m, u, p, hd, b1⟩ "Signature" = "" := fun _ => hsig
    cases b with
    | none => simp [signingTransport.RoundTrip, hsig1, rewoundBody]
    | some body =>
      cases body with
      | rewindable r =>
        simp [signingTransport.RoundTrip, rewindableByteReader.Rewind, hsig1, rewoundBody]
      | reader data err => simp [signingTransport.RoundTrip, hsig1, rewoundBody]
  refine ⟨hmain, ?_⟩
  intro req1 h1
  rw [hmain] at h1
  have : { req with Body := rewoundBody req.Body } = req1 := by simpa using h1
  subst this
  exact ⟨rfl, rfl, rfl, rfl, rfl⟩

/-- Witness for C10: the signed request of the tests, its body read to the end, is
handed on with its cursor at 0 and its headers as they were. -/
theorem roundTrip_signed_request_only_rewound_witness :
    testTransport.RoundTrip standInCrypto "2024-05-17T11:03:00Z" signedRequest
      = .ok { signedRequest with Body := rewoundBody signedRequest.Body } ∧
    ∀ req1, testTransport.RoundTrip standInCrypto "2024-05-17T11:03:00Z" signedRequest
        = .ok req1 →
      req1.Header = signedRequest.Header ∧ req1.Method = signedRequest.Method ∧
      req1.URL = signedRequest.URL ∧ req1.Path = signedRequest.Path ∧
      req1.Body = rewoundBody signedRequest.Body :=
  roundTrip_signed_request_only_rewound standInCrypto testTransport "2024-05-17T11:03:00Z"
    signedRequest (by decide)

theorem roundTrip_signed (c : Crypto) (s : signingTransport) (datetime : String)
    (req : Request) (hsig : req.HeaderGet "Signature" ≠ "") :
    s.RoundTrip c datetime req = .ok { req with Body := rewoundBody req.Body } := by
  rcases req with ⟨m, u, p, hd, b⟩
  have hsig1 : ∀ b1, ¬ Request.HeaderGet ⟨m, u, p, hd, b1⟩ "Signature" = "" := fun _ => hsig
  cases b with
  | none => simp [signingTransport.RoundTrip, hsig1, rewoundBody]
  | some body =>
    cases body with
    | rewindable r =>
      simp [signingTransport.RoundTrip, rewindableByteReader.Rewind, hsig1, rewoundBody]
    | reader data err => simp [signingTransport.RoundTrip, hsig1, rewoundBody]

theorem roundTrip_eq_inPlace (c : Crypto) (s : signingTransport) (datetime : String)
    (req : Request) :
    s.RoundTrip c datetime req
      = match s.RoundTripInPlace c datetime req with
        | (some err, _) => .error err
        | (none, req1) => .ok req1 := by
  rcases req with ⟨m, u, p, hd, b⟩
  by_cases hsig : Request.HeaderGet ⟨m, u, p, hd, b⟩ "Signature" = ""
  · have hsig1 : ∀ b1, Request.HeaderGet ⟨m, u, p, hd, b1⟩ "Signature" = "" := fun _ => hsig
    cases b with
    | none =>
      simp [signingTransport.RoundTrip, signingTransport.RoundTripInPlace,
        signingTransport.signInPlace, hsig1]
    | some body =>
      cases body with
      | rewindable r =>
        simp [signingTransport.RoundTrip, signingTransport.RoundTripInPlace,
          signingTransport.signInPlace, rewindableByteReader.Rewind, hsig1, Body.terminal]
      | reader data err =>
        cases err <;>
          simp [signingTransport.RoundTrip, signingTransport.RoundTripInPlace,
            signingTransport.signInPlace, hsig1, Body.terminal]
  · have hsig1 : ∀ b1, ¬ Request.HeaderGet ⟨m, u, p, hd, b1⟩ "Signature" = "" := fun _ => hsig
    cases b with
    | none =>
      simp [signingTransport.RoundTrip, signingTransport.RoundTripInPlace,
        signingTransport.signInPlace, hsig1]
    | some body =>
      cases body with
      | rewindable r =>
        simp [signingTransport.RoundTrip, signingTransport.RoundTripInPlace,
          signingTransport.signInPlace, rewindableByteReader.Rewind, hsig1]
      | reader data err =>
        simp [signingTransport.RoundTrip, signingTransport.RoundTripInPlace,
          signingTransport.signInPlace, hsig1]

theorem markedCrypto_signaturesNonEmpty : markedCrypto.signaturesNonEmpty := by
  intro key message h
  have := congrArg String.data h
  simp [markedCrypto] at this

/-- C11: for every request not yet signed whose body holds the bytes b (none for a
nil body), the first `RoundTrip` hands the base transport a body that yields exactly
b; once the base transport has read that body to its end, a second `RoundTrip` on the
same request, at any later time, hands it a body that yields b again and the same
Signature header (the signature being a non-empty text).  This rests on `Rewind`:
it always returns offset 0 and no error, and the reads that follow start at the first
byte. -/
theorem roundTrip_replay_same_body_and_signature (c : Crypto) (s : signingTransport)
    (datetime1 datetime2 : String) (req : Request)
    (hsig : req.HeaderGet "Signature" = "") (hread : req.readError = none)
    (hc : c.signaturesNonEmpty) :
    (∃ req1 req2, s.RoundTrip c datetime1 req = .ok req1 ∧
      s.RoundTrip c datetime2 req1.afterBaseRead = .ok req2 ∧
      req1.bodyRemaining = req.bodyBytes ∧ req2.bodyRemaining = req.bodyBytes ∧
      req2.HeaderGet "Signature" = req1.HeaderGet "Signature") ∧
    ∀ r : rewindableByteReader,
      r.Rewind.1 = (0, none) ∧ r.Rewind.2.offset = 0 ∧
      (Body.rewindable r.Rewind.2).remaining = r.data := by
  refine ⟨?_, fun r => ⟨rfl, rfl, by simp [rewindableByteReader.Rewind, Body.remaining]⟩⟩
  have h1 := roundTrip_unsigned c s datetime1 req hsig hread
  refine ⟨_, _, h1, roundTrip_signed c s datetime2 _ ?_, ?_, ?_, ?_⟩
  · have := hc (c.hmacSHA256 (c.hmacSHA256 (bytesOf s.token) (bytesOf (req.Method ++ req.Path)))
      ((bytesOf datetime1).take 13)) req.bodyBytes
    simpa [Request.afterBaseRead, Request.HeaderGet, Request.HeaderSet, RequestSignature]
      using this
  · cases hb : req.Body <;>
      simp [Request.bodyRemaining, Request.HeaderSet, hb, Request.bodyBytes, rewoundBody,
        Body.remaining]
  · cases hb : req.Body <;>
      simp [Request.bodyRemaining, Request.HeaderSet, Request.afterBaseRead, hb,
        Request.bodyBytes, rewoundBody, Body.remaining, Body.readToEnd]
  · simp [Request.afterBaseRead, Request.HeaderGet, Request.HeaderSet]

/-- Witness for C11: the POST request of the tests, sent twice by the transport of
the tests, an hour apart. -/
theorem roundTrip_replay_same_body_and_signature_witness :
    ∃ req1 req2, testTransport.RoundTrip markedCrypto "2024-05-17T10:42:07Z" postRequest
        = .ok req1 ∧
      testTransport.RoundTrip markedCrypto "2024-05-17T11:42:09Z" req1.afterBaseRead
        = .ok req2 ∧
      req1.bodyRemaining = postRequest.bodyBytes ∧
      req2.bodyRemaining = postRequest.bodyBytes ∧
      req2.HeaderGet "Signature" = req1.HeaderGet "Signature" :=
  (roundTrip_replay_same_body_and_signature markedCrypto testTransport
    "2024-05-17T10:42:07Z" "2024-05-17T11:42:09Z" postRequest rfl rfl
    markedCrypto_signaturesNonEmpty).1

/-- C12: if the request is not yet signed and reading its body ends with an error
other than end-of-stream, `RoundTrip` returns that error before delegating, so the
base transport is not invoked, and it leaves every header of the request as it was:
none of Signature, RequestDate and Authorization is set. -/
theorem roundTrip_read_error (c : Crypto) (s : signingTransport) (datetime : String)
    (req : Request) (err : GoError) (hsig : req.HeaderGet "Signature" = "")
    (hread : req.readError = some err) :
    s.RoundTrip c datetime req = .error err ∧
    (s.RoundTripInPlace c datetime req).1 = some err ∧
    (s.RoundTripInPlace c datetime req).2.Header = req.Header ∧
    (s.RoundTripInPlace c datetime req).2.HeaderGet "Signature" = "" ∧
    (s.RoundTripInPlace c datetime req).2.HeaderGet "RequestDate"
      = req.HeaderGet "RequestDate" ∧
    (s.RoundTripInPlace c datetime req).2.HeaderGet "Authorization"
      = req.HeaderGet "Authorization" := by
  rcases req with ⟨m, u, p, hd, b⟩
  have hsig1 : ∀ b1, Request.HeaderGet ⟨m, u, p, hd, b1⟩ "Signature" = "" := fun _ => hsig
  cases b with
  | none => simp [Request.readError] at hread
  | some body =>
    cases body with
    | rewindable r => simp [Request.readError, Body.terminal] at hread
    | reader data e =>
      have he : e = some err := hread
      subst he
      have hin : signingTransport.RoundTripInPlace c s datetime
          ⟨m, u, p, hd, some (.reader data (some err))⟩
          = (some err, ⟨m, u, p, hd, some (.reader [] (some err))⟩) := by
        simp [signingTransport.RoundTripInPlace, signingTransport.signInPlace, hsig1,
          Body.terminal, Body.readToEnd]
      refine ⟨?_, ?_, ?_, ?_, ?_, ?_⟩
      · rw [roundTrip_eq_inPlace, hin]
      · rw [hin]
      · rw [hin]
      · rw [hin]; exact hsig
      · rw [hin]; rfl
      · rw [hin]; rfl

/-- Witness for C12: a body that fails after two bytes. -/
theorem roundTrip_read_error_witness :
    testTransport.RoundTrip standInCrypto "2024-05-17T10:42:07Z" brokenRequest
      = .error (fmtErrorf "unexpected EOF") ∧
    (testTransport.RoundTripInPlace standInCrypto "2024-05-17T10:42:07Z" brokenRequest).1
      = some (fmtErrorf "unexpected EOF") ∧
    (testTransport.RoundTripInPlace standInCrypto "2024-05-17T10:42:07Z"
      brokenRequest).2.Header = brokenRequest.Header :=
  have t := roundTrip_read_error standInCrypto testTransport "2024-05-17T10:42:07Z"
    brokenRequest (fmtErrorf "unexpected EOF") rfl rfl
  ⟨t.1, t.2.1, t.2.2.1⟩

/-! ## Connection lifecycle -/

theorem incrementRequest_step (env : Env) (st : State)
    (hok : (incrementRequest env st).1 = none) :
    (incrementRequest env st).2.s.requestLimit = st.s.requestLimit ∧
    (st.s.requestLimit ≤ st.s.currentRequestCount + 1 →
      (incrementRequest env st).2.s.currentRequestCount = 0 ∧
      (incrementRequest env st).2.clientsBuilt = st.clientsBuilt + 1 ∧
      (incrementRequest env st).2.s.httpClient = st.clientsBuilt + 1) ∧
    (st.s.currentRequestCount + 1 < st.s.requestLimit →
      (incrementRequest env st).2.s.currentRequestCount = st.s.currentRequestCount + 1 ∧
      (incrementRequest env st).2.clientsBuilt = st.clientsBuilt ∧
      (incrementRequest env st).2.s.httpClient = st.s.httpClient) := by
  unfold incrementRequest resetConnection at hok ⊢
  dsimp only at hok ⊢
  by_cases hge : st.s.currentRequestCount + 1 ≥ st.s.requestLimit
  · have hd : decide (st.s.currentRequestCount + 1 ≥ st.s.requestLimit) = true := by
      simpa using hge
    rw [if_pos hd] at hok ⊢
    cases hnew : env.NewHTTPClient st.clientsBuilt st.s.proxy with
    | some err => rw [hnew] at hok; simp at hok
    | none => exact ⟨rfl, fun _ => ⟨rfl, rfl, rfl⟩, fun hlt => absurd hge (by omega)⟩
  · have hd : ¬ decide (st.s.currentRequestCount + 1 ≥ st.s.requestLimit) = true := by
      simpa using hge
    rw [if_neg hd]
    exact ⟨rfl, fun hle => absurd hle (by omega), fun _ => ⟨rfl, rfl, rfl⟩⟩

theorem succ_div_mod (n k : Nat) (hk : 0 < k) :
    (n % k + 1 = k → (n + 1) % k = 0 ∧ (n + 1) / k = n / k + 1) ∧
    (n % k + 1 < k → (n + 1) % k = n % k + 1 ∧ (n + 1) / k = n / k) := by
  have hdm := Nat.div_add_mod n k
  have hlt := Nat.mod_lt n hk
  refine ⟨fun h => ?_, fun h => ?_⟩
  · have := (Nat.div_mod_unique hk).mpr
      (⟨by rw [Nat.mul_succ]; omega, hk⟩ : 0 + k * (n / k + 1) = n + 1 ∧ 0 < k)
    exact ⟨this.2, this.1⟩
  · have := (Nat.div_mod_unique hk).mpr
      (⟨by omega, h⟩ : (n % k + 1) + k * (n / k) = n + 1 ∧ n % k + 1 < k)
    exact ⟨this.2, this.1⟩

theorem incrementRequestTimes_cycles (env : Env) (st : State) (k : Nat) (hk : 0 < k)
    (hlimit : st.s.requestLimit = k) (h0 : st.s.currentRequestCount = 0) :
    ∀ n, (incrementRequestTimes env n st).1 = none →
      (incrementRequestTimes env n st).2.s.requestLimit = k ∧
      (incrementRequestTimes env n st).2.s.currentRequestCount = ((n % k : Nat) : Int) ∧
      (incrementRequestTimes env n st).2.clientsBuilt = st.clientsBuilt + n / k := by
  intro n
  induction n with
  | zero =>
    intro _
    simp [incrementRequestTimes, hlimit, h0]
  | succ n ih =>
    intro hok
    simp only [incrementRequestTimes] at hok ⊢
    rcases hprev : incrementRequestTimes env n st with ⟨e, st1⟩
    rw [hprev] at hok ih
    cases e with
    | some err => simp at hok
    | none =>
      dsimp only at hok ih ⊢
      obtain ⟨i1, i2, i3⟩ := ih rfl
      obtain ⟨s1, s2, s3⟩ := incrementRequest_step env st1 hok
      have hlt := Nat.mod_lt n hk
      obtain ⟨d1, d2⟩ := succ_div_mod n k hk
      rw [i1, i2] at s2 s3
      by_cases hlast : n % k + 1 = k
      · obtain ⟨t1, t2, _⟩ := s2 (by omega)
        obtain ⟨e1, e2⟩ := d1 hlast
        refine ⟨by rw [s1, i1], ?_, ?_⟩
        · rw [t1, e1]; rfl
        · rw [t2, i3, e2]; omega
      · obtain ⟨t1, t2, _⟩ := s3 (by omega)
        obtain ⟨e1, e2⟩ := d2 (by omega)
        refine ⟨by rw [s1, i1], ?_, ?_⟩
        · rw [t1, e1]; push_cast; rfl
        · rw [t2, i3, e2]

/-- C13: for every requestLimit L >= 1, starting from a request count of 0, after n
`incrementRequest` calls that all succeeded the request count equals n mod L and the
client has been rebuilt exactly floor(n / L) times; on a single call from a count in
[0, L) the client is rebuilt exactly when the count reaches L. -/
theorem incrementRequest_count_cycles (env : Env) (st : State) (L : Int) (n : Nat)
    (hL : 1 ≤ L) (hlimit : st.s.requestLimit = L) (h0 : st.s.currentRequestCount = 0)
    (hok : (incrementRequestTimes env n st).1 = none) :
    (incrementRequestTimes env n st).2.s.currentRequestCount = (n : Int) % L ∧
    ((incrementRequestTimes env n st).2.clientsBuilt : Int) = st.clientsBuilt + (n : Int) / L ∧
    ∀ st1 : State, st1.s.requestLimit = L → 0 ≤ st1.s.currentRequestCount →
      st1.s.currentRequestCount < L → (incrementRequest env st1).1 = none →
      ((incrementRequest env st1).2.clientsBuilt = st1.clientsBuilt + 1 ↔
        st1.s.currentRequestCount + 1 = L) ∧
      ((incrementRequest env st1).2.s.currentRequestCount = 0 ↔
        st1.s.currentRequestCount + 1 = L) := by
  obtain ⟨k, rfl⟩ : ∃ k : Nat, L = k := ⟨L.toNat, (Int.toNat_of_nonneg (by omega)).symm⟩
  have hk : 0 < k := by omega
  obtain ⟨_, c2, c3⟩ := incrementRequestTimes_cycles env st k hk hlimit h0 n hok
  refine ⟨?_, ?_, ?_⟩
  · rw [c2]; push_cast; rfl
  · rw [c3]; push_cast; rfl
  · intro st1 hl hge hlt hok1
    obtain ⟨_, s2, s3⟩ := incrementRequest_step env st1 hok1
    rw [hl] at s2 s3
    by_cases hlast : st1.s.currentRequestCount + 1 = (k : Int)
    · obtain ⟨t1, t2, _⟩ := s2 (by omega)
      exact ⟨⟨fun _ => hlast, fun _ => t2⟩, ⟨fun _ => hlast, fun _ => t1⟩⟩
    · obtain ⟨t1, t2, _⟩ := s3 (by omega)
      refine ⟨⟨fun h => ?_, fun h => absurd h hlast⟩, ⟨fun h => ?_, fun h => absurd h hlast⟩⟩
      · omega
      · omega

/-- Witness for C13: requestLimit = 3 and seven calls: the count is 1 and the client
has been rebuilt twice. -/
theorem incrementRequest_count_cycles_witness :
    (incrementRequestTimes (alwaysStatus 202) 7 (testClient 3 1)).2.s.currentRequestCount
      = ((7 : Nat) : Int) % 3 ∧
    ((incrementRequestTimes (alwaysStatus 202) 7 (testClient 3 1)).2.clientsBuilt : Int)
      = (testClient 3 1).clientsBuilt + ((7 : Nat) : Int) / 3 :=
  have t := incrementRequest_count_cycles (alwaysStatus 202) (testClient 3 1) 3 7
    (by decide) rfl rfl (by decide)
  ⟨t.1, t.2.1⟩

/-- C14 (counterexample): a client with requestLimit = 0, as the tests build it by a
struct literal.  After a successful `resetConnection` the request count is 0, which is
not strictly less than the limit. -/
theorem resetConnection_zero_limit_counterexample :
    (resetConnection (alwaysStatus 202) (testClient 0 1)).1 = none ∧
    ¬ ((resetConnection (alwaysStatus 202) (testClient 0 1)).2.s.currentRequestCount
        < (resetConnection (alwaysStatus 202) (testClient 0 1)).2.s.requestLimit) := by
  decide

/-- C14 (amended): for every client state and every requestLimit, immediately after
a successful `resetConnection` the request count is 0 and the limit is unchanged, so
the count is strictly less than requestLimit exactly when requestLimit >= 1. -/
theorem resetConnection_count_zero (env : Env) (st : State)
    (hok : (resetConnection env st).1 = none) :
    (resetConnection env st).2.s.currentRequestCount = 0 ∧
    (resetConnection env st).2.s.requestLimit = st.s.requestLimit ∧
    ((resetConnection env st).2.s.currentRequestCount
        < (resetConnection env st).2.s.requestLimit ↔ 1 ≤ st.s.requestLimit) := by
  unfold resetConnection at hok ⊢
  dsimp only at hok ⊢
  cases hnew : env.NewHTTPClient st.clientsBuilt st.s.proxy with
  | some err => rw [hnew] at hok; simp at hok
  | none =>
    dsimp only
    refine ⟨rfl, rfl, ?_⟩
    constructor <;> intro h <;> omega

/-- Witness for C14 (amended): a client with requestLimit = 10 whose count stands
at 0 after the reset. -/
theorem resetConnection_count_zero_witness :
    (resetConnection (alwaysStatus 202) (testClient 10 1)).2.s.currentRequestCount = 0 ∧
    (resetConnection (alwaysStatus 202) (testClient 10 1)).2.s.requestLimit
      = (testClient 10 1).s.requestLimit ∧
    ((resetConnection (alwaysStatus 202) (testClient 10 1)).2.s.currentRequestCount
        < (resetConnection (alwaysStatus 202) (testClient 10 1)).2.s.requestLimit
      ↔ 1 ≤ (testClient 10 1).s.requestLimit) :=
  resetConnection_count_zero (alwaysStatus 202) (testClient 10 1) rfl

theorem incrementRequest_reset_fails (env : Env) (st : State) (err : GoError)
    (hneed : st.s.requestLimit ≤ st.s.currentRequestCount + 1)
    (hfail : env.NewHTTPClient st.clientsBuilt st.s.proxy = some err) :
    incrementRequest env st
      = (some err,
          { st with s := { st.s with currentRequestCount := st.s.currentRequestCount + 1 },
                    clientsBuilt := st.clientsBuilt + 1 }) := by
  unfold incrementRequest resetConnection
  dsimp only
  have hd : decide (st.s.currentRequestCount + 1 ≥ st.s.requestLimit) = true := by
    simpa using hneed
  rw [if_pos hd, hfail]

/-- C15: if the count reaches the limit and building the replacement client fails
with `err`, `incrementRequest` returns `err`, the client in use stays in place and the
request count keeps its incremented value; an attempt of `SendRequest` that received
a response, 2xx or not, then returns `err` with no response and no further request,
and an attempt of `Ingest` ends the call with the result true and no further
request. -/
theorem reset_failure_aborts (env : Env) (st : State) (err : GoError)
    (hneed : st.s.requestLimit ≤ st.s.currentRequestCount + 1)
    (hfail : env.NewHTTPClient st.clientsBuilt st.s.proxy = some err) :
    ((incrementRequest env st).1 = some err ∧
      (incrementRequest env st).2.s.httpClient = st.s.httpClient ∧
      (incrementRequest env st).2.s.currentRequestCount = st.s.currentRequestCount + 1) ∧
    (∀ body n a req res, (∀ r, env.Do st.requests r = .ok res) →
      (sendRequestLoop env body (n + 1) a req st).1 = .error err ∧
      (sendRequestLoop env body (n + 1) a req st).2.requests = st.requests + 1) ∧
    (∀ req n a h res, env.Do st.requests req = .ok res →
      (ingestRetryLoop env req (n + 1) a h st).1 = .aborted ∧
      (ingestRetryLoop env req (n + 1) a h st).2.requests = st.requests + 1) ∧
    (∀ data rest h req res, newIngestRequest env st.s data = .ok req →
      0 ≤ st.s.maxRetries → env.Do st.requests req = .ok res →
      (ingestBatches env (data :: rest) h st).1 = true ∧
      (ingestBatches env (data :: rest) h st).2.requests = st.requests + 1) := by
  have hinc := incrementRequest_reset_fails env { st with requests := st.requests + 1 } err
    hneed hfail
  have hloop : ∀ req n a h res, env.Do st.requests req = .ok res →
      (ingestRetryLoop env req (n + 1) a h st).1 = .aborted ∧
      (ingestRetryLoop env req (n + 1) a h st).2.requests = st.requests + 1 := by
    intro req n a h res hdo
    simp only [ingestRetryLoop, httpClientDo, hdo, hinc]
    exact ⟨trivial, trivial⟩
  refine ⟨?_, ?_, hloop, ?_⟩
  · rw [incrementRequest_reset_fails env st err hneed hfail]
    exact ⟨rfl, rfl, rfl⟩
  · intro body n a req res hdo
    simp only [sendRequestLoop, httpClientDo, hdo, hinc]
    exact ⟨trivial, trivial⟩
  · intro data rest h req res hreq hR hdo
    obtain ⟨m, hm⟩ : ∃ m, (st.s.maxRetries + 1).toNat = m + 1 :=
      ⟨st.s.maxRetries.toNat, by omega⟩
    have key := hloop req m 0 h res hdo
    simp only [ingestBatches, hreq, hm]
    rcases hres : ingestRetryLoop env req (m + 1) 0 h st with ⟨r, st1⟩
    rw [hres] at key
    dsimp only at key
    obtain ⟨k1, k2⟩ := key
    subst k1
    exact ⟨rfl, k2⟩

/-- Witness for C15: requestLimit = 1, a replacement client that cannot be built and
an endpoint that answers 200. -/
theorem reset_failure_aborts_witness :
    ((incrementRequest (failingResets 200) (testClient 1 3)).1
        = some (fmtErrorf "unable to build the HTTP client") ∧
      (incrementRequest (failingResets 200) (testClient 1 3)).2.s.httpClient
        = (testClient 1 3).s.httpClient ∧
      (incrementRequest (failingResets 200) (testClient 1 3)).2.s.currentRequestCount
        = (testClient 1 3).s.currentRequestCount + 1) ∧
    (sendRequestLoop (failingResets 200) none (3 + 1) 0 getRequest (testClient 1 3)).1
      = .error (fmtErrorf "unable to build the HTTP client") ∧
    (sendRequestLoop (failingResets 200) none (3 + 1) 0 getRequest
      (testClient 1 3)).2.requests = (testClient 1 3).requests + 1 :=
  have t := reset_failure_aborts (failingResets 200) (testClient 1 3)
    (fmtErrorf "unable to build the HTTP client") (by decide) rfl
  ⟨t.1, t.2.1 none 3 0 getRequest ⟨200, "200", none⟩ (fun _ => rfl)⟩


/-! ## The job orchestrator -/

theorem insertionSortJobs_contract : sortSliceContract insertionSortJobs := by
  intro l
  haveI : IsTotal ClientJob (fun a b => a.ExecutionTime ≤ b.ExecutionTime) :=
    ⟨fun a b => le_total a.ExecutionTime b.ExecutionTime⟩
  haveI : IsTrans ClientJob (fun a b => a.ExecutionTime ≤ b.ExecutionTime) :=
    ⟨fun _ _ _ hab hbc => le_trans hab hbc⟩
  refine ⟨List.perm_insertionSort _ l, ?_⟩
  have hs := List.sorted_insertionSort (fun a b : ClientJob => a.ExecutionTime ≤ b.ExecutionTime) l
  exact List.Pairwise.imp (fun hab => not_lt.mpr hab) hs

theorem mem_executableJobs (jobs : List ClientJob) (now : Int) (job : ClientJob) :
    job ∈ executableJobs jobs now ↔
      job ∈ jobs ∧ ((job.Status = .Ready ∧ job.ExecutionTime < now) ∨ job.ExecutionTime = now) := by
  simp [executableJobs, List.mem_filter]

theorem sortSlice_head_earliest (sort : List ClientJob → List ClientJob)
    (hsort : sortSliceContract sort) (l : List ClientJob) (job : ClientJob)
    (more : List ClientJob) (hhead : sort l = job :: more) :
    job ∈ l ∧ ∀ other ∈ l, job.ExecutionTime ≤ other.ExecutionTime := by
  obtain ⟨hperm, hpair⟩ := hsort l
  rw [hhead] at hperm hpair
  refine ⟨hperm.subset (List.mem_cons_self _ _), fun other hother => ?_⟩
  have hmem : other ∈ job :: more := hperm.symm.subset hother
  rcases List.mem_cons.mp hmem with heq | hin
  · rw [heq]
  · exact not_lt.mp ((List.pairwise_cons.mp hpair).1 other hin)

theorem sortSlice_eq_nil (sort : List ClientJob → List ClientJob)
    (hsort : sortSliceContract sort) (l : List ClientJob) : sort l = [] ↔ l = [] := by
  obtain ⟨hperm, _⟩ := hsort l
  constructor
  · intro h; rw [h] at hperm; exact hperm.symm.eq_nil
  · intro h; subst h; exact hperm.eq_nil

theorem pollTask_fetched (ctl : Control) (o : Orchestrator) (jobs : List ClientJob)
    (hjobs : ctl.GetAvailableJobs o.calls.length = .ok jobs) :
    pollTask ctl o
      = match sortedExecutableJobs ctl jobs (ctl.Now (o.calls.length + 1)) with
        | [] => { o with calls := o.calls ++ [.GetAvailableJobs], jobQueued := false }
        | job :: _ =>
          match ctl.StartJob (o.calls.length + 1) job.ID with
          | some _ =>
            { calls := o.calls ++ [.GetAvailableJobs, .StartJob job.ID], currentJobID := 0,
              jobQueued := false }
          | none =>
            { calls := o.calls ++ [.GetAvailableJobs, .StartJob job.ID, .listAll, .Ingest,
                .EndJob .Complete (completionMessage (ctl.Ingest (o.calls.length + 3)))],
              currentJobID := 0, jobQueued := false } := by
  simp only [pollTask, GetAvailableJobs, hjobs, List.length_append, List.length_singleton]
  cases hsel : sortedExecutableJobs ctl jobs (ctl.Now (o.calls.length + 1)) with
  | nil => rfl
  | cons job more =>
    simp only [StartJob, List.length_append, List.length_singleton]
    cases hstart : ctl.StartJob (o.calls.length + 1) job.ID with
    | some err => simp
    | none => simp [collectAndIngest, EndJob]

theorem start_calls (ctl : Control) :
    ∀ c ∈ (start ctl).2.calls, c = .UpdateClient ∨ c = .EndJob .Failed orphanedJobMessage := by
  intro c hc
  unfold start at hc
  dsimp only at hc
  by_cases hconn : ctl.connectAndCreateClient = false
  · simp [hconn] at hc
  · rw [if_neg hconn] at hc
    cases hparse : ctl.ParseBHEUrl with
    | some err => rw [hparse] at hc; simp at hc
    | none =>
      rw [hparse] at hc
      cases hnew : ctl.NewBHEClient with
      | some err => rw [hnew] at hc; simp at hc
      | none =>
        rw [hnew] at hc
        simp only [UpdateClient] at hc
        cases hup : ctl.UpdateClient ([] : List Call).length with
        | error err => rw [hup] at hc; simp at hc; exact Or.inl hc
        | ok uc =>
          rw [hup] at hc
          simp only [EndOrphanedJob, EndJob] at hc
          by_cases hrun : uc.CurrentJob.Status = .Running
          · simp only [hrun, if_true] at hc
            cases hend : ctl.EndJob ([] ++ [Call.UpdateClient]).length .Failed orphanedJobMessage
              with
            | some err => rw [hend] at hc; simpa using hc
            | none => rw [hend] at hc; simpa using hc
          · simp only [hrun, if_false] at hc
            simp at hc
            exact Or.inl hc

/-- C16: for every client-registration response, `EndOrphanedJob` makes exactly one
`EndJob` call, with status Failed and the orphaned-job message, and returns its
result, when the reported current job status is Running; for every other status it
makes no call and returns no error.  In `start` the only calls made before the ticker
loop are `UpdateClient` and that `EndJob`; the loop begins only once `EndOrphanedJob`
has returned without error, and an error from it ends the process. -/
theorem endOrphanedJob_ends_running_job (ctl : Control)
    (updatedClient : UpdateClientResponse) (o : Orchestrator) :
    (updatedClient.CurrentJob.Status = .Running →
      EndOrphanedJob ctl updatedClient o
        = (ctl.EndJob o.calls.length .Failed orphanedJobMessage,
            { o with calls := o.calls ++ [.EndJob .Failed orphanedJobMessage] })) ∧
    (updatedClient.CurrentJob.Status ≠ .Running →
      EndOrphanedJob ctl updatedClient o = (none, o)) ∧
    (∀ c ∈ (start ctl).2.calls, c = .UpdateClient ∨ c = .EndJob .Failed orphanedJobMessage) ∧
    (ctl.connectAndCreateClient = true → ctl.ParseBHEUrl = none → ctl.NewBHEClient = none →
      ctl.UpdateClient 0 = .ok updatedClient →
      start ctl
        = match EndOrphanedJob ctl updatedClient ⟨[.UpdateClient], 0, false⟩ with
          | (some err, o2) => (.exited (wrapErrorf "failed to end orphaned job: " err), o2)
          | (none, o2) => (.ticking, o2)) := by
  refine ⟨?_, ?_, start_calls ctl, ?_⟩
  · intro hrun
    simp only [EndOrphanedJob, hrun, if_true, EndJob]
  · intro hrun
    simp only [EndOrphanedJob, hrun, if_false]
  · intro hconn hparse hnew hup
    have hup1 : ctl.UpdateClient ([] : List Call).length = .ok updatedClient := hup
    simp only [start, hconn, hparse, hnew, UpdateClient, hup1, Bool.true_eq_false, if_false,
      List.nil_append]

/-- Witness for C16: the registration reports a Running job and the `EndJob` call
fails: `start` has made the two calls and the process is stopped. -/
theorem endOrphanedJob_ends_running_job_witness :
    EndOrphanedJob (testControl [] 100 none false .Running (some (fmtErrorf "timeout")))
        ⟨41, ⟨41, .Running, 0⟩⟩ ⟨[.UpdateClient], 0, false⟩
      = (some (fmtErrorf "timeout"),
          ⟨[.UpdateClient, .EndJob .Failed orphanedJobMessage], 0, false⟩) ∧
    start (testControl [] 100 none false .Running (some (fmtErrorf "timeout")))
      = (.exited (wrapErrorf "failed to end orphaned job: " (fmtErrorf "timeout")),
          ⟨[.UpdateClient, .EndJob .Failed orphanedJobMessage], 0, false⟩) :=
  have t := endOrphanedJob_ends_running_job
    (testControl [] 100 none false .Running (some (fmtErrorf "timeout")))
    ⟨41, ⟨41, .Running, 0⟩⟩ ⟨[.UpdateClient], 0, false⟩
  ⟨t.1 rfl, (t.2.2.2 rfl rfl rfl rfl).trans rfl⟩

/-- C17 (code bug): a job whose status is Running and whose execution time equals
the current time is placed in the executable set, and the poll task starts it and
runs the collection for it.  In the filter `&&` binds tighter than `||`, so the test
of the status does not guard the case `ExecutionTime.Equal(now)`. -/
theorem pollTask_selects_job_not_ready :
    executableJobs [⟨7, .Running, 100⟩] 100 = [⟨7, .Running, 100⟩] ∧
    (pollTask (testControl [⟨7, .Running, 100⟩] 100 none false .Ready none)
      (pollingOrchestrator [])).calls
      = [.GetAvailableJobs, .StartJob 7, .listAll, .Ingest,
          .EndJob .Complete "Collection completed successfully"] := by
  decide

/-- C18: for every list of available jobs whose executable set is not empty, the
poll task calls `StartJob` right after `GetAvailableJobs`, for a job that is in the
list returned by `GetAvailableJobs`, is executable, and has an execution time less
than or equal to that of every executable job; when the executable set is empty the
only call of the poll task is `GetAvailableJobs`.  `sort.Slice` enters through its
contract. -/
theorem pollTask_starts_earliest_job (ctl : Control) (o : Orchestrator)
    (jobs : List ClientJob) (hsort : sortSliceContract ctl.sortSlice)
    (hjobs : ctl.GetAvailableJobs o.calls.length = .ok jobs) :
    (executableJobs jobs (ctl.Now (o.calls.length + 1)) ≠ [] →
      ∃ job rest, job ∈ jobs ∧ job ∈ executableJobs jobs (ctl.Now (o.calls.length + 1)) ∧
        (∀ other ∈ executableJobs jobs (ctl.Now (o.calls.length + 1)),
          job.ExecutionTime ≤ other.ExecutionTime) ∧
        (pollTask ctl o).calls = o.calls ++ [.GetAvailableJobs, .StartJob job.ID] ++ rest) ∧
    (executableJobs jobs (ctl.Now (o.calls.length + 1)) = [] →
      (pollTask ctl o).calls = o.calls ++ [.GetAvailableJobs]) := by
  rw [pollTask_fetched ctl o jobs hjobs]
  refine ⟨fun hne => ?_, fun hnil => ?_⟩
  · cases hsel : sortedExecutableJobs ctl jobs (ctl.Now (o.calls.length + 1)) with
    | nil =>
      exact absurd ((sortSlice_eq_nil ctl.sortSlice hsort _).mp hsel) hne
    | cons job more =>
      obtain ⟨hmem, hmin⟩ := sortSlice_head_earliest ctl.sortSlice hsort _ job more hsel
      dsimp only
      cases hstart : ctl.StartJob (o.calls.length + 1) job.ID with
      | some err =>
        exact ⟨job, [], ((mem_executableJobs _ _ _).mp hmem).1, hmem, hmin, by simp⟩
      | none =>
        exact ⟨job, _, ((mem_executableJobs _ _ _).mp hmem).1, hmem, hmin, by simp; rfl⟩
  · have hsel : sortedExecutableJobs ctl jobs (ctl.Now (o.calls.length + 1)) = [] :=
      (sortSlice_eq_nil ctl.sortSlice hsort _).mpr hnil
    rw [hsel]

/-- Witness for C18: three ready jobs, two of them due; the one due first is
started. -/
theorem pollTask_starts_earliest_job_witness :
    ∃ job rest, job ∈ [(⟨7, .Ready, 90⟩ : ClientJob), ⟨8, .Ready, 50⟩, ⟨9, .Ready, 150⟩] ∧
      job ∈ executableJobs [⟨7, .Ready, 90⟩, ⟨8, .Ready, 50⟩, ⟨9, .Ready, 150⟩] 100 ∧
      (∀ other ∈ executableJobs [⟨7, .Ready, 90⟩, ⟨8, .Ready, 50⟩, ⟨9, .Ready, 150⟩] 100,
        job.ExecutionTime ≤ other.ExecutionTime) ∧
      (pollTask (testControl [⟨7, .Ready, 90⟩, ⟨8, .Ready, 50⟩, ⟨9, .Ready, 150⟩] 100 none
          false .Ready none) (pollingOrchestrator [])).calls
        = [] ++ [.GetAvailableJobs, .StartJob job.ID] ++ rest :=
  (pollTask_starts_earliest_job
    (testControl [⟨7, .Ready, 90⟩, ⟨8, .Ready, 50⟩, ⟨9, .Ready, 150⟩] 100 none false .Ready none)
    (pollingOrchestrator []) [⟨7, .Ready, 90⟩, ⟨8, .Ready, 50⟩, ⟨9, .Ready, 150⟩]
    insertionSortJobs_contract rfl).1 (by decide)

/-- C19: if `StartJob` fails for the selected job, the calls of the poll task are
`GetAvailableJobs` and that `StartJob` and nothing else: no collection is run and
neither `Ingest` nor `EndJob` is called; the task finishes with the current job id
back at 0 and `jobQueued` released. -/
theorem pollTask_start_failure (ctl : Control) (o : Orchestrator) (jobs : List ClientJob)
    (job : ClientJob) (more : List ClientJob) (err : GoError)
    (hjobs : ctl.GetAvailableJobs o.calls.length = .ok jobs)
    (hsel : sortedExecutableJobs ctl jobs (ctl.Now (o.calls.length + 1)) = job :: more)
    (hstart : ctl.StartJob (o.calls.length + 1) job.ID = some err) :
    (pollTask ctl o).calls = o.calls ++ [.GetAvailableJobs, .StartJob job.ID] ∧
    (pollTask ctl o).currentJobID = 0 ∧
    (pollTask ctl o).jobQueued = false ∧
    Call.listAll ∉ (pollTask ctl o).calls.drop o.calls.length ∧
    Call.Ingest ∉ (pollTask ctl o).calls.drop o.calls.length ∧
    ∀ status message, Call.EndJob status message ∉ (pollTask ctl o).calls.drop o.calls.length := by
  rw [pollTask_fetched ctl o jobs hjobs, hsel]
  simp only [hstart]
  refine ⟨trivial, trivial, trivial, ?_, ?_, ?_⟩ <;> simp

/-- Witness for C19: the job that is due cannot be started. -/
theorem pollTask_start_failure_witness :
    (pollTask (testControl [⟨8, .Ready, 50⟩] 100 (some (fmtErrorf "409 Conflict")) false
        .Ready none) (pollingOrchestrator [])).calls
      = [] ++ [.GetAvailableJobs, .StartJob 8] ∧
    (pollTask (testControl [⟨8, .Ready, 50⟩] 100 (some (fmtErrorf "409 Conflict")) false
        .Ready none) (pollingOrchestrator [])).currentJobID = 0 :=
  have t := pollTask_start_failure
    (testControl [⟨8, .Ready, 50⟩] 100 (some (fmtErrorf "409 Conflict")) false .Ready none)
    (pollingOrchestrator []) [⟨8, .Ready, 50⟩] ⟨8, .Ready, 50⟩ []
    (fmtErrorf "409 Conflict") rfl (by decide) rfl
  ⟨t.1, t.2.1⟩

/-- C20: after a successful `StartJob` the poll task runs the collection and
`Ingest` and then calls `EndJob` exactly once, with status Complete, whatever `Ingest`
and `EndJob` return; the message is "Collection completed with errors during ingest"
if and only if `Ingest` returned true, and "Collection completed successfully"
otherwise.  The task finishes with the current job id back at 0. -/
theorem pollTask_ends_job_once (ctl : Control) (o : Orchestrator) (jobs : List ClientJob)
    (job : ClientJob) (more : List ClientJob)
    (hjobs : ctl.GetAvailableJobs o.calls.length = .ok jobs)
    (hsel : sortedExecutableJobs ctl jobs (ctl.Now (o.calls.length + 1)) = job :: more)
    (hstart : ctl.StartJob (o.calls.length + 1) job.ID = none) :
    (∃ message,
      (pollTask ctl o).calls
        = o.calls ++ [.GetAvailableJobs, .StartJob job.ID, .listAll, .Ingest,
            .EndJob .Complete message] ∧
      (message = "Collection completed with errors during ingest" ↔
        ctl.Ingest (o.calls.length + 3) = true) ∧
      (message = "Collection completed successfully" ↔
        ctl.Ingest (o.calls.length + 3) = false)) ∧
    (pollTask ctl o).currentJobID = 0 := by
  rw [pollTask_fetched ctl o jobs hjobs, hsel]
  simp only [hstart]
  refine ⟨⟨_, rfl, ?_, ?_⟩, trivial⟩
  · cases ctl.Ingest (o.calls.length + 3) <;> simp [completionMessage]
  · cases ctl.Ingest (o.calls.length + 3) <;> simp [completionMessage]

/-- Witness for C20: the job is started and `Ingest` reports errors. -/
theorem pollTask_ends_job_once_witness :
    (pollTask (testControl [⟨8, .Ready, 50⟩] 100 none true .Ready none)
      (pollingOrchestrator [])).currentJobID = 0 ∧
    ∃ message,
      (pollTask (testControl [⟨8, .Ready, 50⟩] 100 none true .Ready none)
          (pollingOrchestrator [])).calls
        = (pollingOrchestrator []).calls ++ [.GetAvailableJobs,
            .StartJob (⟨8, .Ready, 50⟩ : ClientJob).ID, .listAll, .Ingest,
            .EndJob .Complete message] ∧
      (message = "Collection completed with errors during ingest" ↔
        (testControl [⟨8, .Ready, 50⟩] 100 none true .Ready none).Ingest
          ((pollingOrchestrator []).calls.length + 3) = true) ∧
      (message = "Collection completed successfully" ↔
        (testControl [⟨8, .Ready, 50⟩] 100 none true .Ready none).Ingest
          ((pollingOrchestrator []).calls.length + 3) = false) :=
  have t := pollTask_ends_job_once (testControl [⟨8, .Ready, 50⟩] 100 none true .Ready none)
    (pollingOrchestrator []) [⟨8, .Ready, 50⟩] ⟨8, .Ready, 50⟩ [] rfl (by decide) rfl
  ⟨t.2, t.1⟩

/-! ## The ticker loop -/

theorem taskStep_consistent (ctl : Control) (o : Orchestrator) (t : TaskPhase)
    (hq : o.jobQueued = true)
    (hid : o.currentJobID = match t.job with
      | some job => job.ID
      | none => 0) :
    match taskStep ctl o t with
    | (o1, some t1) => o1.jobQueued = true ∧ o1.currentJobID = match t1.job with
        | some job => job.ID
        | none => 0
    | (o1, none) => o1.jobQueued = false ∧ o1.currentJobID = 0 := by
  cases t with
  | fetching =>
    simp only [taskStep, GetAvailableJobs]
    cases ctl.GetAvailableJobs o.calls.length with
    | error err => exact ⟨hq, hid⟩
    | ok jobs =>
      dsimp only
      cases sortedExecutableJobs ctl jobs (ctl.Now (o.calls ++ [Call.GetAvailableJobs]).length) with
      | nil => exact ⟨hq, hid⟩
      | cons job more => exact ⟨hq, rfl⟩
  | starting job =>
    simp only [taskStep, StartJob]
    cases ctl.StartJob o.calls.length job.ID with
    | some err => exact ⟨hq, rfl⟩
    | none => exact ⟨hq, hid⟩
  | collecting job => exact ⟨hq, hid⟩
  | ending job hasIngestErr => exact ⟨hq, rfl⟩
  | releasing => exact ⟨rfl, hid⟩

theorem step_consistent (ctl : Control) (sys : System) (e : Event)
    (h : sys.consistent) : (step ctl sys e).consistent := by
  rcases sys with ⟨o, tasks⟩
  rcases h with ⟨ht, hq, hid⟩ | ⟨t, ht, hq, hid⟩
  · dsimp only at ht hq hid
    subst ht
    cases e with
    | tick =>
      refine Or.inr ⟨.fetching, ?_⟩
      simp [step, tick, hid, hq, TaskPhase.job]
    | advance i => exact Or.inl ⟨by simp [step, advance], by simpa [step, advance] using hq,
        by simpa [step, advance] using hid⟩
  · dsimp only at ht hq hid
    subst ht
    cases e with
    | tick =>
      show (tick ctl ⟨o, [t]⟩).consistent
      by_cases hz : o.currentJobID = 0
      · have hsame : tick ctl ⟨o, [t]⟩ = ⟨o, [t]⟩ := by simp [tick, hz, hq]
        rw [hsame]
        exact Or.inr ⟨t, rfl, hq, hid⟩
      · have hcheck : tick ctl ⟨o, [t]⟩ = ⟨(Checkin ctl o).2, [t]⟩ := by simp [tick, hz]
        rw [hcheck]
        exact Or.inr ⟨t, rfl, hq, hid⟩
    | advance i =>
      show (advance ctl i ⟨o, [t]⟩).consistent
      cases i with
      | zero =>
        have key := taskStep_consistent ctl o t hq hid
        simp only [advance, List.get?_cons_zero]
        rcases hstep : taskStep ctl o t with ⟨o1, t1⟩
        rw [hstep] at key
        cases t1 with
        | some t2 => exact Or.inr ⟨t2, rfl, key.1, key.2⟩
        | none => exact Or.inl ⟨rfl, key.1, key.2⟩
      | succ j =>
        have hsame : advance ctl (j + 1) ⟨o, [t]⟩ = ⟨o, [t]⟩ := by simp [advance]
        rw [hsame]
        exact Or.inr ⟨t, rfl, hq, hid⟩

theorem run_consistent (ctl : Control) (events : List Event) :
    ∀ sys : System, sys.consistent → (run ctl events sys).consistent := by
  induction events with
  | nil => intro sys h; exact h
  | cons e rest ih =>
    intro sys h
    exact ih (step ctl sys e) (step_consistent ctl sys e h)

theorem idleSystem_consistent (calls : List Call) : (idleSystem calls).consistent :=
  Or.inl ⟨rfl, rfl, rfl⟩

theorem start_idle (ctl : Control) :
    (start ctl).2.currentJobID = 0 ∧ (start ctl).2.jobQueued = false := by
  unfold start
  dsimp only
  by_cases hconn : ctl.connectAndCreateClient = false
  · rw [if_pos hconn]; exact ⟨rfl, rfl⟩
  · rw [if_neg hconn]
    cases ctl.ParseBHEUrl with
    | some err => exact ⟨rfl, rfl⟩
    | none =>
      cases ctl.NewBHEClient with
      | some err => exact ⟨rfl, rfl⟩
      | none =>
        simp only [UpdateClient]
        cases ctl.UpdateClient ([] : List Call).length with
        | error err => exact ⟨rfl, rfl⟩
        | ok uc =>
          simp only [EndOrphanedJob, EndJob]
          by_cases hrun : uc.CurrentJob.Status = .Running
          · rw [if_pos hrun]
            cases ctl.EndJob ([] ++ [Call.UpdateClient]).length .Failed orphanedJobMessage <;>
              exact ⟨rfl, rfl⟩
          · rw [if_neg hrun]; exact ⟨rfl, rfl⟩

theorem pollTask_currentJobID (ctl : Control) (o : Orchestrator) (h : o.currentJobID = 0) :
    (pollTask ctl o).currentJobID = 0 := by
  simp only [pollTask, GetAvailableJobs]
  cases ctl.GetAvailableJobs o.calls.length with
  | error err => exact h
  | ok jobs =>
    dsimp only
    cases sortedExecutableJobs ctl jobs (ctl.Now (o.calls ++ [Call.GetAvailableJobs]).length) with
    | nil => exact h
    | cons job more =>
      simp only [StartJob]
      cases ctl.StartJob (o.calls ++ [Call.GetAvailableJobs]).length job.ID <;> rfl

theorem pollTask_eq_steps (ctl : Control) (o : Orchestrator) :
    run ctl [.advance 0, .advance 0, .advance 0, .advance 0, .advance 0]
        { o := o, tasks := [TaskPhase.fetching] }
      = { o := pollTask ctl o, tasks := [] } := by
  cases hget : ctl.GetAvailableJobs o.calls.length with
  | error err => simp [run, step, advance, taskStep, pollTask, GetAvailableJobs, hget]
  | ok jobs =>
    cases hsel : sortedExecutableJobs ctl jobs (ctl.Now (o.calls.length + 1)) with
    | nil => simp [run, step, advance, taskStep, pollTask, GetAvailableJobs, hget, hsel]
    | cons job more =>
      cases hstart : ctl.StartJob (o.calls.length + 1) job.ID with
      | some err =>
        simp [run, step, advance, taskStep, pollTask, GetAvailableJobs, StartJob, hget, hsel,
          hstart]
      | none =>
        simp [run, step, advance, taskStep, pollTask, GetAvailableJobs, StartJob, hget, hsel,
          hstart, collectAndIngest, EndJob]

/-- C21: from the state in which the ticker loop begins, after every sequence of
ticks and poll-task steps at most one poll task exists; the current job id is
non-zero only while that task stands between recording its job and its end, with that
job's id; and once no task exists the current job id is 0.  The poll task run from
start to end leaves the current job id at 0 on every path, and `start` enters the
loop with no job current and `jobQueued` free. -/
theorem orchestrator_single_task (ctl : Control) (calls : List Call) (events : List Event) :
    (run ctl events (idleSystem calls)).tasks.length ≤ 1 ∧
    ((run ctl events (idleSystem calls)).o.currentJobID ≠ 0 →
      ∃ t job, (run ctl events (idleSystem calls)).tasks = [t] ∧ t.job = some job ∧
        job.ID = (run ctl events (idleSystem calls)).o.currentJobID) ∧
    ((run ctl events (idleSystem calls)).tasks = [] →
      (run ctl events (idleSystem calls)).o.currentJobID = 0 ∧
      (run ctl events (idleSystem calls)).o.jobQueued = false) ∧
    (∀ o : Orchestrator, o.currentJobID = 0 → (pollTask ctl o).currentJobID = 0) ∧
    (start ctl).2.currentJobID = 0 ∧ (start ctl).2.jobQueued = false := by
  have hinv := run_consistent ctl events (idleSystem calls) (idleSystem_consistent calls)
  refine ⟨?_, ?_, ?_, pollTask_currentJobID ctl, start_idle ctl⟩
  · rcases hinv with ⟨ht, _, _⟩ | ⟨t, ht, _, _⟩ <;> rw [ht] <;> simp
  · intro hne
    rcases hinv with ⟨_, _, hid⟩ | ⟨t, ht, _, hid⟩
    · exact absurd hid hne
    · cases hj : t.job with
      | none => rw [hj] at hid; exact absurd hid hne
      | some job => rw [hj] at hid; exact ⟨t, job, ht, hj, hid.symm⟩
  · intro hnil
    rcases hinv with ⟨_, hq, hid⟩ | ⟨t, ht, _, _⟩
    · exact ⟨hid, hq⟩
    · rw [ht] at hnil; exact absurd hnil (by simp)

/-- C22 (counterexample): the job selected has id 0.  After the poll task has
recorded it as current, a tick makes no call at all: the only call recorded is the
`GetAvailableJobs` of the task. -/
theorem tick_job_zero_counterexample :
    (run (testControl [⟨0, .Ready, 50⟩] 100 none false .Ready none) [.tick, .advance 0]
      (idleSystem [])).tasks = [.starting ⟨0, .Ready, 50⟩] ∧
    (run (testControl [⟨0, .Ready, 50⟩] 100 none false .Ready none) [.tick, .advance 0, .tick]
      (idleSystem [])).o.calls = [.GetAvailableJobs] := by
  decide

/-- C22 (amended): for every selected job whose id is not 0, on every tick that
occurs while a poll task holds that job as current (after it recorded the job and
before it ends), the orchestrator makes exactly one `Checkin` call and nothing else:
it does not fetch the available jobs and spawns no task. -/
theorem tick_checks_in_while_job_current (ctl : Control) (calls : List Call)
    (events : List Event) (t : TaskPhase) (job : ClientJob)
    (htask : t ∈ (run ctl events (idleSystem calls)).tasks) (hjob : t.job = some job)
    (hid : job.ID ≠ 0) :
    tick ctl (run ctl events (idleSystem calls))
      = { run ctl events (idleSystem calls) with
          o := { (run ctl events (idleSystem calls)).o with
            calls := (run ctl events (idleSystem calls)).o.calls ++ [.Checkin] } } := by
  have hinv := run_consistent ctl events (idleSystem calls) (idleSystem_consistent calls)
  generalize run ctl events (idleSystem calls) = sys at htask hinv ⊢
  rcases hinv with ⟨ht, _, _⟩ | ⟨t1, ht, _, hcur⟩
  · rw [ht] at htask; exact absurd htask (by simp)
  · rw [ht] at htask
    have : t = t1 := by simpa using htask
    subst this
    rw [hjob] at hcur
    have hne : sys.o.currentJobID ≠ 0 := by rw [hcur]; exact hid
    simp only [tick, hne, ne_eq, not_false_eq_true, if_true, Checkin]

/-- Witness for C22 (amended): job 8 is current when the ticker fires. -/
theorem tick_checks_in_while_job_current_witness :
    tick (testControl [⟨8, .Ready, 50⟩] 100 none false .Ready none)
        (run (testControl [⟨8, .Ready, 50⟩] 100 none false .Ready none) [.tick, .advance 0]
          (idleSystem []))
      = { run (testControl [⟨8, .Ready, 50⟩] 100 none false .Ready none) [.tick, .advance 0]
            (idleSystem []) with
          o := { (run (testControl [⟨8, .Ready, 50⟩] 100 none false .Ready none)
              [.tick, .advance 0] (idleSystem [])).o with
            calls := (run (testControl [⟨8, .Ready, 50⟩] 100 none false .Ready none)
              [.tick, .advance 0] (idleSystem [])).o.calls ++ [.Checkin] } } :=
  tick_checks_in_while_job_current (testControl [⟨8, .Ready, 50⟩] 100 none false .Ready none)
    [] [.tick, .advance 0] (.starting ⟨8, .Ready, 50⟩) ⟨8, .Ready, 50⟩ (by decide) rfl
    (by decide)

/-! ## Backoff durations -/

theorem integerPow_exact : powExact integerPow := fun _ _ _ _ _ => rfl

theorem wrapInt64_of_range (x : Int) (h0 : 0 ≤ x) (h1 : x < 2 ^ 63) : wrapInt64 x = x := by
  unfold wrapInt64
  rw [Int.emod_eq_of_lt (by omega) (by omega)]
  omega

theorem variableBackoffDuration_eq (pow : Int → Int → ℚ) (hpow : powExact pow)
    (base retry : Int) (hb : 0 ≤ base) (hr : 0 ≤ retry)
    (hfit : base ^ (retry + 1).toNat * timeSecond < 2 ^ 63) :
    variableBackoffDuration pow base retry = base ^ (retry + 1).toNat * timeSecond := by
  have hp0 : 0 ≤ base ^ (retry + 1).toNat := pow_nonneg hb _
  have hts : timeSecond = 1000000000 := rfl
  rw [hts] at hfit
  have h53 : (2 : Int) ^ 53 = 9007199254740992 := by norm_num
  have h63 : (2 : Int) ^ 63 = 9223372036854775808 := by norm_num
  have hsmall : base ^ (retry + 1).toNat < 2 ^ 53 := by
    rw [h53]; rw [h63] at hfit
    omega
  have hlt : base ^ (retry + 1).toNat < 2 ^ 63 := by
    rw [h63] at hfit ⊢; omega
  unfold variableBackoffDuration durationOfFloat
  dsimp only
  rw [hpow base (retry + 1) hb (by omega) hsmall]
  have hq : (0 : ℚ) ≤ ((base ^ (retry + 1).toNat : Int) : ℚ) := by exact_mod_cast hp0
  rw [if_pos hq, Int.floor_intCast, wrapInt64_of_range _ hp0 hlt, hts,
    wrapInt64_of_range _ (Int.mul_nonneg (by decide) hp0) (by rw [mul_comm]; exact hfit)]
  exact mul_comm _ _

/-- C23: for every base >= 0 and retry >= 0 such that base^(retry+1) seconds is a
duration below 2^63 nanoseconds, `VariableExponentialBackoff(base, retry)` hands
`time.Sleep` exactly base^(retry+1) seconds, `math.Pow` being exact on integer powers
that are float64 values; `ExponentialBackoff(retry)` hands it the same duration as
`VariableExponentialBackoff(5, retry)`; and for base >= 2 the duration is strictly
increasing in retry. -/
theorem backoff_duration (pow : Int → Int → ℚ) (hpow : powExact pow) (base retry : Int)
    (hb : 0 ≤ base) (hr : 0 ≤ retry)
    (hfit : base ^ (retry + 1).toNat * timeSecond < 2 ^ 63) :
    variableBackoffDuration pow base retry = base ^ (retry + 1).toNat * timeSecond ∧
    exponentialBackoffDuration pow retry = variableBackoffDuration pow 5 retry ∧
    (2 ≤ base → ∀ earlier : Int, 0 ≤ earlier → earlier < retry →
      variableBackoffDuration pow base earlier < variableBackoffDuration pow base retry) := by
  refine ⟨variableBackoffDuration_eq pow hpow base retry hb hr hfit, rfl, ?_⟩
  intro h2 earlier he hlt
  have hmono : base ^ (earlier + 1).toNat < base ^ (retry + 1).toNat :=
    pow_lt_pow_right₀ (by omega) (by omega)
  have hfit2 : base ^ (earlier + 1).toNat * timeSecond < 2 ^ 63 := by
    have : base ^ (earlier + 1).toNat * timeSecond < base ^ (retry + 1).toNat * timeSecond := by
      unfold timeSecond; omega
    omega
  rw [variableBackoffDuration_eq pow hpow base retry hb hr hfit,
    variableBackoffDuration_eq pow hpow base earlier hb he hfit2]
  unfold timeSecond
  omega

/-- Witness for C23: the delay of the client, base 5, before the third retry:
125 seconds. -/
theorem backoff_duration_witness :
    variableBackoffDuration integerPow 5 2 = 5 ^ ((2 : Int) + 1).toNat * timeSecond ∧
    exponentialBackoffDuration integerPow 2 = variableBackoffDuration integerPow 5 2 :=
  have t := backoff_duration integerPow integerPow_exact 5 2 (by decide) (by decide)
    (by decide)
  ⟨t.1, t.2.1⟩

/-! ## `Ingest` and `SendRequest`: encoding failures and backoff calls -/

theorem sendRequestLoop_all_retryable_sleeps (env : Env) (body : Option Bytes)
    (hreset : resetsSucceed env) :
    ∀ (n : Nat) (a : Int) (req : Request) (st : State),
      (∀ i r, st.requests ≤ i → i < st.requests + n → sendRetryable (env.Do i r) = true) →
      (sendRequestLoop env body n a req st).2.sleeps.length = st.sleeps.length + n := by
  intro n
  induction n with
  | zero => intro a req st _; rfl
  | succ n ih =>
    intro a req st hfail
    simp only [sendRequestLoop, httpClientDo]
    generalize (match body with
      | some b => if a > 0 then { req with Body := some (Body.reader b none) } else req
      | none => req) = req1
    have h0 := hfail st.requests req1 (Nat.le_refl _) (by omega)
    have hrec : ∀ st1 : State, st1.requests = st.requests + 1 →
        st1.sleeps.length = st.sleeps.length →
        (sendRequestLoop env body n (a + 1) req1
          (VariableExponentialBackoff st1.s.retryDelay a st1)).2.sleeps.length
          = st.sleeps.length + (n + 1) := by
      intro st1 hr hs
      rw [ih (a + 1) req1 _ (by
        intro i r h1 h2
        simp only [VariableExponentialBackoff] at h1 h2
        exact hfail i r (by omega) (by omega))]
      simp only [VariableExponentialBackoff, List.length_append, List.length_singleton]
      omega
    cases hdo : env.Do st.requests req1 with
    | error err =>
      rw [hdo] at h0
      simp only [sendRetryable, Bool.or_eq_true] at h0
      dsimp only
      by_cases hc : IsClosedConnectionErr err = true
      · rw [if_pos hc]; exact hrec _ rfl rfl
      · rw [if_neg hc, if_pos (h0.resolve_left hc)]; exact hrec _ rfl rfl
    | ok res =>
      rw [hdo] at h0
      simp only [sendRetryable, decide_eq_true_eq] at h0
      dsimp only
      have hinc := incrementRequest_ok env { st with requests := st.requests + 1 } hreset
      have hreqs := incrementRequest_requests env { st with requests := st.requests + 1 }
      have hsl := incrementRequest_sleeps env { st with requests := st.requests + 1 }
      rcases hres : incrementRequest env { st with requests := st.requests + 1 } with ⟨e, st2⟩
      rw [hres] at hinc hreqs hsl
      dsimp only at hinc hreqs hsl
      subst hinc
      dsimp only
      have h1 : (decide (res.StatusCode < 200) || decide (res.StatusCode ≥ 400)) = true := by
        simp only [Bool.or_eq_true, decide_eq_true_eq]; omega
      rw [if_pos h1, if_pos h0]
      exact hrec st2 hreqs (by rw [hsl])

/-- C24 (code bug): a batch the encoder rejects is sent all the same.  With an
endpoint that answers 202 and maxRetries = 0, `Ingest` sends one request for the
rejected batch, goes on to the next batch, and returns false. -/
theorem ingest_sends_batch_that_failed_to_encode :
    ((rejectingEncoder 202).Encode [Record.unsupported]).2
      = some (fmtErrorf "json: unsupported type: chan int") ∧
    (Ingest (rejectingEncoder 202) [[Record.unsupported]] (testClient 10 0)).2.requests = 1 ∧
    (Ingest (rejectingEncoder 202) [[Record.unsupported], testBatch]
      (testClient 10 0)).2.requests = 2 ∧
    (Ingest (rejectingEncoder 202) [[Record.unsupported], testBatch] (testClient 10 0)).1
      = false := by
  decide

/-- C26 (code bug): with maxRetries = 1 and an endpoint that always answers 500,
`SendRequest` makes two attempts and two backoff calls, the second one after the final
attempt; `Ingest`, with an endpoint that always answers 504, makes two attempts and one
backoff call. -/
theorem sendRequest_backs_off_after_final_attempt :
    (SendRequest (alwaysStatus 500) getRequest (testClient 10 1)).2.requests = 2 ∧
    (SendRequest (alwaysStatus 500) getRequest (testClient 10 1)).2.sleeps = [(5, 0), (5, 1)] ∧
    (Ingest (alwaysStatus 504) [testBatch] (testClient 10 1)).2.requests = 2 ∧
    (Ingest (alwaysStatus 504) [testBatch] (testClient 10 1)).2.sleeps = [(5, 0)] := by
  decide

/-! ## `Ingest`: a result of false -/

theorem incrementRequest_bheUrl (env : Env) (st : State) :
    (incrementRequest env st).2.s.bheUrl = st.s.bheUrl := by
  unfold incrementRequest resetConnection
  dsimp only
  split
  · split <;> rfl
  · rfl

theorem newIngestRequest_congr (env : Env) (s1 s2 : BHEClient) (data : List Record)
    (h : s1.bheUrl = s2.bheUrl) : newIngestRequest env s1 data = newIngestRequest env s2 data := by
  simp only [newIngestRequest, ingestEndpoint, h]

theorem ingestRetryLoop_finished_false (env : Env) (req : Request) (R : Int) :
    ∀ (n : Nat) (a : Int) (h : Bool) (st st1 : State),
      st.s.maxRetries = R → a + n = R + 1 →
      ingestRetryLoop env req n a h st = (.finished false, st1) →
      h = false ∧ st1.requests = st.requests + n ∧ st1.s.maxRetries = R ∧
      st1.s.bheUrl = st.s.bheUrl ∧
      (0 < n → ∃ res, env.Do (st.requests + n - 1) req = .ok res ∧ res.StatusCode = 202) := by
  intro n
  induction n with
  | zero =>
    intro a h st st1 hmax _ hres
    simp only [ingestRetryLoop, Prod.mk.injEq, BatchResult.finished.injEq] at hres
    obtain ⟨h1, h2⟩ := hres
    subst h2
    exact ⟨h1, rfl, hmax, rfl, fun hn => absurd hn (by omega)⟩
  | succ n ih =>
    intro a h st st1 hmax han hres
    have hlast : a ≠ R → 0 < n := by
      intro hne
      rcases Nat.eq_zero_or_pos n with hz | hp
      · subst hz; exfalso; apply hne; push_cast at han; omega
      · exact hp
    have hflag : ∀ st2 : State,
        ingestRetryLoop env req n (a + 1) true st2 ≠ (.finished false, st1) := by
      intro st2 hcontra
      have := ingestRetryLoop_keeps_flag env req n (a + 1) st2
      rw [hcontra] at this
      simp at this
    have hrec : ∀ st2 : State, st2.s.maxRetries = R → st2.requests = st.requests + 1 →
        st2.s.bheUrl = st.s.bheUrl → 0 < n →
        ingestRetryLoop env req n (a + 1) h st2 = (.finished false, st1) →
        h = false ∧ st1.requests = st.requests + (n + 1) ∧ st1.s.maxRetries = R ∧
        st1.s.bheUrl = st.s.bheUrl ∧
        (0 < n + 1 →
          ∃ res, env.Do (st.requests + (n + 1) - 1) req = .ok res ∧ res.StatusCode = 202) := by
      intro st2 hm hr hu hn hloop
      obtain ⟨k1, k2, k3, k4, k5⟩ := ih (a + 1) h st2 st1 hm (by push_cast at han ⊢; omega) hloop
      refine ⟨k1, by omega, k3, by rw [k4, hu], fun _ => ?_⟩
      obtain ⟨res, hres1, hres2⟩ := k5 hn
      refine ⟨res, ?_, hres2⟩
      have hidx : st.requests + (n + 1) - 1 = st2.requests + n - 1 := by omega
      rw [hidx]; exact hres1
    simp only [ingestRetryLoop, httpClientDo] at hres
    cases hdo : env.Do st.requests req with
    | error err =>
      rw [hdo] at hres
      dsimp only at hres
      rw [hmax] at hres
      have hcont : (if a = R then ingestRetryLoop env req n (a + 1) true
            { st with requests := st.requests + 1 }
          else ingestRetryLoop env req n (a + 1) h
            (VariableExponentialBackoff st.s.retryDelay a
              { st with requests := st.requests + 1 })) = (.finished false, st1) := by
        by_cases hc : IsClosedConnectionErr err = true
        · rw [if_pos hc] at hres; exact hres
        · rw [if_neg hc] at hres
          by_cases hg : IsGoAwayErr err = true
          · rw [if_pos hg] at hres; exact hres
          · rw [if_neg hg] at hres; simp at hres
      by_cases haR : a = R
      · rw [if_pos haR] at hcont; exact absurd hcont (hflag _)
      · rw [if_neg haR] at hcont
        exact hrec (VariableExponentialBackoff st.s.retryDelay a
          { st with requests := st.requests + 1 }) hmax rfl rfl (hlast haR) hcont
    | ok res =>
      rw [hdo] at hres
      dsimp only at hres
      have hreqs := incrementRequest_requests env { st with requests := st.requests + 1 }
      have hmr := incrementRequest_maxRetries env { st with requests := st.requests + 1 }
      have hurl := incrementRequest_bheUrl env { st with requests := st.requests + 1 }
      rcases hinc : incrementRequest env { st with requests := st.requests + 1 } with ⟨e, st2⟩
      rw [hinc] at hres hreqs hmr hurl
      dsimp only at hreqs hmr hurl
      rw [hmax] at hmr
      cases e with
      | some err => simp at hres
      | none =>
        dsimp only at hres
        rw [hmr] at hres
        by_cases hgw : (decide (res.StatusCode = 504) || decide (res.StatusCode = 503)
            || decide (res.StatusCode = 502)) = true
        · rw [if_pos hgw] at hres
          by_cases haR : a = R
          · rw [if_pos haR] at hres; exact absurd hres (hflag _)
          · rw [if_neg haR] at hres
            exact hrec (VariableExponentialBackoff st2.s.retryDelay a st2) hmr hreqs hurl
              (hlast haR) hres
        · rw [if_neg hgw] at hres
          by_cases h202 : res.StatusCode ≠ 202
          · rw [if_pos h202] at hres; simp at hres
          · rw [if_neg h202] at hres
            have hacc : res.StatusCode = 202 := not_not.mp h202
            rcases Nat.eq_zero_or_pos n with hz | hp
            · subst hz
              obtain ⟨k1, k2, k3, k4, _⟩ := ih (a + 1) h st2 st1 hmr
                (by push_cast at han ⊢; omega) hres
              refine ⟨k1, by omega, k3, by rw [k4, hurl], fun _ => ⟨res, ?_, hacc⟩⟩
              simpa using hdo
            · exact hrec st2 hmr hreqs hurl hp hres

theorem ingestBatches_false (env : Env) (R : Int) (hR : 0 ≤ R) :
    ∀ (batches : List (List Record)) (h : Bool) (st : State), st.s.maxRetries = R →
      (ingestBatches env batches h st).1 = false →
      h = false ∧
      (ingestBatches env batches h st).2.requests
        = st.requests + batches.length * (R + 1).toNat ∧
      ∀ i data, batches.get? i = some data →
        ∃ req res, newIngestRequest env st.s data = .ok req ∧
          env.Do (st.requests + i * (R + 1).toNat + R.toNat) req = .ok res ∧
          res.StatusCode = 202 := by
  intro batches
  induction batches with
  | nil =>
    intro h st _ hfalse
    exact ⟨hfalse, by simp [ingestBatches], fun i data hget => by simp at hget⟩
  | cons data rest ih =>
    intro h st hmax hfalse
    simp only [ingestBatches] at hfalse ⊢
    cases hreq : newIngestRequest env st.s data with
    | error err => rw [hreq] at hfalse; simp at hfalse
    | ok req =>
      rw [hreq] at hfalse
      dsimp only at hfalse ⊢
      rw [hmax] at hfalse ⊢
      rcases hloop : ingestRetryLoop env req (R + 1).toNat 0 h st with ⟨r, st1⟩
      rw [hloop] at hfalse
      cases r with
      | aborted => simp at hfalse
      | finished h1 =>
        dsimp only at hfalse ⊢
        have hpos : 0 < (R + 1).toNat := by omega
        have hcast : ((R + 1).toNat : Int) = R + 1 := Int.toNat_of_nonneg (by omega)
        cases h1 with
        | true =>
          have hk := ingestBatches_keeps_flag env rest st1
          rw [hfalse] at hk
          exact absurd hk (by decide)
        | false =>
          obtain ⟨k1, k2, k3, k4, k5⟩ := ingestRetryLoop_finished_false env req R
            (R + 1).toNat 0 h st st1 hmax (by rw [hcast]; ring) hloop
          obtain ⟨_, t2, t3⟩ := ih false st1 k3 hfalse
          refine ⟨k1, ?_, ?_⟩
          · rw [t2, k2, List.length_cons]; ring
          · intro i d hget
            cases i with
            | zero =>
              simp only [List.get?_cons_zero, Option.some.injEq] at hget
              subst hget
              obtain ⟨res, hres1, hres2⟩ := k5 hpos
              refine ⟨req, res, hreq, ?_, hres2⟩
              have hidx : st.requests + 0 * (R + 1).toNat + R.toNat
                  = st.requests + (R + 1).toNat - 1 := by omega
              rw [hidx]; exact hres1
            | succ j =>
              simp only [List.get?_cons_succ] at hget
              obtain ⟨req2, res, hreq2, hres1, hres2⟩ := t3 j d hget
              refine ⟨req2, res, ?_, ?_, hres2⟩
              · rw [← hreq2]; exact newIngestRequest_congr env st.s st1.s d k4.symm
              · have hidx : st.requests + (j + 1) * (R + 1).toNat + R.toNat
                    = st1.requests + j * (R + 1).toNat + R.toNat := by
                  rw [k2]; ring
                rw [hidx]; exact hres1

/-- C28: with `maxRetries ≥ 0`, whatever the endpoint answers, when `Ingest` returns
false every batch of the stream was sent on all `maxRetries + 1` attempts of its own,
one batch after the other, and the last attempt of each batch was answered 202: no
batch is passed over while the call reports no errors. -/
theorem ingest_false_every_batch_accepted (env : Env) (batches : List (List Record))
    (st : State) (hR : 0 ≤ st.s.maxRetries) (hfalse : (Ingest env batches st).1 = false) :
    (Ingest env batches st).2.requests
      = st.requests + batches.length * (st.s.maxRetries + 1).toNat ∧
    ∀ i data, batches.get? i = some data →
      ∃ req res attempt, attempt < (st.s.maxRetries + 1).toNat ∧
        newIngestRequest env st.s data = .ok req ∧
        env.Do (st.requests + i * (st.s.maxRetries + 1).toNat + attempt) req = .ok res ∧
        res.StatusCode = 202 := by
  obtain ⟨_, h2, h3⟩ := ingestBatches_false env st.s.maxRetries hR batches false st rfl hfalse
  refine ⟨h2, fun i data hget => ?_⟩
  obtain ⟨req, res, hreq, hdo, hacc⟩ := h3 i data hget
  exact ⟨req, res, st.s.maxRetries.toNat, by omega, hreq, hdo, hacc⟩

theorem ingest_false_every_batch_accepted_witness :
    (Ingest (scripted [503, 202, 202, 202]) [testBatch, testBatch] (testClient 10 1)).1 = false ∧
    (Ingest (scripted [503, 202, 202, 202]) [testBatch, testBatch] (testClient 10 1)).2.requests
      = (testClient 10 1).requests + [testBatch, testBatch].length
          * ((testClient 10 1).s.maxRetries + 1).toNat ∧
    ∀ i data, [testBatch, testBatch].get? i = some data →
      ∃ req res attempt, attempt < ((testClient 10 1).s.maxRetries + 1).toNat ∧
        newIngestRequest (scripted [503, 202, 202, 202]) (testClient 10 1).s data = .ok req ∧
        (scripted [503, 202, 202, 202]).Do
          ((testClient 10 1).requests + i * ((testClient 10 1).s.maxRetries + 1).toNat + attempt)
          req = .ok res ∧
        res.StatusCode = 202 :=
  ⟨by decide,
   ingest_false_every_batch_accepted (scripted [503, 202, 202, 202]) [testBatch, testBatch]
     (testClient 10 1) (by decide) (by decide)⟩

/-! ## `IntOrStringInt.UnmarshalJSON` -/

theorem parseUintDigits_isSome (cs : List Char) :
    ∀ acc, (parseUintDigits cs acc).isSome = cs.all Char.isDigit := by
  induction cs with
  | nil => intro acc; rfl
  | cons c cs ih =>
    intro acc
    simp only [parseUintDigits, List.all_cons]
    by_cases hc : c.isDigit = true
    · rw [if_pos hc, ih, hc, Bool.true_and]
    · rw [if_neg hc]
      simp only [Bool.not_eq_true] at hc
      rw [hc]; rfl

theorem parseUintDigits_append (xs ys : List Char) :
    ∀ acc, parseUintDigits (xs ++ ys) acc = (parseUintDigits xs acc).bind (parseUintDigits ys) := by
  induction xs with
  | nil => intro acc; rfl
  | cons c cs ih =>
    intro acc
    simp only [List.cons_append, parseUintDigits]
    by_cases hc : c.isDigit = true
    · rw [if_pos hc, if_pos hc]; exact ih _
    · rw [if_neg hc, if_neg hc]; rfl

theorem digitChar_isDigit (d : Nat) (hd : d < 10) :
    (Nat.digitChar d).isDigit = true ∧ (Nat.digitChar d).toNat - 48 = d ∧
    Nat.digitChar d ≠ '+' ∧ Nat.digitChar d ≠ '-' := by
  interval_cases d <;> decide

theorem toDigitsCore_append (fuel : Nat) :
    ∀ (n : Nat) (ds : List Char),
      Nat.toDigitsCore 10 fuel n ds = Nat.toDigitsCore 10 fuel n [] ++ ds := by
  induction fuel with
  | zero => intro n ds; rfl
  | succ fuel ih =>
    intro n ds
    simp only [Nat.toDigitsCore]
    by_cases hz : n / 10 = 0
    · rw [if_pos hz, if_pos hz]; rfl
    · rw [if_neg hz, if_neg hz, ih (n / 10) (Nat.digitChar (n % 10) :: ds),
        ih (n / 10) [Nat.digitChar (n % 10)], List.append_assoc]; rfl

theorem parseUintDigits_toDigitsCore (fuel : Nat) :
    ∀ n, n < fuel → parseUintDigits (Nat.toDigitsCore 10 fuel n []) 0 = some n := by
  induction fuel with
  | zero => intro n hn; omega
  | succ fuel ih =>
    intro n hn
    obtain ⟨hdig, hval, _, _⟩ := digitChar_isDigit (n % 10) (Nat.mod_lt _ (by decide))
    simp only [Nat.toDigitsCore]
    by_cases hz : n / 10 = 0
    · rw [if_pos hz]
      simp only [parseUintDigits, hdig, if_true, hval]
      exact congrArg some (by omega)
    · have hlt : n / 10 < fuel := by
        have h1 : n / 10 < n := Nat.div_lt_self (Nat.pos_of_ne_zero (fun h0 => hz (by rw [h0]))) (by decide)
        exact Nat.lt_of_lt_of_le h1 (Nat.le_of_lt_succ hn)
      rw [if_neg hz, toDigitsCore_append, parseUintDigits_append, ih (n / 10) hlt]
      simp only [Option.some_bind, parseUintDigits, hdig, if_true, hval]
      exact congrArg some (by rw [Nat.mul_comm]; exact Nat.div_add_mod n 10)

theorem toDigitsCore_head (fuel : Nat) :
    ∀ n, 0 < fuel → ∃ c cs, Nat.toDigitsCore 10 fuel n [] = c :: cs ∧ c ≠ '+' ∧ c ≠ '-' := by
  induction fuel with
  | zero => intro n hn; omega
  | succ fuel ih =>
    intro n _
    obtain ⟨_, _, hplus, hminus⟩ := digitChar_isDigit (n % 10) (Nat.mod_lt _ (by decide))
    simp only [Nat.toDigitsCore]
    by_cases hz : n / 10 = 0
    · rw [if_pos hz]; exact ⟨_, _, rfl, hplus, hminus⟩
    · rw [if_neg hz]
      rcases Nat.eq_zero_or_pos fuel with h0 | hp
      · subst h0; exact ⟨_, _, rfl, hplus, hminus⟩
      · rw [toDigitsCore_append]
        obtain ⟨c, cs, hcs, h1, h2⟩ := ih (n / 10) hp
        rw [hcs]
        exact ⟨c, cs ++ [Nat.digitChar (n % 10)], rfl, h1, h2⟩

theorem strconvParseInt_repr (fn : String) (m : Nat) (hm : m < 2 ^ 63) :
    strconvParseInt fn (Nat.repr m) = .ok (m : Int) := by
  obtain ⟨c, cs, hcs, h1, h2⟩ := toDigitsCore_head (m + 1) m (by omega)
  have hparse := parseUintDigits_toDigitsCore (m + 1) m (by omega)
  have hdata : (Nat.repr m).data = c :: cs := by
    simp only [Nat.repr, Nat.toDigits, List.asString]
    exact hcs
  rw [hcs] at hparse
  simp only [strconvParseInt, hdata, splitSign, if_neg h1, if_neg h2, hparse]
  simp
  omega

theorem strconvParseInt_neg_repr (fn : String) (m : Nat) (hm : m ≤ 2 ^ 63) (hpos : 0 < m) :
    strconvParseInt fn ("-" ++ Nat.repr m) = .ok (-(m : Int)) := by
  have hparse := parseUintDigits_toDigitsCore (m + 1) m (by omega)
  obtain ⟨c, cs, hcs, _, _⟩ := toDigitsCore_head (m + 1) m (by omega)
  have hdata : ("-" ++ Nat.repr m).data = '-' :: c :: cs := by
    simp only [Nat.repr, Nat.toDigits, List.asString, String.data_append]
    rw [hcs]; rfl
  rw [hcs] at hparse
  simp only [strconvParseInt, hdata, splitSign]
  simp [hparse]
  omega

theorem strconvParseInt_toString (fn : String) (n : Int) (hlo : -2 ^ 63 ≤ n)
    (hhi : n < 2 ^ 63) : strconvParseInt fn (toString n) = .ok n := by
  cases n with
  | ofNat m =>
    have hm : m < 2 ^ 63 := by
      have : (m : Int) < 2 ^ 63 := hhi
      exact_mod_cast this
    exact strconvParseInt_repr fn m hm
  | negSucc m =>
    have hm : m + 1 ≤ 2 ^ 63 := by
      have h1 : -2 ^ 63 ≤ -((m : Int) + 1) := by
        have := hlo
        rw [Int.negSucc_eq] at this
        exact this
      have h2 : ((m : Int) + 1) ≤ 2 ^ 63 := by linarith
      exact_mod_cast h2
    have := strconvParseInt_neg_repr fn (m + 1) hm (by omega)
    rw [Int.negSucc_eq]
    exact_mod_cast this

theorem strconvParseInt_rejects (fn s : String) (h : decimalInteger s = false) :
    ∃ err, strconvParseInt fn s = .error err := by
  simp only [decimalInteger, Bool.and_eq_false_iff, decide_eq_false_iff_not, not_not] at h
  rcases hsplit : splitSign s.data with ⟨neg, digits⟩
  rw [hsplit] at h
  dsimp only at h
  simp only [strconvParseInt, hsplit]
  rcases h with h | h
  · rw [if_pos h]; exact ⟨_, rfl⟩
  · by_cases hd : digits = []
    · rw [if_pos hd]; exact ⟨_, rfl⟩
    · rw [if_neg hd]
      have hsome := parseUintDigits_isSome digits 0
      rw [h] at hsome
      cases hp : parseUintDigits digits 0 with
      | none => exact ⟨_, rfl⟩
      | some un => rw [hp] at hsome; simp at hsome

/-- C25 (counterexample): JSON null is neither an integer number nor a string of
decimal digits, yet `UnmarshalJSON` returns no error for it and replaces the value 7
by 0; and the string `+5`, which holds a sign besides its digit, is accepted and
stored as 5. -/
theorem unmarshalJSON_null_counterexample :
    UnmarshalJSON ⟨"null", .null⟩ 7 = (none, 0) ∧
    UnmarshalJSON ⟨"\"+5\"", .string "+5"⟩ 7 = (none, 5) := by
  decide

/-- C25 (amended): for every `n` of the 64-bit `int` range, `UnmarshalJSON` applied to
the JSON number `n` and to the JSON string holding the decimal text of `n` returns no
error and stores `n`; applied to JSON null it returns no error and stores 0; applied
to a boolean, an array, an object, an invalid text, or a number or string that is not
an optional sign followed by decimal digits, it returns an error and leaves the value
as it was. -/
theorem unmarshalJSON_stores_integer_or_rejects (ios n : Int) (hlo : -2 ^ 63 ≤ n)
    (hhi : n < 2 ^ 63) (raw : String) (data : JSONData)
    (hdata : data.notAnInteger = true) :
    UnmarshalJSON ⟨raw, .number (toString n)⟩ ios = (none, n) ∧
    UnmarshalJSON ⟨raw, .string (toString n)⟩ ios = (none, n) ∧
    UnmarshalJSON ⟨raw, .null⟩ ios = (none, 0) ∧
    (UnmarshalJSON data ios).1 ≠ none ∧ (UnmarshalJSON data ios).2 = ios := by
  refine ⟨?_, ?_, rfl, ?_⟩
  · simp only [UnmarshalJSON, jsonUnmarshalInt, strconvParseInt_toString "ParseInt" n hlo hhi]
  · simp only [UnmarshalJSON, jsonUnmarshalInt, jsonUnmarshalString, strconvAtoi,
      strconvParseInt_toString "Atoi" n hlo hhi]
  · rcases data with ⟨text, holds⟩
    cases holds with
    | null => simp [JSONData.notAnInteger] at hdata
    | bool b => exact ⟨by simp [UnmarshalJSON, jsonUnmarshalInt, jsonUnmarshalString], rfl⟩
    | array => exact ⟨by simp [UnmarshalJSON, jsonUnmarshalInt, jsonUnmarshalString], rfl⟩
    | object => exact ⟨by simp [UnmarshalJSON, jsonUnmarshalInt, jsonUnmarshalString], rfl⟩
    | invalid => exact ⟨by simp [UnmarshalJSON, jsonUnmarshalInt, jsonUnmarshalString], rfl⟩
    | number literal =>
      have hlit : decimalInteger literal = false := by
        simpa [JSONData.notAnInteger] using hdata
      obtain ⟨err, herr⟩ := strconvParseInt_rejects "ParseInt" literal hlit
      simp only [UnmarshalJSON, jsonUnmarshalInt, jsonUnmarshalString, herr]
      exact ⟨by simp, trivial⟩
    | string s =>
      have hstr : decimalInteger s = false := by
        simpa [JSONData.notAnInteger] using hdata
      obtain ⟨err, herr⟩ := strconvParseInt_rejects "Atoi" s hstr
      simp only [UnmarshalJSON, jsonUnmarshalInt, jsonUnmarshalString, strconvAtoi, herr]
      exact ⟨by simp, trivial⟩

theorem unmarshalJSON_stores_integer_or_rejects_witness :
    toString (-42 : Int) = "-42" ∧
    (JSONData.mk "1.5" (.number "1.5")).notAnInteger = true ∧
    UnmarshalJSON ⟨"-42", .number (toString (-42 : Int))⟩ 7 = (none, -42) ∧
    UnmarshalJSON ⟨"-42", .string (toString (-42 : Int))⟩ 7 = (none, -42) ∧
    UnmarshalJSON ⟨"-42", .null⟩ 7 = (none, 0) ∧
    (UnmarshalJSON ⟨"1.5", .number "1.5"⟩ 7).1 ≠ none ∧
    (UnmarshalJSON ⟨"1.5", .number "1.5"⟩ 7).2 = 7 :=
  ⟨by decide, by decide,
   unmarshalJSON_stores_integer_or_rejects 7 (-42) (by decide) (by decide) "-42"
     ⟨"1.5", .number "1.5"⟩ (by decide)⟩

/-! ## `formatRoleManagementPolicyAssignment` -/

theorem approverLoop_eq (approvers : List PrimaryApprovers) :
    ∀ acc : List String × List String,
      approverLoop approvers acc =
        (acc.1 ++ (approvers.filter
            (fun approver => decide (approver.Type_ = ApprovalStageSingleUser))).map
            (fun approver => approver.UserId),
         acc.2 ++ (approvers.filter
            (fun approver => decide (approver.Type_ = ApprovalStageGroupMembers))).map
            (fun approver => approver.GroupId)) := by
  induction approvers with
  | nil => intro acc; simp [approverLoop]
  | cons approver rest ih =>
    intro acc
    have hstep : approverLoop (approver :: rest) acc = approverLoop rest
        (if approver.Type_ = ApprovalStageSingleUser then (acc.1 ++ [approver.UserId], acc.2)
         else if approver.Type_ = ApprovalStageGroupMembers then
           (acc.1, acc.2 ++ [approver.GroupId])
         else acc) := rfl
    rw [hstep, ih]
    have hne : ApprovalStageSingleUser ≠ ApprovalStageGroupMembers := by decide
    by_cases hu : approver.Type_ = ApprovalStageSingleUser
    · have hg : ¬ approver.Type_ = ApprovalStageGroupMembers := by rw [hu]; exact hne
      simp [hu, hg, List.filter_cons, hne]
    · by_cases hg : approver.Type_ = ApprovalStageGroupMembers
      · have hne2 : ¬ ApprovalStageGroupMembers = ApprovalStageSingleUser := by decide
        simp [hg, hne2, List.filter_cons]
      · simp [hu, hg, List.filter_cons]

theorem stageLoop_eq (stages : List UnifiedApprovalStages) :
    ∀ acc : List String × List String,
      stageLoop stages acc =
        (acc.1 ++ (((stages.map (fun stage => stage.PrimaryApprovers)).flatten).filter
            (fun approver => decide (approver.Type_ = ApprovalStageSingleUser))).map
            (fun approver => approver.UserId),
         acc.2 ++ (((stages.map (fun stage => stage.PrimaryApprovers)).flatten).filter
            (fun approver => decide (approver.Type_ = ApprovalStageGroupMembers))).map
            (fun approver => approver.GroupId)) := by
  induction stages with
  | nil => intro acc; simp [stageLoop]
  | cons stage rest ih =>
    intro acc
    have hstep : stageLoop (stage :: rest) acc
        = stageLoop rest (approverLoop stage.PrimaryApprovers acc) := rfl
    rw [hstep, ih, approverLoop_eq]
    simp [List.filter_append, List.map_append, List.append_assoc]

theorem formatRules_cons_decodes (rule : RawRule) (rest : List RawRule)
    (rm : RoleManagementPolicyAssignment) (hdec : rule.decodes = true) :
    formatRules (rule :: rest) rm = formatRules rest (decodedStep rule rm) := by
  have h12 : PolicyRuleEnablement ≠ PolicyRuleApproval := by decide
  have h13 : PolicyRuleAuthenticationContext ≠ PolicyRuleApproval := by decide
  have h23 : PolicyRuleAuthenticationContext ≠ PolicyRuleEnablement := by decide
  rcases rule with ⟨ruleType, approval, enablement, authenticationContext⟩
  cases ruleType with
  | error err => simp [RawRule.decodes] at hdec
  | ok ruleType =>
    simp only [RawRule.decodes] at hdec
    by_cases h1 : ruleType = PolicyRuleApproval
    · subst h1
      cases approval with
      | error err => simp [Except.isOk, Except.toBool] at hdec
      | ok r =>
        simp [formatRules, decodedStep, RawRule.hasType, unmarshallPolicyRuleApproval]
    · by_cases h2 : ruleType = PolicyRuleEnablement
      · subst h2
        cases enablement with
        | error err => simp [Except.isOk, Except.toBool, h12] at hdec
        | ok r =>
          simp [formatRules, decodedStep, RawRule.hasType, unmarshallPolicyRuleEnablement, h12]
      · by_cases h3 : ruleType = PolicyRuleAuthenticationContext
        · subst h3
          cases authenticationContext with
          | error err => simp [Except.isOk, Except.toBool, h13, h23] at hdec
          | ok r =>
            simp [formatRules, decodedStep, RawRule.hasType,
              unmarshallPolicyRuleAuthenticationContext, h13, h23]
        · simp [formatRules, decodedStep, RawRule.hasType, h1, h2, h3]

theorem formatRules_view {α : Type} (V : RoleManagementPolicyAssignment → α)
    (p : RawRule → Bool) (val : RawRule → α → Prop)
    (hkeep : ∀ rule rm, p rule = false → V (decodedStep rule rm) = V rm)
    (hset : ∀ rule rm, p rule = true → val rule (V (decodedStep rule rm))) :
    ∀ (rules : List RawRule) (rm : RoleManagementPolicyAssignment),
      rules.all RawRule.decodes = true →
      (formatRules rules rm).2 = none ∧
      (rules.filter p = [] → V (formatRules rules rm).1 = V rm) ∧
      (∀ rule, rules.filter p = [rule] → val rule (V (formatRules rules rm).1)) := by
  intro rules
  induction rules with
  | nil =>
    intro rm _
    exact ⟨rfl, fun _ => rfl, fun rule h => by simp at h⟩
  | cons r rest ih =>
    intro rm hdec
    simp only [List.all_cons, Bool.and_eq_true] at hdec
    obtain ⟨hr, hrest⟩ := hdec
    rw [formatRules_cons_decodes r rest rm hr]
    obtain ⟨i1, i2, i3⟩ := ih (decodedStep r rm) hrest
    refine ⟨i1, ?_, ?_⟩
    · intro hnil
      cases hp : p r with
      | true => simp [List.filter_cons, hp] at hnil
      | false =>
        simp only [List.filter_cons, hp] at hnil
        rw [i2 (by simpa using hnil), hkeep r rm hp]
    · intro rule hone
      cases hp : p r with
      | true =>
        simp only [List.filter_cons, hp, if_true, List.cons.injEq] at hone
        obtain ⟨hrule, hnil⟩ := hone
        subst hrule
        rw [i2 hnil]
        exact hset r rm hp
      | false =>
        simp only [List.filter_cons, hp] at hone
        exact i3 rule (by simpa using hone)

theorem formatRules_skips_other_types (rule : RawRule) (ruleType : String)
    (htype : rule.ruleType = .ok ruleType) (h1 : ruleType ≠ PolicyRuleApproval)
    (h2 : ruleType ≠ PolicyRuleEnablement) (h3 : ruleType ≠ PolicyRuleAuthenticationContext)
    (post : List RawRule) :
    ∀ (pre : List RawRule) (rm : RoleManagementPolicyAssignment),
      formatRules (pre ++ rule :: post) rm = formatRules (pre ++ post) rm := by
  intro pre
  induction pre with
  | nil =>
    intro rm
    simp [formatRules, htype, h1, h2, h3]
  | cons r rest ih =>
    intro rm
    simp only [List.cons_append, formatRules]
    cases r.ruleType with
    | error err => rfl
    | ok t =>
      dsimp only
      split_ifs
      · rcases unmarshallPolicyRuleApproval r rm with ⟨e, rm1⟩
        cases e with
        | some err => rfl
        | none => exact ih rm1
      · rcases unmarshallPolicyRuleEnablement r rm with ⟨e, rm1⟩
        cases e with
        | some err => rfl
        | none => exact ih rm1
      · rcases unmarshallPolicyRuleAuthenticationContext r rm with ⟨e, rm1⟩
        cases e with
        | some err => rfl
        | none => exact ih rm1
      · exact ih rm

/-- C27 (counterexample): an assignment with one approval rule, one enablement rule,
an enabled authentication-context rule and an expiration rule.  The
authentication-context rule is neither the approval nor the enablement rule, yet it
changes the result: with it `EndUserAssignmentRequiresCAPAuthenticationContext` is
true, and without it the field is false. -/
theorem formatRules_authentication_context_counterexample :
    (formatRoleManagementPolicyAssignment ⟨"id", "role", testRules⟩).2 = none ∧
    (formatRoleManagementPolicyAssignment
      ⟨"id", "role", testRules⟩).1.EndUserAssignmentRequiresCAPAuthenticationContext = true ∧
    (formatRoleManagementPolicyAssignment ⟨"id", "role", testRules.eraseIdx 2⟩).2 = none ∧
    (formatRoleManagementPolicyAssignment
      ⟨"id", "role", testRules.eraseIdx 2⟩).1.EndUserAssignmentRequiresCAPAuthenticationContext
        = false := by
  decide

/-- C27 (amended): for every policy assignment all of whose rules decode, with
exactly one approval rule and exactly one enablement rule, the formatter returns no
error, copies Id and RoleDefinitionId, sets the user approvers to the UserIds of the
primary approvers of type `#microsoft.graph.singleUser` and the group approvers to the
GroupIds of those of type `#microsoft.graph.groupMembers`, in order across the approval
stages, sets RequiresApproval to the rule's isApprovalRequired, and sets RequiresMFA /
RequiresJustification / RequiresTicketInformation exactly when the enabled rules hold
"MultiFactorAuthentication" / "Justification" / "Ticketing"; the authentication-context
flag stays false when no authentication-context rule is present; and a rule whose type
is none of approval, enablement and authentication context can be taken out of any
rule list without changing what the loop returns. -/
theorem formatRoleManagementPolicyAssignment_fields
    (assignment : UnifiedRoleManagementPolicyAssignment) (approvalRule enablementRule : RawRule)
    (approval : UnifiedRoleManagementPolicyApprovalRule)
    (enablement : UnifiedRoleManagementPolicyEnablementRule)
    (hdec : assignment.Rules.all RawRule.decodes = true)
    (happ : assignment.Rules.filter (fun rule => rule.hasType PolicyRuleApproval)
      = [approvalRule])
    (ha : approvalRule.approval = .ok approval)
    (hen : assignment.Rules.filter (fun rule => rule.hasType PolicyRuleEnablement)
      = [enablementRule])
    (he : enablementRule.enablement = .ok enablement) :
    (formatRoleManagementPolicyAssignment assignment).2 = none ∧
    (formatRoleManagementPolicyAssignment assignment).1.Id = assignment.Id ∧
    (formatRoleManagementPolicyAssignment assignment).1.RoleDefinitionId
      = assignment.RoleDefinitionId ∧
    (formatRoleManagementPolicyAssignment assignment).1.EndUserAssignmentUserApprovers
      = userApproversOf approval ∧
    (formatRoleManagementPolicyAssignment assignment).1.EndUserAssignmentGroupApprovers
      = groupApproversOf approval ∧
    (formatRoleManagementPolicyAssignment assignment).1.EndUserAssignmentRequiresApproval
      = approval.Setting.IsApprovalRequired ∧
    ((formatRoleManagementPolicyAssignment assignment).1.EndUserAssignmentRequiresMFA = true
      ↔ "MultiFactorAuthentication" ∈ enablement.EnabledRules) ∧
    ((formatRoleManagementPolicyAssignment assignment).1.EndUserAssignmentRequiresJustification
      = true ↔ "Justification" ∈ enablement.EnabledRules) ∧
    ((formatRoleManagementPolicyAssignment assignment).1.EndUserAssignmentRequiresTicketInformation
      = true ↔ "Ticketing" ∈ enablement.EnabledRules) ∧
    (assignment.Rules.filter (fun rule => rule.hasType PolicyRuleAuthenticationContext) = [] →
      (formatRoleManagementPolicyAssignment
        assignment).1.EndUserAssignmentRequiresCAPAuthenticationContext = false) ∧
    (∀ (pre post : List RawRule) (rule : RawRule) (ruleType : String)
        (rm : RoleManagementPolicyAssignment),
      rule.ruleType = .ok ruleType → ruleType ≠ PolicyRuleApproval →
      ruleType ≠ PolicyRuleEnablement → ruleType ≠ PolicyRuleAuthenticationContext →
      formatRules (pre ++ rule :: post) rm = formatRules (pre ++ post) rm) := by
  have h12 : PolicyRuleEnablement ≠ PolicyRuleApproval := by decide
  have h13 : PolicyRuleAuthenticationContext ≠ PolicyRuleApproval := by decide
  have h23 : PolicyRuleAuthenticationContext ≠ PolicyRuleEnablement := by decide
  have hid := formatRules_view identityView (fun _ => false) (fun _ _ => True)
    (by
      intro rule rm _
      simp only [decodedStep, unmarshallPolicyRuleApproval, unmarshallPolicyRuleEnablement,
        unmarshallPolicyRuleAuthenticationContext]
      cases rule.approval <;> cases rule.enablement <;> cases rule.authenticationContext <;>
        split_ifs <;> rfl)
    (by intro rule rm h; simp at h)
  have happroval := formatRules_view approvalView
    (fun rule => rule.hasType PolicyRuleApproval)
    (fun rule v => ∀ a, rule.approval = .ok a →
      v = (userApproversOf a, groupApproversOf a, a.Setting.IsApprovalRequired))
    (by
      intro rule rm hp
      dsimp only at hp
      simp only [decodedStep, hp, Bool.false_eq_true, if_false, unmarshallPolicyRuleEnablement,
        unmarshallPolicyRuleAuthenticationContext]
      cases rule.enablement <;> cases rule.authenticationContext <;> split_ifs <;> rfl)
    (by
      intro rule rm hp a hrule
      dsimp only at hp
      simp only [decodedStep, hp, if_true, unmarshallPolicyRuleApproval, hrule, approvalView,
        stageLoop_eq, List.nil_append, userApproversOf, groupApproversOf])
  have henablement := formatRules_view enablementView
    (fun rule => rule.hasType PolicyRuleEnablement)
    (fun rule v => ∀ e, rule.enablement = .ok e →
      v = (e.EnabledRules.contains "MultiFactorAuthentication",
        e.EnabledRules.contains "Justification", e.EnabledRules.contains "Ticketing"))
    (by
      intro rule rm hp
      dsimp only at hp
      simp only [decodedStep, hp, Bool.false_eq_true, if_false, unmarshallPolicyRuleApproval,
        unmarshallPolicyRuleAuthenticationContext]
      cases rule.approval <;> cases rule.authenticationContext <;> split_ifs <;> rfl)
    (by
      intro rule rm hp e hrule
      dsimp only at hp
      have hnot : rule.hasType PolicyRuleApproval = false := by
        simp only [RawRule.hasType, decide_eq_true_eq] at hp
        simp [RawRule.hasType, hp, h12]
      simp only [decodedStep, hp, hnot, if_true, unmarshallPolicyRuleEnablement, hrule,
        enablementView]
      rfl)
  have hcontext := formatRules_view
    (fun rm => rm.EndUserAssignmentRequiresCAPAuthenticationContext)
    (fun rule => rule.hasType PolicyRuleAuthenticationContext) (fun _ _ => True)
    (by
      intro rule rm hp
      dsimp only at hp
      simp only [decodedStep, hp, Bool.false_eq_true, if_false, unmarshallPolicyRuleApproval,
        unmarshallPolicyRuleEnablement]
      cases rule.approval <;> cases rule.enablement <;> split_ifs <;> rfl)
    (by intro rule rm _; trivial)
  unfold formatRoleManagementPolicyAssignment
  have hrmId : (initialPolicyAssignment assignment).Id = assignment.Id := rfl
  have hrmRole : (initialPolicyAssignment assignment).RoleDefinitionId
      = assignment.RoleDefinitionId := rfl
  have hrmCtx : (initialPolicyAssignment
      assignment).EndUserAssignmentRequiresCAPAuthenticationContext = false := rfl
  generalize initialPolicyAssignment assignment = rm0 at hrmId hrmRole hrmCtx ⊢
  obtain ⟨e1, e2, _⟩ := hid assignment.Rules rm0 hdec
  obtain ⟨_, _, a3⟩ := happroval assignment.Rules rm0 hdec
  obtain ⟨_, _, n3⟩ := henablement assignment.Rules rm0 hdec
  obtain ⟨_, c2, _⟩ := hcontext assignment.Rules rm0 hdec
  have hidv := e2 (by simp)
  have hav := a3 approvalRule happ approval ha
  have hev := n3 enablementRule hen enablement he
  simp only [identityView, Prod.mk.injEq] at hidv
  simp only [approvalView, Prod.mk.injEq] at hav
  simp only [enablementView, Prod.mk.injEq] at hev
  refine ⟨e1, ?_, ?_, hav.1, hav.2.1, hav.2.2, ?_, ?_, ?_, ?_, ?_⟩
  · rw [hidv.2.1, hrmId]
  · rw [hidv.2.2.1, hrmRole]
  · rw [hev.1]; simp
  · rw [hev.2.1]; simp
  · rw [hev.2.2]; simp
  · intro hnone; exact (c2 hnone).trans hrmCtx
  · intro pre post rule ruleType rm htype n1 n2 n3
    exact formatRules_skips_other_types rule ruleType htype n1 n2 n3 post pre rm

theorem formatRoleManagementPolicyAssignment_fields_witness :
    (formatRoleManagementPolicyAssignment ⟨"id", "role", testRules⟩).1.EndUserAssignmentUserApprovers
      = ["u1", "u2"] ∧
    (formatRoleManagementPolicyAssignment ⟨"id", "role", testRules⟩).1.EndUserAssignmentGroupApprovers
      = ["g1"] ∧
    (formatRoleManagementPolicyAssignment ⟨"id", "role", testRules⟩).1.EndUserAssignmentRequiresMFA
      = true ∧
    (formatRoleManagementPolicyAssignment
      ⟨"id", "role", testRules⟩).1.EndUserAssignmentRequiresJustification = false ∧
    (formatRoleManagementPolicyAssignment ⟨"id", "role", testRules⟩).2 = none ∧
    (formatRoleManagementPolicyAssignment ⟨"id", "role", testRules⟩).1.Id = "id" :=
  have h := formatRoleManagementPolicyAssignment_fields ⟨"id", "role", testRules⟩
    (decodedRule PolicyRuleApproval testApprovalRule ⟨[]⟩ ⟨false⟩)
    (decodedRule PolicyRuleEnablement ⟨⟨[], false⟩⟩ ⟨["MultiFactorAuthentication", "Ticketing"]⟩
      ⟨false⟩)
    testApprovalRule ⟨["MultiFactorAuthentication", "Ticketing"]⟩
    (by decide) (by decide) rfl (by decide) rfl
  ⟨by decide, by decide, by decide, by decide, h.1, h.2.1⟩

/-! ## The verbs of `restClient` -/

/-- C29 (code bug): whatever path, body, params and headers are given, the request
`restClient.Put` builds and sends carries the method POST, not PUT, because
`http.MethodPost` is what it hands to `NewRequest`; Delete, Get, Patch and Post each
send a request with the method they are named after. -/
theorem restClient_put_sends_post (env : RestCollaborators) (hnew : newRequestKeepsMethod env)
    (path : String) (body : Option String) (params : Option QueryParams)
    (headers : List (String × String)) :
    (∀ req, (restClient.Put env path body params headers).1 = some req →
      req.Method = "POST" ∧ req.Method ≠ "PUT" ∧
      (restClient.Put env path body params headers).2 = env.Send req) ∧
    (∀ req, (restClient.Delete env path body params headers).1 = some req →
      req.Method = "DELETE") ∧
    (∀ req, (restClient.Get env path params headers).1 = some req → req.Method = "GET") ∧
    (∀ req, (restClient.Patch env path body params headers).1 = some req →
      req.Method = "PATCH") ∧
    (∀ req, (restClient.Post env path body params headers).1 = some req →
      req.Method = "POST") := by
  refine ⟨?_, ?_, ?_, ?_, ?_⟩
  · intro req hreq
    simp only [restClient.Put] at hreq ⊢
    cases hnr : env.NewRequest MethodPost (env.ResolveReference path) body (paramsMapOf params)
        headers with
    | error err => rw [hnr] at hreq; simp at hreq
    | ok built =>
      rw [hnr] at hreq
      simp only [Option.some.injEq] at hreq
      subst hreq
      have hm := hnew _ _ _ _ _ _ hnr
      refine ⟨hm, ?_, rfl⟩
      rw [hm]; decide
  · intro req hreq
    simp only [restClient.Delete] at hreq
    cases hnr : env.NewRequest MethodDelete (env.ResolveReference path) body
        (paramsMapOf params) headers with
    | error err => rw [hnr] at hreq; simp at hreq
    | ok built =>
      rw [hnr] at hreq
      simp only [Option.some.injEq] at hreq
      subst hreq
      exact hnew _ _ _ _ _ _ hnr
  · intro req hreq
    simp only [restClient.Get] at hreq
    split at hreq
    · simp at hreq
    · next built hnr =>
      simp only [Option.some.injEq] at hreq
      subst hreq
      exact hnew _ _ _ _ _ _ hnr
  · intro req hreq
    simp only [restClient.Patch] at hreq
    cases hnr : env.NewRequest MethodPatch (env.ResolveReference path) body
        (paramsMapOf params) headers with
    | error err => rw [hnr] at hreq; simp at hreq
    | ok built =>
      rw [hnr] at hreq
      simp only [Option.some.injEq] at hreq
      subst hreq
      exact hnew _ _ _ _ _ _ hnr
  · intro req hreq
    simp only [restClient.Post] at hreq
    cases hnr : env.NewRequest MethodPost (env.ResolveReference path) body
        (paramsMapOf params) headers with
    | error err => rw [hnr] at hreq; simp at hreq
    | ok built =>
      rw [hnr] at hreq
      simp only [Option.some.injEq] at hreq
      subst hreq
      exact hnew _ _ _ _ _ _ hnr

theorem restClient_put_sends_post_witness :
    ((restClient.Put testRest "/v1.0/x" (some "body") none []).1.map (fun req => req.Method))
      = some "POST" ∧
    ∀ req, (restClient.Put testRest "/v1.0/x" (some "body") none []).1 = some req →
      req.Method = "POST" ∧ req.Method ≠ "PUT" ∧
      (restClient.Put testRest "/v1.0/x" (some "body") none []).2 = testRest.Send req :=
  ⟨by decide,
   (restClient_put_sends_post testRest
     (by
       intro method endpoint body params headers req h
       simp only [testRest, Except.ok.injEq] at h
       rw [← h])
     "/v1.0/x" (some "body") none []).1⟩

/-! ## `proxyDialer.Dial` -/

/-- C30 (code bug): when the forward dialer is set, the proxy is reached and the
CONNECT request is written, but reading the response fails, `Dial` closes the
connection and then ends in a nil-dereference panic instead of returning the error,
because the deferred function reads `res.Body` of the missing response; when the
forward dialer is unset `Dial` returns an error without dialing. -/
theorem dial_panics_when_response_missing (env : ProxyCollaborators) (s : proxyDialer)
    (network addr : String) (err : GoError)
    (hdial : env.forwardDial network s.host = none)
    (hreq : env.NewRequest "CONNECT" ("//" ++ addr) = none)
    (hwrite : env.Write = none)
    (hread : env.ReadResponse = .error err) :
    (s.forward = true →
      (proxyDialer.Dial env s network addr).1 = .panic nilDereference ∧
      DialEvent.connClose ∈ (proxyDialer.Dial env s network addr).2 ∧
      ∀ e, (proxyDialer.Dial env s network addr).1 ≠ .error e) ∧
    (s.forward = false →
      proxyDialer.Dial env s network addr =
        (.error (fmtErrorf ("unable to connect to " ++ s.host ++ ": forward dialer not set")),
          [])) := by
  constructor
  · intro hforward
    have hdial_eq : proxyDialer.Dial env s network addr =
        (.panic nilDereference,
          [DialEvent.forwardDial network s.host,
           .write (if s.user ≠ "" then some (s.user, s.pass) else none),
           .readResponse] ++ [.connClose]) := by
      simp [proxyDialer.Dial, hforward, hdial, hreq, hwrite, hread, deferredBodyClose]
    rw [hdial_eq]
    refine ⟨rfl, by simp, ?_⟩
    intro e h
    cases h
  · intro hforward
    simp [proxyDialer.Dial, hforward]

theorem dial_panics_when_response_missing_witness :
    ((proxyDialer.Dial (testProxy (.error (fmtErrorf "unexpected EOF")))
        ⟨"proxy:8080", "", "", true⟩ "tcp" "bhe.com:443").1 = .panic nilDereference) ∧
    (proxyDialer.Dial (testProxy (.error (fmtErrorf "unexpected EOF")))
        ⟨"proxy:8080", "", "", false⟩ "tcp" "bhe.com:443").2 = [] :=
  ⟨((dial_panics_when_response_missing (testProxy (.error (fmtErrorf "unexpected EOF")))
      ⟨"proxy:8080", "", "", true⟩ "tcp" "bhe.com:443" (fmtErrorf "unexpected EOF")
      rfl rfl rfl rfl).1 rfl).1,
   by decide⟩

end AzureHound
